import Mathlib

/-!
Verification of the day-labelled C++ exercises.

Shallow embedding of `day09/key06.cpp`, `day09/key07.cpp` (binary search), `day10/ex2.cpp`
(university registration system), `day09/key02.cpp` (linear search, namespace `Key02`) and
`day08/handling_tct/student/stu2.cpp` (simple student manager, namespace `Stu2`), followed by
the theorems proved about them.

Conventions of the embedding:

* `int` is a mathematical integer; where a result can leave the 32-bit two's-complement range
  (the index arithmetic of the binary search, the student ID counter) it is reduced to that
  range by `wrap32`;
* `std::string` is the list of its characters;
* a `double` variable holds the rational number it denotes. Arithmetic on the values in memory
  is exact: the rounding of a product to 53 significant bits is not represented. The conversion
  from text, `std::stod`, rounds to the nearest `double` (`nearestDouble`), as `strtod` does,
  and its result (`Double`) can be an infinity or a NaN; a variable cannot hold these, and a
  line of a file with such a field is marked `LoadError.non_finite_field`;
* console input is an explicit argument, file contents and the function-local static
  counter are explicit state; console output is represented only where a property is about
  it (`Key02.Message`, `Stu2.Message`);
* an operation whose input-validation loop never receives an acceptable value does not
  return, which is the result `none`; in `Stu2`, `none` is the output of a record one of whose
  fields was never given a value.
-/

set_option maxRecDepth 100000

/-- The value of an `int` expression: the mathematical result reduced to the 32-bit
two's-complement range. -/
def wrap32 (x : Int) : Int := (x + 2147483648) % 4294967296 - 2147483648

/-- Result of running `binarysearch`: the returned `int`, undefined behaviour (a read outside the
array), or exhaustion of the fuel given to the loop. -/
inductive Outcome where
  | ret (v : Int)
  | undefined
  | outOfFuel
  deriving DecidableEq

/-- The read `arr[i]` of a C array holding the elements of `arr`: defined only for an index
inside the array. -/
def readArr (arr : List Int) (i : Int) : Option Int :=
  if 0 ≤ i then arr[i.toNat]? else none

/-- The `while (left <= right)` loop of `binarysearch` (day09/key06.cpp lines 8-18, identical in
day09/key07.cpp lines 11-21), one iteration per unit of fuel. -/
def binarysearchLoop : Nat → List Int → Int → Int → Int → Outcome
  | 0, _, _, _, _ => Outcome.outOfFuel
  | fuel + 1, arr, key, left, right =>
    if left ≤ right then
      let mid := Int.tdiv (wrap32 (left + right)) 2
      match readArr arr mid with
      | none => Outcome.undefined
      | some v =>
        if v = key then Outcome.ret mid
        else if v < key then binarysearchLoop fuel arr key (wrap32 (mid + 1)) right
        else binarysearchLoop fuel arr key left (wrap32 (mid - 1))
    else Outcome.ret (-1)

/-- Function `binarysearch(arr, size, key)` of day09/key06.cpp and day09/key07.cpp. Every iteration
that continues narrows `right - left`, so `size + 1` units of fuel are enough. -/
def binarysearch (arr : List Int) (size : Int) (key : Int) : Outcome :=
  binarysearchLoop (size.toNat + 1) arr key 0 (wrap32 (size - 1))

/-- Sortedness phrased over the checked read `readArr`. -/
def SortedReads (arr : List Int) : Prop :=
  ∀ i j a b, i ≤ j → readArr arr i = some a → readArr arr j = some b → a ≤ b

/-- A sorted array of 2^30 + 1 elements: 2^30 zeros followed by a one. -/
def zerosThenOne : List Int := List.replicate 1073741824 0 ++ [1]

/-- A sorted array of 2^30 + 1 zeros. -/
def allZeros : List Int := List.replicate 1073741824 0 ++ [0]

/-- The values of `left`, `right` and `mid` in one iteration of the loop of `binarysearch`. -/
structure Iteration where
  left : Int
  right : Int
  mid : Int
  deriving DecidableEq

/-- The loop of `binarysearch` (day09/key06.cpp lines 8-18) run as in `binarysearchLoop`, which
also records each iteration it enters. -/
def binarysearchRun : Nat → List Int → Int → Int → Int → Outcome × List Iteration
  | 0, _, _, _, _ => (Outcome.outOfFuel, [])
  | fuel + 1, arr, key, left, right =>
    if left ≤ right then
      let mid := Int.tdiv (wrap32 (left + right)) 2
      let here : Iteration := { left := left, right := right, mid := mid }
      match readArr arr mid with
      | none => (Outcome.undefined, [here])
      | some v =>
        if v = key then (Outcome.ret mid, [here])
        else if v < key then
          let r := binarysearchRun fuel arr key (wrap32 (mid + 1)) right
          (r.1, here :: r.2)
        else
          let r := binarysearchRun fuel arr key left (wrap32 (mid - 1))
          (r.1, here :: r.2)
    else (Outcome.ret (-1), [])

/-- The iterations of a call `binarysearch(arr, size, key)`. -/
def binarysearchIterations (arr : List Int) (size : Int) (key : Int) : List Iteration :=
  (binarysearchRun (size.toNat + 1) arr key 0 (wrap32 (size - 1))).2

/-- The C++ std::string, as its sequence of characters. -/
abbrev Str := List Char

/-- Record `Student` of day10/ex2.cpp (lines 17-30). -/
structure Student where
  name : Str
  phoneNumber : Str
  email : Str
  address : Str
  bloodGroup : Str
  studentID : Str
  admittedCourse : Str
  admissionType : Str
  totalMarks : ℚ
  rankObtained : Int
  expectedPackage : ℚ
  feesPaid : ℚ
  deriving DecidableEq

/-- Record `Course` of day10/ex2.cpp (lines 32-36). -/
structure Course where
  courseName : Str
  kcetFees : ℚ
  managementFees : ℚ
  deriving DecidableEq

/-- A text file as the program sees it: its content when it exists, whether opening it for
reading succeeds, and whether opening it for writing succeeds. -/
structure TextFile where
  content : Option Str
  canRead : Bool
  canWrite : Bool
  deriving DecidableEq

/-- The globals `students` and `courses`, the static local `nextID` of `generateStudentID`, and
the two files `students.txt` and `courses.txt`. -/
structure SystemState where
  students : List Student
  courses : List Course
  nextID : Int
  studentsFile : TextFile
  coursesFile : TextFile
  deriving DecidableEq

/-- Constant `MANAGEMENT_DISCOUNT_PERCENTAGE` (line 43). -/
def MANAGEMENT_DISCOUNT_PERCENTAGE : ℚ := 10

/-- The character of a decimal digit. -/
def digitChar (d : Nat) : Char := Char.ofNat (48 + d)

/-- Decimal digits of a natural number, most significant first, prepended to `acc`. -/
def natToStringAux : Nat → Nat → Str → Str
  | 0, _, acc => acc
  | fuel + 1, n, acc =>
    if n < 10 then digitChar n :: acc
    else natToStringAux fuel (n / 10) (digitChar (n % 10) :: acc)

/-- Decimal rendering of a natural number. -/
def natToString (n : Nat) : Str := natToStringAux (n + 1) n []

/-- The library function `std::to_string(int)`, also the text written by `operator<<` for an
`int`. -/
def to_string (n : Int) : Str :=
  if n < 0 then '-' :: natToString n.natAbs else natToString n.natAbs

/-- Nearest integer, ties to the even one. -/
def roundHalfEven (q : ℚ) : Int :=
  let f := Rat.floor q
  let r := q - f
  if r < 1 / 2 then f
  else if 1 / 2 < r then f + 1
  else if f % 2 = 0 then f else f + 1

/-- The text written by `<< fixed << setprecision(2)` for a value: sign, integer part, and the
hundredths rounded to nearest. -/
def fixed2 (q : ℚ) : Str :=
  let n := (roundHalfEven (|q| * 100)).toNat
  (if q < 0 then ['-'] else []) ++ natToString (n / 100) ++
    ['.', digitChar (n / 10 % 10), digitChar (n % 10)]

/-- The library predicate `isspace` in the C locale. -/
def isspace (c : Char) : Bool :=
  c = ' ' || c = '\t' || c = '\n' || c = Char.ofNat 11 || c = Char.ofNat 12 || c = '\r'

/-- Value of a sequence of decimal digits. -/
def digitsValue (ds : Str) : Nat :=
  ds.foldl (fun acc c => 10 * acc + (c.toNat - 48)) 0

deriving instance DecidableEq for Except

/-- The two exceptions raised by `std::stoi` and `std::stod`. -/
inductive ConvError where
  | invalid_argument
  | out_of_range
  deriving DecidableEq

/-- Strips an optional leading sign; the flag tells whether it was a minus. -/
def splitSign : Str → Bool × Str
  | '-' :: t => (true, t)
  | '+' :: t => (false, t)
  | t => (false, t)

/-- The library function `std::stoi(str)`: skips leading white space, reads an optional sign and
the longest run of digits, ignores what follows; no digit is `invalid_argument`, a value outside
`int` is `out_of_range`. -/
def stoi (s : Str) : Except ConvError Int :=
  let (neg, body) := splitSign (s.dropWhile isspace)
  let ds := body.takeWhile Char.isDigit
  if ds = [] then Except.error ConvError.invalid_argument
  else
    let v : Int := if neg then -(digitsValue ds : Int) else (digitsValue ds : Int)
    if v < -2147483648 ∨ 2147483647 < v then Except.error ConvError.out_of_range
    else Except.ok v

/-- The value of an exponent part `e` or `E`, optional sign, digits; zero when there is none. -/
def parseExponent : Str → Int
  | c :: t =>
    if c = 'e' ∨ c = 'E' then
      let (neg, body) := splitSign t
      let ds := body.takeWhile Char.isDigit
      if ds = [] then 0 else if neg then -(digitsValue ds : Int) else (digitsValue ds : Int)
    else 0
  | [] => 0

/-- Decimal values from 2^1024 - 2^970 upwards round beyond the largest finite `double`. -/
def DBL_OVERFLOW : ℚ :=
  179769313486231580793728971405303415079934132710037826936173778980444968292764750946649017977587207096330286416692887910946555547851940402630657488671505820681908902000708383676273854845817711531764475730270069855571366959622842914819860834936475292719074168444365510704342711559699508093042880177904174497792

/-- The smallest positive normal `double`, 2^-1022. -/
def DBL_MIN : ℚ :=
  1 / 44942328371557897693232629769725618340449424473557664318357520289433168951375240783177119330601884005280028469967848339414697442203604155623211857659868531094441973356216371319075554900311523529863270738021251442209537670585615720368478277635206809290837627671146574559986811484619929076208839082406056034304

/-- The smallest positive `double`, the subnormal 2^-1074. -/
def DBL_TRUE_MIN : ℚ :=
  1 / 202402253307310618352495346718917307049556649764142118356901358027430339567995346891960383701437124495187077864316811911389808737385793476867013399940738509921517424276566361364466907742093216341239767678472745068562007483424692698618103355649159556340810056512358769552333414615230502532186327508646006263307707741093494784

/-- Brings a positive value into the range of a 53-bit significand: `m` is doubled or halved,
and the unit `u` halved or doubled, until 2^52 ≤ m < 2^53; the product `m * u` does not
change. -/
def scaleToSignificand : Nat → ℚ → ℚ → ℚ × ℚ
  | 0, m, u => (m, u)
  | fuel + 1, m, u =>
    if m < 4503599627370496 then scaleToSignificand fuel (m * 2) (u / 2)
    else if 9007199254740992 ≤ m then scaleToSignificand fuel (m / 2) (u * 2)
    else (m, u)

/-- The value rounded to 53 significant bits, ties to the even significand, with no bound on the
exponent. The fuel reaches the significand range from every value between 2^-1048 and the
overflow threshold; the result for a smaller value stays below 2^-1047. -/
def nearestDouble (q : ℚ) : ℚ :=
  if q = 0 then 0
  else
    let scaled := scaleToSignificand 1100 |q| 1
    let r : ℚ := (roundHalfEven scaled.1 : ℚ) * scaled.2
    if q < 0 then -r else r

/-- The `double` that `strtod` returns for the exact non-negative value of the text read, as in
glibc: values from the overflow threshold upwards, and values that are below the normal range
after rounding and not exactly a subnormal `double`, set `ERANGE`, which `std::stod` turns into
`out_of_range`; every other value is rounded to the nearest `double`, ties to even. -/
def toDouble (v : ℚ) : Except ConvError ℚ :=
  if DBL_OVERFLOW ≤ v then Except.error ConvError.out_of_range
  else if DBL_MIN ≤ nearestDouble v then Except.ok (nearestDouble v)
  else
    let sub : ℚ := (roundHalfEven (v / DBL_TRUE_MIN) : ℚ) * DBL_TRUE_MIN
    if sub = v then Except.ok sub else Except.error ConvError.out_of_range

/-- Value of a hexadecimal digit. -/
def hexDigitValue (c : Char) : Option Nat :=
  if c.isDigit then some (c.toNat - 48)
  else if 97 ≤ c.toNat ∧ c.toNat ≤ 102 then some (c.toNat - 87)
  else if 65 ≤ c.toNat ∧ c.toNat ≤ 70 then some (c.toNat - 55)
  else none

/-- The library predicate `isxdigit`. -/
def isxdigit (c : Char) : Bool := (hexDigitValue c).isSome

/-- Value of a sequence of hexadecimal digits. -/
def hexDigitsValue (ds : Str) : Nat :=
  ds.foldl (fun acc c => 16 * acc + (hexDigitValue c).getD 0) 0

/-- The value of a binary exponent part `p` or `P`, optional sign, decimal digits; zero when
there is none. -/
def parseBinaryExponent : Str → Int
  | c :: t =>
    if c = 'p' ∨ c = 'P' then
      let (neg, body) := splitSign t
      let ds := body.takeWhile Char.isDigit
      if ds = [] then 0 else if neg then -(digitsValue ds : Int) else (digitsValue ds : Int)
    else 0
  | [] => 0

/-- The exact value of the hexadecimal floating literal a text begins with: `0x` or `0X`,
hexadecimal digits with an optional point and at least one digit, an optional binary exponent;
`none` when the text does not begin with one. -/
def readHexadecimal : Str → Option ℚ
  | '0' :: x :: rest =>
    if x = 'x' ∨ x = 'X' then
      let intDs := rest.takeWhile isxdigit
      let afterInt := rest.dropWhile isxdigit
      let (fracDs, afterFrac) :=
        match afterInt with
        | '.' :: t => (t.takeWhile isxdigit, t.dropWhile isxdigit)
        | t => ([], t)
      if intDs = [] ∧ fracDs = [] then none
      else
        some ((hexDigitsValue (intDs ++ fracDs) : ℚ) / 16 ^ fracDs.length *
          2 ^ parseBinaryExponent afterFrac)
    else none
  | _ => none

/-- The exact value of the decimal number a text begins with: digits with an optional decimal
point and at least one digit, an optional exponent; `none` when the text does not begin with
one. -/
def readDecimal (body : Str) : Option ℚ :=
  let intDs := body.takeWhile Char.isDigit
  let afterInt := body.dropWhile Char.isDigit
  let (fracDs, afterFrac) :=
    match afterInt with
    | '.' :: t => (t.takeWhile Char.isDigit, t.dropWhile Char.isDigit)
    | t => ([], t)
  if intDs = [] ∧ fracDs = [] then none
  else
    some ((digitsValue (intDs ++ fracDs) : ℚ) / 10 ^ fracDs.length *
      10 ^ parseExponent afterFrac)

/-- A value of type `double` as `strtod` returns it: a finite value, held as the rational it
denotes, an infinity with its sign, or a NaN. -/
inductive Double where
  | finite (value : ℚ)
  | infinity (negative : Bool)
  | nan
  deriving DecidableEq

/-- The infinity or NaN that a text begins with: `inf` or `nan` in any letter case, whatever
follows; `none` when the text begins with neither. -/
def readNonFinite (negative : Bool) (body : Str) : Option Double :=
  match (body.take 3).map Char.toLower with
  | ['i', 'n', 'f'] => some (Double.infinity negative)
  | ['n', 'a', 'n'] => some Double.nan
  | _ => none

/-- The library function `std::stod(str)`, which calls `strtod`: skips leading white space,
reads an optional sign and then a spelling of infinity or NaN, or the longest hexadecimal or
decimal floating literal, ignores what follows, and returns the nearest `double`; a text with
none of these is `invalid_argument`, a result out of range is `out_of_range`. -/
def stod (s : Str) : Except ConvError Double :=
  let (neg, body) := splitSign (s.dropWhile isspace)
  match readNonFinite neg body with
  | some d => Except.ok d
  | none =>
    let literal :=
      match readHexadecimal body with
      | some v => some v
      | none => readDecimal body
    match literal with
    | none => Except.error ConvError.invalid_argument
    | some v =>
      match toDouble v with
      | Except.error e => Except.error e
      | Except.ok r => Except.ok (Double.finite (if neg then -r else r))

/-- An input stream: the characters not yet read, and whether the stream is still good (neither
end of input nor a failure has been met). -/
structure IStream where
  rest : Str
  good : Bool
  deriving DecidableEq

/-- The library function `std::getline(stream, field, delim)`: fails on a stream that is not good
or when nothing at all can be extracted; otherwise yields the characters before the first
delimiter, which it consumes, or all remaining characters, reaching the end of the input. -/
def getline (ss : IStream) (delim : Char) : Option (Str × IStream) :=
  if ss.good then
    match ss.rest.span (fun c => c != delim) with
    | (field, _ :: rest) => some (field, { rest := rest, good := true })
    | (field, []) =>
      if field = [] then none else some (field, { rest := [], good := false })
  else none

/-- The loop `while (getline(inFile, line))` (lines 183, 255): the successive lines read. -/
def readLines : Nat → IStream → List Str
  | 0, _ => []
  | fuel + 1, inFile =>
    match getline inFile '\n' with
    | none => []
    | some (line, inFile) => line :: readLines fuel inFile

/-- The lines read from a file with the given content; there are at most as many as characters. -/
def fileLines (content : Str) : List Str :=
  readLines (content.length + 1) { rest := content, good := true }

/-- The exceptions caught by the `catch` clauses of the two load functions (lines 214-222), and
`non_finite_field`, which is not an exception: it marks a line one of whose fields is read as an
infinity or a NaN. The program stores such a record; this embedding, in which a `double`
variable holds a rational, has no record for it. -/
inductive LoadError where
  | runtime_error (what : String)
  | invalid_argument
  | out_of_range
  | non_finite_field
  deriving DecidableEq

/-- The statement `if (!getline(ss, field, delim)) throw runtime_error(what)`. -/
def getlineOrThrow (ss : IStream) (delim : Char) (what : String) :
    Except LoadError (Str × IStream) :=
  match getline ss delim with
  | some r => Except.ok r
  | none => Except.error (LoadError.runtime_error what)

/-- A conversion error propagates as the exception of the same name. -/
def liftConv {α : Type} : Except ConvError α → Except LoadError α
  | Except.ok v => Except.ok v
  | Except.error ConvError.invalid_argument => Except.error LoadError.invalid_argument
  | Except.error ConvError.out_of_range => Except.error LoadError.out_of_range

/-- The assignment of the result of `std::stod` to a `double` variable: a conversion error
propagates as the exception of the same name, a finite result is the value stored, and a
non-finite result is marked `non_finite_field`. -/
def liftDouble : Except ConvError Double → Except LoadError ℚ
  | Except.ok (Double.finite v) => Except.ok v
  | Except.ok (Double.infinity _) => Except.error LoadError.non_finite_field
  | Except.ok Double.nan => Except.error LoadError.non_finite_field
  | Except.error ConvError.invalid_argument => Except.error LoadError.invalid_argument
  | Except.error ConvError.out_of_range => Except.error LoadError.out_of_range

/-- The `try` block of `loadStudentsFromFile` (lines 189-213) up to `push_back`: the record read
from one line, or the exception thrown. -/
def parseStudentLine (line : Str) : Except LoadError Student := do
  let ss : IStream := { rest := line, good := true }
  let (name, ss) ← getlineOrThrow ss ',' "Name missing"
  let (phoneNumber, ss) ← getlineOrThrow ss ',' "Phone number missing"
  let (email, ss) ← getlineOrThrow ss ',' "Email missing"
  let (address, ss) ← getlineOrThrow ss ',' "Address missing"
  let (bloodGroup, ss) ← getlineOrThrow ss ',' "Blood group missing"
  let (studentID, ss) ← getlineOrThrow ss ',' "Student ID missing"
  let (admittedCourse, ss) ← getlineOrThrow ss ',' "Admitted course missing"
  let (admissionType, ss) ← getlineOrThrow ss ',' "Admission type missing"
  let (segment, ss) ← getlineOrThrow ss ',' "Total marks missing"
  let totalMarks ← liftDouble (stod segment)
  let (segment, ss) ← getlineOrThrow ss ',' "Rank obtained missing"
  let rankObtained ← liftConv (stoi segment)
  let (segment, ss) ← getlineOrThrow ss ',' "Expected package missing"
  let expectedPackage ← liftDouble (stod segment)
  let (segment, _) ← getlineOrThrow ss '\n' "Fees paid missing"
  let feesPaid ← liftDouble (stod segment)
  return { name := name, phoneNumber := phoneNumber, email := email, address := address,
           bloodGroup := bloodGroup, studentID := studentID, admittedCourse := admittedCourse,
           admissionType := admissionType, totalMarks := totalMarks,
           rankObtained := rankObtained, expectedPackage := expectedPackage,
           feesPaid := feesPaid }

/-- One iteration of the loop of `loadStudentsFromFile`: the record is appended, or the exception is
caught and the line skipped. -/
def loadStudentLine (students : List Student) (line : Str) : List Student :=
  match parseStudentLine line with
  | Except.ok s => students ++ [s]
  | Except.error _ => students

/-- Opening a file for reading: its content, or `none` when `is_open()` is false. -/
def openForReading (f : TextFile) : Option Str :=
  if f.canRead then f.content else none

/-- Function `loadStudentsFromFile` (lines 173-226). -/
def loadStudentsFromFile (st : SystemState) : SystemState :=
  match openForReading st.studentsFile with
  | none => st
  | some content => { st with students := (fileLines content).foldl loadStudentLine [] }

/-- The `try` block of `loadCoursesFromFile` (lines 261-270) up to `push_back`. -/
def parseCourseLine (line : Str) : Except LoadError Course := do
  let ss : IStream := { rest := line, good := true }
  let (courseName, ss) ← getlineOrThrow ss ',' "Course name missing"
  let (segment, ss) ← getlineOrThrow ss ',' "KCET fees missing"
  let kcetFees ← liftDouble (stod segment)
  let (segment, _) ← getlineOrThrow ss '\n' "Management fees missing"
  let managementFees ← liftDouble (stod segment)
  return { courseName := courseName, kcetFees := kcetFees, managementFees := managementFees }

/-- One iteration of the loop of `loadCoursesFromFile`. -/
def loadCourseLine (courses : List Course) (line : Str) : List Course :=
  match parseCourseLine line with
  | Except.ok c => courses ++ [c]
  | Except.error _ => courses

/-- Function `loadCoursesFromFile` (lines 245-283). -/
def loadCoursesFromFile (st : SystemState) : SystemState :=
  match openForReading st.coursesFile with
  | none => st
  | some content => { st with courses := (fileLines content).foldl loadCourseLine [] }

/-- The text written for one student by `saveStudentsToFile` (lines 155-166). -/
def studentLine (s : Student) : Str :=
  s.name ++ [','] ++ s.phoneNumber ++ [','] ++ s.email ++ [','] ++ s.address ++ [','] ++
    s.bloodGroup ++ [','] ++ s.studentID ++ [','] ++ s.admittedCourse ++ [','] ++
    s.admissionType ++ [','] ++ fixed2 s.totalMarks ++ [','] ++ to_string s.rankObtained ++
    [','] ++ fixed2 s.expectedPackage ++ [','] ++ fixed2 s.feesPaid ++ ['\n']

/-- The loop of `saveStudentsToFile` (lines 154-167): everything written to the file. -/
def writeStudents (students : List Student) : Str :=
  students.foldl (fun out s => out ++ studentLine s) []

/-- Function `saveStudentsToFile` (lines 148-170). -/
def saveStudentsToFile (st : SystemState) : SystemState :=
  if st.studentsFile.canWrite then
    { st with studentsFile := { st.studentsFile with content := some (writeStudents st.students) } }
  else st

/-- The text written for one course by `saveCoursesToFile` (lines 236-238). -/
def courseLine (c : Course) : Str :=
  c.courseName ++ [','] ++ fixed2 c.kcetFees ++ [','] ++ fixed2 c.managementFees ++ ['\n']

/-- The loop of `saveCoursesToFile` (lines 235-239). -/
def writeCourses (courses : List Course) : Str :=
  courses.foldl (fun out c => out ++ courseLine c) []

/-- Function `saveCoursesToFile` (lines 229-242). -/
def saveCoursesToFile (st : SystemState) : SystemState :=
  if st.coursesFile.canWrite then
    { st with coursesFile := { st.coursesFile with content := some (writeCourses st.courses) } }
  else st

/-- The string literal "SID". -/
def SID : Str := ['S', 'I', 'D']

/-- The string literal "KCET". -/
def KCET : Str := ['K', 'C', 'E', 'T']

/-- The string literal "Management". -/
def Management : Str := ['M', 'a', 'n', 'a', 'g', 'e', 'm', 'e', 'n', 't']

/-- Body of the loop of `generateStudentID` over the students (lines 301-315). -/
def maxExistingIDStep (maxExistingID : Int) (s : Student) : Int :=
  if 3 < s.studentID.length ∧ s.studentID.take 3 = SID then
    match stoi (s.studentID.drop 3) with
    | Except.ok id => if maxExistingID < id then id else maxExistingID
    | Except.error _ => maxExistingID
  else maxExistingID

/-- The local `maxExistingID` after the loop of `generateStudentID`. -/
def maxExistingID (students : List Student) : Int :=
  students.foldl maxExistingIDStep 0

/-- Function `generateStudentID` (lines 296-321): the ID returned and the state with the counter
advanced. -/
def generateStudentID (st : SystemState) : Str × SystemState :=
  let nextID :=
    if st.students ≠ [] then
      if st.nextID ≤ maxExistingID st.students then wrap32 (maxExistingID st.students + 1)
      else st.nextID
    else st.nextID
  (SID ++ to_string nextID, { st with nextID := wrap32 (nextID + 1) })

/-- The course lookup loop of `addStudent` (lines 351-357) and `updateStudentDetails`
(lines 498-504): the first course with the given name. -/
def findCourse (courses : List Course) (courseName : Str) : Option Course :=
  match courses with
  | [] => none
  | c :: rest => if c.courseName = courseName then some c else findCourse rest courseName

/-- The admission type prompt (lines 363-368, 509-514): the lines typed are read one after the
other until one is "KCET" or "Management"; `none` when the input ends before. -/
def readAdmissionType : List Str → Option Str
  | [] => none
  | t :: rest => if t ≠ KCET ∧ t ≠ Management then readAdmissionType rest else some t

/-- A numeric prompt `while (!(cin >> x) || invalid x)` (lines 378-394, 526-542): each entry is
one extraction attempt, `none` a failed one; the first successful valid value is kept, `none` when
the input ends before. -/
def readValidated {α : Type} (invalid : α → Bool) : List (Option α) → Option α
  | [] => none
  | none :: rest => readValidated invalid rest
  | some v :: rest => if invalid v then readValidated invalid rest else some v

/-- What the user types during `addStudent` or `updateStudentDetails`: the five text lines, the
course name, the lines typed at the admission type prompt, and the extraction attempts at the
marks, rank and package prompts. -/
structure StudentInput where
  name : Str
  phoneNumber : Str
  email : Str
  address : Str
  bloodGroup : Str
  courseName : Str
  admissionTypes : List Str
  marksEntries : List (Option ℚ)
  rankEntries : List (Option Int)
  packageEntries : List (Option ℚ)

/-- Function `addStudent` (lines 324-400); `none` when a validation loop never ends. -/
def addStudent (st : SystemState) (inp : StudentInput) : Option SystemState :=
  let (studentID, st) := generateStudentID st
  if st.courses = [] then some st
  else
    match findCourse st.courses inp.courseName with
    | none => some st
    | some selectedCourse =>
      match readAdmissionType inp.admissionTypes with
      | none => none
      | some admissionType =>
        let feesPaid :=
          if admissionType = KCET then selectedCourse.kcetFees
          else selectedCourse.managementFees * (1 - MANAGEMENT_DISCOUNT_PERCENTAGE / 100)
        match readValidated (fun m : ℚ => m < 0 || 500 < m) inp.marksEntries with
        | none => none
        | some totalMarks =>
          match readValidated (fun r : Int => r ≤ 0) inp.rankEntries with
          | none => none
          | some rankObtained =>
            match readValidated (fun p : ℚ => p < 0) inp.packageEntries with
            | none => none
            | some expectedPackage =>
              let s : Student :=
                { name := inp.name, phoneNumber := inp.phoneNumber, email := inp.email,
                  address := inp.address, bloodGroup := inp.bloodGroup,
                  studentID := studentID, admittedCourse := inp.courseName,
                  admissionType := admissionType, totalMarks := totalMarks,
                  rankObtained := rankObtained, expectedPackage := expectedPackage,
                  feesPaid := feesPaid }
              some (saveStudentsToFile { st with students := st.students ++ [s] })

/-- The course re-selection of `updateStudentDetails` (lines 489-523). -/
def updateCourseAndFees (courses : List Course) (s : Student) (inp : StudentInput) :
    Option Student :=
  if courses = [] then some s
  else
    match findCourse courses inp.courseName with
    | none => some s
    | some newSelectedCourse =>
      match readAdmissionType inp.admissionTypes with
      | none => none
      | some admissionType =>
        let feesPaid :=
          if admissionType = KCET then newSelectedCourse.kcetFees
          else newSelectedCourse.managementFees * (1 - MANAGEMENT_DISCOUNT_PERCENTAGE / 100)
        some { s with admittedCourse := inp.courseName, admissionType := admissionType,
                      feesPaid := feesPaid }

/-- Body of the `if (s.studentID == idToUpdate)` block of `updateStudentDetails` (lines 475-543),
on the matching record. -/
def updateStudent (courses : List Course) (s : Student) (inp : StudentInput) : Option Student :=
  let s := { s with name := inp.name, phoneNumber := inp.phoneNumber, email := inp.email,
                    address := inp.address, bloodGroup := inp.bloodGroup }
  match updateCourseAndFees courses s inp with
  | none => none
  | some s =>
    match readValidated (fun m : ℚ => m < 0 || 500 < m) inp.marksEntries with
    | none => none
    | some totalMarks =>
      match readValidated (fun r : Int => r ≤ 0) inp.rankEntries with
      | none => none
      | some rankObtained =>
        match readValidated (fun p : ℚ => p < 0) inp.packageEntries with
        | none => none
        | some expectedPackage =>
          some { s with totalMarks := totalMarks, rankObtained := rankObtained,
                        expectedPackage := expectedPackage }

/-- The loop `for (auto& s : students)` of `updateStudentDetails` with its `break`: outer `none`
when a validation loop never ends, inner `none` when no record matches. -/
def updateFirstMatch (courses : List Course) (idToUpdate : Str) (inp : StudentInput) :
    List Student → Option (Option (List Student))
  | [] => some none
  | s :: rest =>
    if s.studentID = idToUpdate then
      match updateStudent courses s inp with
      | none => none
      | some s' => some (some (s' :: rest))
    else
      match updateFirstMatch courses idToUpdate inp rest with
      | none => none
      | some none => some none
      | some (some rest') => some (some (s :: rest'))

/-- Function `updateStudentDetails` (lines 463-553). -/
def updateStudentDetails (st : SystemState) (idToUpdate : Str) (inp : StudentInput) :
    Option SystemState :=
  if st.students = [] then some st
  else
    match updateFirstMatch st.courses idToUpdate inp st.students with
    | none => none
    | some none => some st
    | some (some students) => some (saveStudentsToFile { st with students := students })

/-- The library algorithm `std::remove_if` on a vector: the elements not satisfying `pred` are
compacted to the front in their order; returns the vector and the position of the new end
(the elements from there on are unspecified). -/
def remove_if {α : Type} (pred : α → Bool) (v : List α) : List α × Nat :=
  let kept := v.foldl (fun out x => if pred x then out else out ++ [x]) []
  (kept ++ v.drop kept.length, kept.length)

/-- Function `deleteStudentByID` (lines 556-576). -/
def deleteStudentByID (st : SystemState) (idToDelete : Str) : SystemState :=
  if st.students = [] then st
  else
    let (v, it) := remove_if (fun s : Student => s.studentID = idToDelete) st.students
    if it ≠ v.length then saveStudentsToFile { st with students := v.take it }
    else st

/-- The array `names` of `generateSampleStudents` (lines 600-603). -/
def names : List Str :=
  ["Alice", "Bob", "Charlie", "Diana", "Eve", "Frank", "Grace", "Heidi", "Ivan", "Judy",
   "Kevin", "Liam", "Mia", "Noah", "Olivia", "Peter", "Quinn", "Rachel", "Sam", "Tina",
   "Uma", "Victor", "Wendy", "Xavier", "Yara", "Zack", "Anna", "Ben", "Chloe", "David",
   "Emily", "Fred", "Gina", "Harry", "Iris", "Jack", "Karen", "Leo", "Mona", "Nate"].map
    String.toList

/-- The array `bloodGroups` of `generateSampleStudents` (line 604). -/
def bloodGroups : List Str :=
  ["A+", "B+", "AB+", "O+", "A-", "B-", "AB-", "O-"].map String.toList

/-- Body of the loop of `generateSampleStudents` (lines 607-630) for index `i`, the ID already
generated; `r k` is the result of the k-th call of `rand()` in this iteration. -/
def sampleStudent (courses : List Course) (studentID : Str) (i : Nat) (r : Nat → Nat) :
    Student :=
  let name := names.getD (i % 40) [] ++ [' '] ++ to_string (100 + r 0 % 900)
  let phoneNumber := ['9', '8'] ++ to_string (10000000 + r 1 % 90000000)
  let email := name.takeWhile (fun c => c != ' ') ++ to_string (r 2 % 1000) ++
    "@example.com".toList
  let address := "Street ".toList ++ to_string (r 3 % 100) ++ ", City ".toList ++
    to_string (r 4 % 10) ++ ", PIN ".toList ++ to_string (560000 + r 5 % 1000)
  let bloodGroup := bloodGroups.getD (r 6 % 8) []
  let courseIndex := r 7 % courses.length
  let course := courses.getD courseIndex { courseName := [], kcetFees := 0, managementFees := 0 }
  let admissionType := if r 8 % 2 = 0 then KCET else Management
  let feesPaid :=
    if admissionType = KCET then course.kcetFees
    else course.managementFees * (1 - MANAGEMENT_DISCOUNT_PERCENTAGE / 100)
  { name := name, phoneNumber := phoneNumber, email := email, address := address,
    bloodGroup := bloodGroup, studentID := studentID, admittedCourse := course.courseName,
    admissionType := admissionType, feesPaid := feesPaid,
    totalMarks := 300 + ((r 9 % 200 : Nat) : ℚ) + ((r 10 % 100 : Nat) : ℚ) / 100,
    rankObtained := 1 + ((r 11 % 5000 : Nat) : Int),
    expectedPackage := 3 + ((r 12 % 100 : Nat) : ℚ) / 10 }

/-- The loop `for (int i = 0; i < count; ++i)` of `generateSampleStudents` (lines 606-633). -/
def generateSampleLoop (rand : Nat → Nat) : Nat → Nat → SystemState → SystemState
  | 0, _, st => st
  | remaining + 1, i, st =>
    let (studentID, st) := generateStudentID st
    let s := sampleStudent st.courses studentID i (fun k => rand (13 * i + k))
    generateSampleLoop rand remaining (i + 1) { st with students := st.students ++ [s] }

/-- Function `generateSampleStudents` (lines 593-636); `rand k` is the result of the k-th call
of `rand()` after seeding. -/
def generateSampleStudents (st : SystemState) (count : Int) (rand : Nat → Nat) : SystemState :=
  if st.courses = [] then st
  else saveStudentsToFile (generateSampleLoop rand count.toNat 0 st)

/-- Insertion of `x` into a range already sorted by `comp`, as in the linear insertion of the
library's insertion sort: `x` is placed before the first element that `comp` puts after it. -/
def sortInsert {α : Type} (comp : α → α → Bool) (x : α) : List α → List α
  | [] => [x]
  | y :: ys => if comp x y then x :: y :: ys else y :: sortInsert comp x ys

/-- The library algorithm `std::sort(first, last, comp)` on a vector, modelled as the insertion
sort that implementations run on short ranges: the elements are inserted one after the other
into the sorted range before them. The standard leaves the relative order of elements that
`comp` does not separate unspecified; this model keeps it. -/
def std_sort {α : Type} (comp : α → α → Bool) (v : List α) : List α :=
  v.foldl (fun sorted x => sortInsert comp x sorted) []

/-- Function `sortStudentsByRank` (day10/ex2.cpp lines 579-590); the display of the sorted list
is console output. -/
def sortStudentsByRank (st : SystemState) : SystemState :=
  if st.students = [] then st
  else
    { st with
      students := std_sort (fun a b : Student => a.rankObtained < b.rankObtained) st.students }

namespace Key02

/-- What the linear-search program of day09/key02.cpp prints after its prompts: a line saying
at which 1-based position the key was found, or the line saying it was not found. -/
inductive Message where
  | found (key : Str) (position : Nat)
  | notFound (key : Str)
  deriving DecidableEq

/-- The loop of lines 25-33 from index `i` on: it prints the position of the first name equal to
the key and stops there. Line 30, `bool found=true;`, declares a new variable of the inner
block, so the loop assigns nothing to the variable `found` of line 24. -/
def searchLoop (key : Str) : List Str → Nat → List Message
  | [], _ => []
  | name :: rest, i =>
    if name = key then [Message.found key (i + 1)] else searchLoop key rest (i + 1)

/-- Function `main` of day09/key02.cpp (lines 5-42) on the names and the key read from the
console, the number of names being the length of the list: the messages printed. -/
def main (names : List Str) (key : Str) : List Message :=
  let found := false
  let printed := searchLoop key names 0
  if !found then printed ++ [Message.notFound key] else printed

end Key02

namespace Stu2

/-- Record `Student` of day08/handling_tct/student/stu2.cpp (lines 8-13). -/
structure Student where
  name : Str
  age : Int
  grade : Char
  deriving DecidableEq

/-- The files of the working directory, by name. -/
abbrev Files := Str → TextFile

/-- The file name used by `addStudent` (line 25): it starts with a space. -/
def addFileName : Str := " students.txt".toList

/-- The file name used by `displayStudents`, `searchStudentByName` and `updatesStudentGrade`
(lines 40, 55, 87, 105). -/
def studentsFileName : Str := "students.txt".toList

/-- The directory after the named file has been replaced. -/
def setFile (fs : Files) (fileName : Str) (file : TextFile) : Files :=
  fun n => if n = fileName then file else fs n

/-- The text written by `outFile << s.name << " " << s.age << " " << s.grade << endl`
(lines 28, 108). -/
def recordLine (s : Student) : Str :=
  s.name ++ [' '] ++ to_string s.age ++ [' '] ++ [s.grade] ++ ['\n']

/-- Function `addStudent` (lines 15-36) on the name, age and grade read from the console: the
record is appended to the file opened with `ios::app`, which is created when missing; the flag
tells whether "Student record added!" was printed. -/
def addStudent (fs : Files) (name : Str) (age : Int) (grade : Char) : Files × Bool :=
  let s : Student := { name := name, age := age, grade := grade }
  let outFile := fs addFileName
  if outFile.canWrite then
    (setFile fs addFileName
      { outFile with content := some (outFile.content.getD [] ++ recordLine s) }, true)
  else (fs, false)

/-- The extraction `stream >> str` of a `std::string`: skips white space, then takes the
characters up to the next white space; fails when none is left. Reaching the end of the input
leaves the stream not good. -/
def extractString (ss : IStream) : Option (Str × IStream) :=
  if ss.good then
    let r := ss.rest.dropWhile isspace
    let token := r.takeWhile (fun c => !isspace c)
    let rest := r.dropWhile (fun c => !isspace c)
    if token = [] then none else some (token, { rest := rest, good := rest != [] })
  else none

/-- The extraction `stream >> n` of an `int`: skips white space, then reads an optional sign and
the digits that follow; fails without a digit or when the value is outside `int`. Reaching the
end of the input leaves the stream not good. -/
def extractInt (ss : IStream) : Option (Int × IStream) :=
  if ss.good then
    let (neg, body) := splitSign (ss.rest.dropWhile isspace)
    let ds := body.takeWhile Char.isDigit
    let rest := body.dropWhile Char.isDigit
    if ds = [] then none
    else
      let v : Int := if neg then -(digitsValue ds : Int) else (digitsValue ds : Int)
      if v < -2147483648 ∨ 2147483647 < v then none
      else some (v, { rest := rest, good := rest != [] })
  else none

/-- The extraction `stream >> c` of a `char`: skips white space, then takes one character; fails
when none is left. -/
def extractChar (ss : IStream) : Option (Char × IStream) :=
  if ss.good then
    match ss.rest.dropWhile isspace with
    | [] => none
    | c :: rest => some (c, { rest := rest, good := true })
  else none

/-- The statement `iss >> s.name >> s.age >> s.grade` (line 95) on a fresh record: the record
read when the three extractions succeed; `none` when one fails, which leaves at least the grade
without a value. -/
def readRecord (line : Str) : Option Student :=
  match extractString { rest := line, good := true } with
  | none => none
  | some (name, iss) =>
    match extractInt iss with
    | none => none
    | some (age, iss) =>
      match extractChar iss with
      | none => none
      | some (grade, _) => some { name := name, age := age, grade := grade }

/-- The value of `n` after `iss >> n >> age >> grade` (line 64): the first word of the line, or
the empty string when there is none. -/
def readName (line : Str) : Str :=
  match extractString { rest := line, good := true } with
  | none => []
  | some (n, _) => n

/-- The lines that `while (getline(inFile, line))` reads from the named file; none when the file
cannot be opened. -/
def linesOf (fs : Files) (fileName : Str) : List Str :=
  match openForReading (fs fileName) with
  | none => []
  | some content => fileLines content

/-- What `searchStudentByName` prints after its prompt. -/
inductive Message where
  | studentFound (line : Str)
  | studentNotFound
  deriving DecidableEq

/-- One iteration of the loop of `searchStudentByName` (lines 58-70) on the messages printed so
far and the flag `found`. -/
def searchStep (name : Str) (acc : List Message × Bool) (line : Str) : List Message × Bool :=
  if readName line = name then (acc.1 ++ [Message.studentFound line], true) else acc

/-- Function `searchStudentByName` (lines 50-76) on the name read from the console: the
messages printed. -/
def searchStudentByName (fs : Files) (name : Str) : List Message :=
  let r := (linesOf fs studentsFileName).foldl (searchStep name) ([], false)
  if !r.2 then r.1 ++ [Message.studentNotFound] else r.1

/-- One iteration of the loop of `updatesStudentGrade` (lines 91-102) on the vector built so far
and the flag `updated`; `none` when the record pushed has a field without a value, whose later
output is undefined. -/
def updateStep (name : Str) (newGrade : Char) (acc : Option (List Student × Bool))
    (line : Str) : Option (List Student × Bool) :=
  match acc with
  | none => none
  | some (students, updated) =>
    match readRecord line with
    | none => none
    | some s =>
      if s.name = name then some (students ++ [{ s with grade := newGrade }], true)
      else some (students ++ [s], updated)

/-- The loop of lines 106-109: everything written to the output file. -/
def writeRecords (students : List Student) : Str :=
  students.foldl (fun out s => out ++ recordLine s) []

/-- Function `updatesStudentGrade` (lines 78-116) on the name and grade read from the console:
the directory afterwards and whether "Grade updated successfully." was printed. The output file
is opened without a check; when that fails nothing is written. -/
def updatesStudentGrade (fs : Files) (name : Str) (newGrade : Char) : Option (Files × Bool) :=
  match (linesOf fs studentsFileName).foldl (updateStep name newGrade) (some ([], false)) with
  | none => none
  | some (students, updated) =>
    let outFile := fs studentsFileName
    if outFile.canWrite then
      some (setFile fs studentsFileName
        { outFile with content := some (writeRecords students) }, updated)
    else some (fs, updated)

/-- A directory without any file, in which files can be created. -/
def emptyDirectory : Files := fun _ => { content := none, canRead := true, canWrite := true }

/-- A directory whose students.txt holds three records. -/
def classDirectory : Files :=
  setFile emptyDirectory studentsFileName
    { content := some "Asha 20 A\nRavi 21 C\nAsha 19 B\n".toList, canRead := true,
      canWrite := true }

/-- The directory of `classDirectory` with students.txt write-protected. -/
def readOnlyDirectory : Files :=
  setFile emptyDirectory studentsFileName
    { content := some "Asha 20 A\nRavi 21 C\nAsha 19 B\n".toList, canRead := true,
      canWrite := false }

/-- The directory of `classDirectory` with a students.txt that can be written but not read. -/
def writeOnlyDirectory : Files :=
  setFile emptyDirectory studentsFileName
    { content := some "Asha 20 A\nRavi 21 C\nAsha 19 B\n".toList, canRead := false,
      canWrite := true }

end Stu2

/-- The fee rule shared by the three operations that assign `feesPaid`. -/
def FeesFollowRule (c : Course) (s : Student) : Prop :=
  (s.admissionType = KCET ∧ s.feesPaid = c.kcetFees) ∨
  (s.admissionType = Management ∧
    s.feesPaid = c.managementFees * (1 - MANAGEMENT_DISCOUNT_PERCENTAGE / 100) ∧
    s.feesPaid = c.managementFees * (9 / 10))

/-- Two of the courses installed by `initializeDefaultCourses`. -/
def exampleCourses : List Course :=
  [{ courseName := "Computer Science Engineering".toList, kcetFees := 150000,
     managementFees := 250000 },
   { courseName := "Civil Engineering".toList, kcetFees := 90000, managementFees := 160000 }]

/-- A start state: no students, two courses, a fresh ID counter, no students file yet. -/
def exampleState : SystemState :=
  { students := [], courses := exampleCourses, nextID := 1001,
    studentsFile := { content := none, canRead := false, canWrite := true },
    coursesFile := { content := none, canRead := false, canWrite := true } }

/-- A console session for `addStudent` or `updateStudentDetails`: the admission type is
accepted at the second try, the marks at the third, the rank and the package at the second. -/
def exampleInput : StudentInput :=
  { name := "Asha".toList, phoneNumber := "9800000001".toList,
    email := "asha@example.com".toList, address := "Street 1".toList,
    bloodGroup := "O+".toList, courseName := "Civil Engineering".toList,
    admissionTypes := ["kcet".toList, Management],
    marksEntries := [none, some 600, some (825 / 2)],
    rankEntries := [some 0, some 57],
    packageEntries := [some (-1), some (13 / 2)] }

/-- The record that `addStudent` builds from `exampleInput` in `exampleState`. -/
def exampleStudent : Student :=
  { name := "Asha".toList, phoneNumber := "9800000001".toList,
    email := "asha@example.com".toList, address := "Street 1".toList,
    bloodGroup := "O+".toList, studentID := "SID1001".toList,
    admittedCourse := "Civil Engineering".toList, admissionType := Management,
    totalMarks := 825 / 2, rankObtained := 57, expectedPackage := 13 / 2, feesPaid := 144000 }

/-- The state after `addStudent` ran on `exampleState` with `exampleInput`. -/
def exampleStateAdded : SystemState :=
  { students := [exampleStudent], courses := exampleCourses, nextID := 1002,
    studentsFile :=
      { content := some ("Asha,9800000001,asha@example.com,Street 1,O+,SID1001," ++
          "Civil Engineering,Management,412.50,57,6.50,144000.00\n").toList,
        canRead := false, canWrite := true },
    coursesFile := { content := none, canRead := false, canWrite := true } }

/-- A state without any course, as after loading an empty `courses.txt`. -/
def noCourseState : SystemState := { exampleState with courses := [] }

/-- A state whose students file cannot be opened for writing. -/
def readOnlyState : SystemState :=
  { exampleState with studentsFile := { content := none, canRead := false, canWrite := false } }

/-- A fixed sequence standing for the successive results of `rand()`. -/
def exampleRand (k : Nat) : Nat := 7919 * k + 13

/-- The state of a fresh process that loaded the file written by `exampleStateAdded`: the
student `SID1001` is in memory and the ID counter is back at its initial value. -/
def reloadedState : SystemState := { exampleStateAdded with nextID := 1001 }

/-- The segment begins, after optional white space and an optional sign, with a spelling of
infinity or NaN, for which `std::stod` returns a non-finite value. -/
def nonFiniteSpelling (segment : Str) : Bool :=
  (readNonFinite false (splitSign (segment.dropWhile isspace)).2).isSome

/-- The segment begins with a decimal or hexadecimal number as `strtod` reads one: after
optional white space and an optional sign comes a digit, or a decimal point followed by a
digit. -/
def beginsWithDecimal (segment : Str) : Bool :=
  match (splitSign (segment.dropWhile isspace)).2 with
  | '.' :: d :: _ => d.isDigit
  | c :: _ => c.isDigit
  | [] => false

/-- The segment begins with an integer as `strtol` reads one: after optional white space and an
optional sign comes a digit. -/
def beginsWithInteger (segment : Str) : Bool :=
  match (splitSign (segment.dropWhile isspace)).2 with
  | c :: _ => c.isDigit
  | [] => false

/-- A segment that is in its entirety a decimal number: an optional sign, then digits with at
most one decimal point and at least one digit, and nothing else. -/
def wellFormedDecimal (segment : Str) : Bool :=
  let body := (splitSign segment).2
  let intDs := body.takeWhile Char.isDigit
  match body.dropWhile Char.isDigit with
  | [] => intDs != []
  | '.' :: t => (intDs != [] || t != []) && t.all Char.isDigit
  | _ => false

/-- A segment that is in its entirety an integer: an optional sign, then one or more digits. -/
def wellFormedInteger (segment : Str) : Bool :=
  let body := (splitSign segment).2
  body != [] && body.all Char.isDigit

/-- A line of students.txt whose total-marks segment `12abc` and rank segment `57th` start
with a number and go on with other characters. -/
def trailingGarbageLine : Str :=
  ("Asha,9800000001,asha@example.com,Street 1,O+,SID1001," ++
    "Civil Engineering,Management,12abc,57th,6.50,144000.00").toList

/-- A valid student record in the sense of the data model: admission type KCET or Management,
marks in 0..500, positive rank, non-negative package and fees. -/
def ValidRecord (s : Student) : Prop :=
  (s.admissionType = KCET ∨ s.admissionType = Management) ∧
  0 ≤ s.totalMarks ∧ s.totalMarks ≤ 500 ∧ 0 < s.rankObtained ∧
  0 ≤ s.expectedPackage ∧ 0 ≤ s.feesPaid

/-- None of the eight text fields contains a comma or a line break. -/
def TextFieldsPlain (s : Student) : Prop :=
  ∀ f ∈ [s.name, s.phoneNumber, s.email, s.address, s.bloodGroup, s.studentID,
    s.admittedCourse, s.admissionType], ',' ∉ f ∧ '\n' ∉ f

/-- The value is the `double` nearest to a non-negative number with at most two decimal places,
that number being `k / 100` with `k` below 2^52 (the number is below 45035996273704.96). -/
def TwoDecimalDouble (x : ℚ) : Prop :=
  ∃ k : Nat, k < 4503599627370496 ∧ x = nearestDouble ((k : ℚ) / 100)

/-- A valid record whose marks are the `double` nearest to 384.03, which is not 384.03 itself. -/
def nearestStudent : Student :=
  { exampleStudent with totalMarks := 1688981801659269 / 4398046511104 }

/-- A valid record whose marks 375.0625 have four decimal places. -/
def fourDecimalStudent : Student := { exampleStudent with totalMarks := 6001 / 16 }

/-- The text of a student's line in students.txt, without the final line break. -/
def studentRow (s : Student) : Str :=
  s.name ++ ',' :: (s.phoneNumber ++ ',' :: (s.email ++ ',' :: (s.address ++ ',' ::
    (s.bloodGroup ++ ',' :: (s.studentID ++ ',' :: (s.admittedCourse ++ ',' ::
    (s.admissionType ++ ',' :: (fixed2 s.totalMarks ++ ',' :: (to_string s.rankObtained ++
    ',' :: (fixed2 s.expectedPackage ++ ',' :: fixed2 s.feesPaid))))))))))

/-- The line of `exampleStudent` in students.txt. -/
def ashaLine : Str :=
  ("Asha,9800000001,asha@example.com,Street 1,O+,SID1001," ++
    "Civil Engineering,Management,412.50,57,6.50,144000.00").toList

/-- A state with a student in memory whose two files exist but can be opened neither for
reading nor for writing. -/
def lockedFilesState : SystemState :=
  { exampleStateAdded with
    studentsFile := { content := some ashaLine, canRead := false, canWrite := false },
    coursesFile := { content := some [], canRead := false, canWrite := false } }

/-- The checks that `addStudent` makes on what it stores: a known course name, one of the two
admission types, marks in 0..500, a rank of at least 1 and a non-negative package. -/
def PassedInputChecks (courses : List Course) (s : Student) : Prop :=
  (s.admissionType = KCET ∨ s.admissionType = Management) ∧
  0 ≤ s.totalMarks ∧ s.totalMarks ≤ 500 ∧ 1 ≤ s.rankObtained ∧ 0 ≤ s.expectedPackage ∧
  ∃ c ∈ courses, c.courseName = s.admittedCourse

/-- A console session like `exampleInput` in which the course typed is not in the list. -/
def unknownCourseInput : StudentInput :=
  { exampleInput with courseName := "Physics".toList }

/-- The ID counter does not overflow at this call: neither its increment nor its jump past the
largest numeric suffix found among the students leaves the `int` range. -/
def CounterFits (st : SystemState) : Prop :=
  st.nextID < 2147483647 ∧ maxExistingID st.students < 2147483646

/-- The states in which `generateStudentID` is called, one after the other, in one process run:
the student list of each is arbitrary, the counter of each is the one left by the previous
call. -/
def SuccessiveCalls (states : List SystemState) : Prop :=
  List.Chain' (fun a b => b.nextID = (generateStudentID a).2.nextID) states

/-- A student whose ID carries the largest `int` as numeric suffix. -/
def maxSuffixStudent : Student := { exampleStudent with studentID := "SID2147483647".toList }

/-- The state of the second call of a run: one ID has been handed out and the file loaded since
holds `maxSuffixStudent`. -/
def maxSuffixState : SystemState :=
  { exampleState with students := [maxSuffixStudent], nextID := 1002 }

/-- The state of a second call when the student registered by the first call has been deleted
in between: the list is empty again and the counter has advanced. -/
def afterDeletionState : SystemState := { exampleState with nextID := 1002 }

/-- A record that can be written and read back: its name is a word (not empty, no white space),
its age is an `int`, its grade is not a white-space character. -/
def Stu2.Printable (s : Stu2.Student) : Prop :=
  s.name ≠ [] ∧ (∀ c ∈ s.name, isspace c = false) ∧
  -2147483648 ≤ s.age ∧ s.age ≤ 2147483647 ∧ isspace s.grade = false

/-- The text of a record's line, without the final line break. -/
def Stu2.recordRow (s : Stu2.Student) : Str :=
  s.name ++ ' ' :: (to_string s.age ++ ' ' :: [s.grade])

/-- The record after the grade update asked for: the new grade when the name matches, the
record itself otherwise. -/
def Stu2.regrade (name : Str) (newGrade : Char) (s : Stu2.Student) : Stu2.Student :=
  if s.name = name then { s with grade := newGrade } else s

/-- The interval of the second iteration is narrower than that of the first. -/
def Narrows (a b : Iteration) : Prop := b.right - b.left + 1 < a.right - a.left + 1

/-- An unsorted array of 2^30 + 1 elements: 2^30 zeros followed by -3. -/
def zerosThenNegative : List Int := List.replicate 1073741824 0 ++ [-3]

theorem wrap32_of_range (x : Int) (h1 : -2147483648 ≤ x) (h2 : x < 2147483648) : wrap32 x = x := by
  unfold wrap32; omega

theorem tdiv_two_of_nonneg (x : Int) (h : 0 ≤ x) : Int.tdiv x 2 = x / 2 :=
  Int.tdiv_eq_ediv h (by decide)

theorem readArr_eq_some_iff (arr : List Int) (i v : Int) :
    readArr arr i = some v ↔ 0 ≤ i ∧ ∃ h : i.toNat < arr.length, arr[i.toNat] = v := by
  unfold readArr
  by_cases hi : 0 ≤ i
  · simp [hi, List.getElem?_eq_some]
  · simp [hi]

theorem readArr_isSome (arr : List Int) (i : Int) (h0 : 0 ≤ i) (h1 : i < arr.length) :
    ∃ v, readArr arr i = some v := by
  have h : i.toNat < arr.length := by omega
  exact ⟨arr[i.toNat], (readArr_eq_some_iff arr i _).2 ⟨h0, h, rfl⟩⟩

theorem sortedReads_of_sorted (arr : List Int) (h : List.Sorted (fun a b => a ≤ b) arr) :
    SortedReads arr := by
  intro i j a b hij hi hj
  rw [readArr_eq_some_iff] at hi hj
  obtain ⟨hi0, hil, rfl⟩ := hi
  obtain ⟨hj0, hjl, rfl⟩ := hj
  rcases Nat.lt_or_ge i.toNat j.toNat with hlt | hge
  · exact (List.pairwise_iff_getElem.1 h) _ _ hil hjl hlt
  · have : i.toNat = j.toNat := by omega
    simp [this]

theorem binarysearchLoop_spec (arr : List Int) (key : Int) (hs : SortedReads arr)
    (hlen : (arr.length : Int) ≤ 1073741824) :
    ∀ (fuel : Nat) (left right : Int), 0 ≤ left → right < arr.length → left ≤ right + 1 →
      right - left + 1 < fuel →
      ∃ r, binarysearchLoop fuel arr key left right = Outcome.ret r ∧
        ((left ≤ r ∧ r ≤ right ∧ readArr arr r = some key) ∨
         (r = -1 ∧ ∀ i : Int, left ≤ i → i ≤ right → readArr arr i ≠ some key)) := by
  intro fuel
  induction fuel with
  | zero => intro left right h0 h1 h2 h3; omega
  | succ n ih =>
    intro left right h0 h1 h2 h3
    unfold binarysearchLoop
    by_cases hlr : left ≤ right
    · have hsum : wrap32 (left + right) = left + right := wrap32_of_range _ (by omega) (by omega)
      have hmid : Int.tdiv (left + right) 2 = (left + right) / 2 := tdiv_two_of_nonneg _ (by omega)
      simp only [hlr, if_true, hsum, hmid]
      have hm0 : left ≤ (left + right) / 2 := by omega
      have hm1 : (left + right) / 2 ≤ right := by omega
      obtain ⟨v, hv⟩ := readArr_isSome arr ((left + right) / 2) (by omega) (by omega)
      simp only [hv]
      by_cases hvk : v = key
      · subst hvk
        exact ⟨_, by simp, Or.inl ⟨hm0, hm1, hv⟩⟩
      · by_cases hlt : v < key
        · have hw : wrap32 ((left + right) / 2 + 1) = (left + right) / 2 + 1 :=
            wrap32_of_range _ (by omega) (by omega)
          simp only [hvk, if_false, hlt, if_true, hw]
          obtain ⟨r, hr, hcase⟩ := ih ((left + right) / 2 + 1) right (by omega) h1 (by omega) (by omega)
          refine ⟨r, hr, ?_⟩
          rcases hcase with ⟨a, b, c⟩ | ⟨a, b⟩
          · exact Or.inl ⟨by omega, b, c⟩
          · refine Or.inr ⟨a, ?_⟩
            intro i hi1 hi2 hik
            by_cases hle : i ≤ (left + right) / 2
            · have := hs i _ _ _ hle hik hv
              omega
            · exact b i (by omega) hi2 hik
        · have hw : wrap32 ((left + right) / 2 - 1) = (left + right) / 2 - 1 :=
            wrap32_of_range _ (by omega) (by omega)
          simp only [hvk, if_false, hlt, hw]
          obtain ⟨r, hr, hcase⟩ := ih left ((left + right) / 2 - 1) h0 (by omega) (by omega) (by omega)
          refine ⟨r, hr, ?_⟩
          rcases hcase with ⟨a, b, c⟩ | ⟨a, b⟩
          · exact Or.inl ⟨a, by omega, c⟩
          · refine Or.inr ⟨a, ?_⟩
            intro i hi1 hi2 hik
            by_cases hle : (left + right) / 2 ≤ i
            · have := hs _ i _ _ hle hv hik
              omega
            · exact b i hi1 (by omega) hik
    · simp only [hlr, if_false]
      exact ⟨-1, rfl, Or.inr ⟨rfl, fun i hi1 hi2 => by omega⟩⟩

theorem binarysearch_spec (arr : List Int) (key : Int) (hs : List.Sorted (fun a b => a ≤ b) arr)
    (hlen : arr.length ≤ 1073741824) :
    ∃ r, binarysearch arr arr.length key = Outcome.ret r ∧
      ((0 ≤ r ∧ r < arr.length ∧ readArr arr r = some key) ∨
       (r = -1 ∧ ∀ i : Int, 0 ≤ i → i < arr.length → readArr arr i ≠ some key)) := by
  unfold binarysearch
  have hw : wrap32 ((arr.length : Int) - 1) = (arr.length : Int) - 1 :=
    wrap32_of_range _ (by omega) (by omega)
  rw [hw]
  obtain ⟨r, hr, hcase⟩ := binarysearchLoop_spec arr key (sortedReads_of_sorted arr hs)
    (by omega) ((arr.length : Int).toNat + 1) 0 ((arr.length : Int) - 1) (by omega) (by omega)
    (by omega) (by omega)
  refine ⟨r, hr, ?_⟩
  rcases hcase with ⟨a, b, c⟩ | ⟨a, b⟩
  · exact Or.inl ⟨a, by omega, c⟩
  · exact Or.inr ⟨a, fun i h0 h1 => b i h0 (by omega)⟩

theorem readArr_natCast (arr : List Int) (i : Nat) : readArr arr (i : Int) = arr[i]? := by
  simp [readArr]

theorem mem_iff_readArr (arr : List Int) (key : Int) :
    key ∈ arr ↔ ∃ i : Int, 0 ≤ i ∧ i < arr.length ∧ readArr arr i = some key := by
  constructor
  · intro h
    obtain ⟨n, hn, hk⟩ := List.getElem_of_mem h
    refine ⟨n, by omega, by omega, ?_⟩
    rw [readArr_natCast, List.getElem?_eq_some]
    exact ⟨hn, hk⟩
  · rintro ⟨i, h0, _, hi⟩
    rw [readArr_eq_some_iff] at hi
    obtain ⟨_, hl, rfl⟩ := hi
    exact List.getElem_mem _

/-- Claim C1, amended: for every array sorted in non-decreasing order whose length is at most
2^30 and every key occurring in it, `binarysearch` returns an index `i` below the length at which
the array holds the key, and when the elements are pairwise distinct `i` is the only such
position. -/
theorem binarysearch_present (arr : List Int) (key : Int)
    (hsorted : List.Sorted (fun a b => a ≤ b) arr) (hsize : arr.length ≤ 1073741824)
    (hmem : key ∈ arr) :
    ∃ i : Nat, binarysearch arr arr.length key = Outcome.ret i ∧ i < arr.length ∧
      arr[i]? = some key ∧ (arr.Nodup → ∀ j : Nat, arr[j]? = some key → j = i) := by
  obtain ⟨r, hr, hcase⟩ := binarysearch_spec arr key hsorted hsize
  rcases hcase with ⟨a, b, c⟩ | ⟨_, b⟩
  · have hrn : r = (r.toNat : Int) := by omega
    refine ⟨r.toNat, by rw [← hrn]; exact hr, by omega, ?_, ?_⟩
    · rw [← readArr_natCast, ← hrn]; exact c
    · intro hnd j hj
      rw [hrn, readArr_natCast] at c
      rw [List.getElem?_eq_some] at hj c
      obtain ⟨hjl, hjv⟩ := hj
      obtain ⟨hcl, hcv⟩ := c
      exact (List.Nodup.getElem_inj_iff hnd).1 (hjv.trans hcv.symm)
  · exfalso
    obtain ⟨i, h0, h1, hi⟩ := (mem_iff_readArr arr key).1 hmem
    exact b i h0 h1 hi

theorem binarysearch_present_witness :
    binarysearch [2, 5, 10, 15, 20, 25] 6 15 = Outcome.ret 3 ∧
    ∃ i : Nat, binarysearch [2, 5, 10, 15, 20, 25] ([2, 5, 10, 15, 20, 25] : List Int).length 15
        = Outcome.ret i ∧ i < ([2, 5, 10, 15, 20, 25] : List Int).length ∧
      ([2, 5, 10, 15, 20, 25] : List Int)[i]? = some 15 ∧
      (([2, 5, 10, 15, 20, 25] : List Int).Nodup →
        ∀ j : Nat, ([2, 5, 10, 15, 20, 25] : List Int)[j]? = some 15 → j = i) :=
  ⟨by decide, binarysearch_present [2, 5, 10, 15, 20, 25] 15 (by decide) (by decide) (by decide)⟩

/-- Claim C2, amended: for every array sorted in non-decreasing order whose length is at most
2^30 (the empty array included) and every key not occurring in it, `binarysearch` returns -1. -/
theorem binarysearch_absent (arr : List Int) (key : Int)
    (hsorted : List.Sorted (fun a b => a ≤ b) arr) (hsize : arr.length ≤ 1073741824)
    (hmem : key ∉ arr) :
    binarysearch arr arr.length key = Outcome.ret (-1) := by
  obtain ⟨r, hr, hcase⟩ := binarysearch_spec arr key hsorted hsize
  rcases hcase with ⟨a, b, c⟩ | ⟨a, _⟩
  · exact absurd ((mem_iff_readArr arr key).2 ⟨r, a, b, c⟩) hmem
  · rw [hr, a]

theorem binarysearch_absent_witness :
    binarysearch [2, 5, 10, 15, 20, 25] ([2, 5, 10, 15, 20, 25] : List Int).length 16
      = Outcome.ret (-1) ∧ binarysearch [] ([] : List Int).length 16 = Outcome.ret (-1) :=
  ⟨binarysearch_absent [2, 5, 10, 15, 20, 25] 16 (by decide) (by decide) (by decide),
   binarysearch_absent [] 16 (by decide) (by decide) (by decide)⟩

theorem binarysearchLoop_overflow (arr : List Int)
    (hz : ∀ i : Int, 0 ≤ i → i < 1073741824 → readArr arr i = some 0) :
    ∀ (fuel : Nat) (left : Int), 0 ≤ left → left ≤ 1073741824 → 1073741824 - left < fuel →
      binarysearchLoop fuel arr 1 left 1073741824 = Outcome.undefined := by
  intro fuel
  induction fuel with
  | zero => intro left h0 h1 h2; omega
  | succ n ih =>
    intro left h0 h1 h2
    unfold binarysearchLoop
    simp only [h1, if_true]
    by_cases hl : left = 1073741824
    · subst hl
      have hm : Int.tdiv (wrap32 (1073741824 + 1073741824)) 2 = -1073741824 := by decide
      have hr : readArr arr (-1073741824) = none := by simp [readArr]
      simp only [hm, hr]
    · have hsum : wrap32 (left + 1073741824) = left + 1073741824 :=
        wrap32_of_range _ (by omega) (by omega)
      have hmid : Int.tdiv (left + 1073741824) 2 = (left + 1073741824) / 2 :=
        tdiv_two_of_nonneg _ (by omega)
      have hv := hz ((left + 1073741824) / 2) (by omega) (by omega)
      have hw : wrap32 ((left + 1073741824) / 2 + 1) = (left + 1073741824) / 2 + 1 :=
        wrap32_of_range _ (by omega) (by omega)
      simp only [hsum, hmid, hv, hw]
      simp only [show ((0 : Int) = 1) = False from by simp, if_false,
        show ((0 : Int) < 1) = True from by simp, if_true]
      exact ih _ (by omega) (by omega) (by omega)

theorem readArr_append_replicate_zero (n : Nat) (tl : List Int) (i : Int) (h0 : 0 ≤ i)
    (h1 : i < n) : readArr (List.replicate n 0 ++ tl) i = some 0 := by
  have hi : i.toNat < n := by omega
  unfold readArr
  rw [if_pos h0, List.getElem?_append_left (by rw [List.length_replicate]; exact hi),
    List.getElem?_replicate, if_pos hi]

theorem binarysearch_overflow (arr : List Int) (size : Int) (hsize : size = 1073741825)
    (hz : ∀ i : Int, 0 ≤ i → i < 1073741824 → readArr arr i = some 0) :
    binarysearch arr size 1 = Outcome.undefined := by
  subst hsize
  unfold binarysearch
  have hw : wrap32 (1073741825 - 1) = 1073741824 := by decide
  rw [hw]
  exact binarysearchLoop_overflow arr hz _ 0 (by omega) (by omega) (by omega)

theorem length_replicate_append_singleton (n : Nat) (a b : Int) :
    ((List.replicate n a ++ [b]).length : Int) = n + 1 := by
  rw [List.length_append, List.length_replicate, List.length_singleton]
  push_cast
  rfl

theorem sorted_replicate_append_singleton (n : Nat) (a b : Int) (h : a ≤ b) :
    List.Sorted (fun x y => x ≤ y) (List.replicate n a ++ [b]) := by
  unfold List.Sorted
  rw [List.pairwise_append]
  refine ⟨List.pairwise_replicate.2 (Or.inr (le_refl _)), List.pairwise_singleton _ _, ?_⟩
  intro x hx y hy
  rw [List.mem_replicate] at hx
  rw [List.mem_singleton] at hy
  rw [hx.2, hy]
  exact h

/-- Claim C1 fails as stated: on the sorted array made of 2^30 zeros followed by a one, searching
for the key 1 (which is present) reaches `left = right = 2^30`, where `left + right` leaves the
`int` range and the read at the wrapped midpoint is out of bounds; no index is returned. -/
theorem binarysearch_present_counterexample :
    List.Sorted (fun a b => a ≤ b) zerosThenOne ∧ (1 : Int) ∈ zerosThenOne ∧
      (zerosThenOne.length : Int) = 1073741825 ∧
      binarysearch zerosThenOne zerosThenOne.length 1 = Outcome.undefined ∧
      ¬ ∃ i : Nat, binarysearch zerosThenOne zerosThenOne.length 1 = Outcome.ret i := by
  have hlen : (zerosThenOne.length : Int) = 1073741825 :=
    length_replicate_append_singleton 1073741824 0 1
  have hu : binarysearch zerosThenOne zerosThenOne.length 1 = Outcome.undefined :=
    binarysearch_overflow _ _ hlen
      (fun i h0 h1 => readArr_append_replicate_zero 1073741824 [1] i h0 h1)
  refine ⟨sorted_replicate_append_singleton 1073741824 0 1 (by decide),
    List.mem_append_right _ (List.mem_singleton.2 rfl), hlen, hu, ?_⟩
  rintro ⟨i, hi⟩
  rw [hu] at hi
  exact Outcome.noConfusion hi

/-- Claim C2 fails as stated: on the sorted array made of 2^30 + 1 zeros, searching for the absent
key 1 reaches `left = right = 2^30`, where `left + right` leaves the `int` range and the read at
the wrapped midpoint is out of bounds; the result is not -1. -/
theorem binarysearch_absent_counterexample :
    List.Sorted (fun a b => a ≤ b) allZeros ∧ (1 : Int) ∉ allZeros ∧
      (allZeros.length : Int) = 1073741825 ∧
      binarysearch allZeros allZeros.length 1 = Outcome.undefined ∧
      binarysearch allZeros allZeros.length 1 ≠ Outcome.ret (-1) := by
  have hlen : (allZeros.length : Int) = 1073741825 :=
    length_replicate_append_singleton 1073741824 0 0
  have hu : binarysearch allZeros allZeros.length 1 = Outcome.undefined :=
    binarysearch_overflow _ _ hlen
      (fun i h0 h1 => readArr_append_replicate_zero 1073741824 [0] i h0 h1)
  refine ⟨sorted_replicate_append_singleton 1073741824 0 0 (le_refl _), ?_, hlen, hu, ?_⟩
  · intro hmem
    rcases List.mem_append.1 hmem with h | h
    · exact absurd (List.mem_replicate.1 h).2 (by decide)
    · exact absurd (List.mem_singleton.1 h) (by decide)
  · rw [hu]; exact fun h => Outcome.noConfusion h

theorem remove_if_foldl {α : Type} (pred : α → Bool) (v acc : List α) :
    v.foldl (fun out x => if pred x then out else out ++ [x]) acc
      = acc ++ v.filter (fun x => !pred x) := by
  induction v generalizing acc with
  | nil => simp
  | cons x xs ih =>
    rw [List.foldl_cons, ih]
    by_cases hp : pred x
    · simp [hp]
    · simp [hp]

theorem remove_if_kept {α : Type} (pred : α → Bool) (v : List α) :
    (remove_if pred v).1.take (remove_if pred v).2 = v.filter (fun x => !pred x) := by
  unfold remove_if
  simp only [remove_if_foldl, List.nil_append]
  rw [List.take_left']
  rfl

theorem remove_if_length {α : Type} (pred : α → Bool) (v : List α) :
    (remove_if pred v).1.length = v.length := by
  unfold remove_if
  simp only [remove_if_foldl, List.nil_append, List.length_append, List.length_drop]
  have := List.length_filter_le (fun x => !pred x) v
  omega

theorem remove_if_snd {α : Type} (pred : α → Bool) (v : List α) :
    (remove_if pred v).2 = (v.filter (fun x => !pred x)).length := by
  unfold remove_if
  simp only [remove_if_foldl, List.nil_append]

theorem saveStudentsToFile_students (st : SystemState) :
    (saveStudentsToFile st).students = st.students := by
  unfold saveStudentsToFile
  split <;> rfl

theorem deleteStudentByID_students (st : SystemState) (idToDelete : Str) :
    (deleteStudentByID st idToDelete).students
      = st.students.filter (fun s => !decide (s.studentID = idToDelete)) := by
  unfold deleteStudentByID
  by_cases hemp : st.students = []
  · simp [hemp]
  · rw [if_neg hemp]
    have hk := remove_if_kept (fun s : Student => decide (s.studentID = idToDelete)) st.students
    have hl := remove_if_length (fun s : Student => decide (s.studentID = idToDelete)) st.students
    have hs := remove_if_snd (fun s : Student => decide (s.studentID = idToDelete)) st.students
    generalize remove_if (fun s : Student => decide (s.studentID = idToDelete)) st.students = r
      at hk hl hs
    obtain ⟨v, it⟩ := r
    simp only at hk hl hs ⊢
    by_cases hit : it = v.length
    · rw [if_neg (by simpa using hit)]
      symm
      rw [List.filter_eq_self]
      apply List.filter_length_eq_length.1
      omega
    · rw [if_pos hit, saveStudentsToFile_students]
      exact hk

/-- Claim C3: after `deleteStudentByID` the student list is the previous list without exactly
the records whose `studentID` equals the given ID: the result is the previous list filtered on
`studentID ≠ id`, hence a sublist of it (same records, same relative order), it contains a record
if and only if the previous list did and the record's ID differs, and it is the previous list
itself when no record matches. -/
theorem deleteStudentByID_removes_exactly (st : SystemState) (idToDelete : Str) :
    (deleteStudentByID st idToDelete).students
        = st.students.filter (fun s => !decide (s.studentID = idToDelete)) ∧
      List.Sublist (deleteStudentByID st idToDelete).students st.students ∧
      (∀ s, s ∈ (deleteStudentByID st idToDelete).students ↔
        s ∈ st.students ∧ s.studentID ≠ idToDelete) ∧
      ((∀ s ∈ st.students, s.studentID ≠ idToDelete) →
        (deleteStudentByID st idToDelete).students = st.students) := by
  rw [deleteStudentByID_students]
  refine ⟨rfl, List.filter_sublist _, ?_, ?_⟩
  · intro s
    simp [List.mem_filter]
  · intro h
    rw [List.filter_eq_self]
    intro s hs
    simpa using h s hs

theorem discount_factor (fees : ℚ) :
    fees * (1 - MANAGEMENT_DISCOUNT_PERCENTAGE / 100) = fees * (9 / 10) := by
  unfold MANAGEMENT_DISCOUNT_PERCENTAGE
  norm_num

theorem readAdmissionType_valid (entries : List Str) (t : Str)
    (h : readAdmissionType entries = some t) : t = KCET ∨ t = Management := by
  induction entries with
  | nil => simp [readAdmissionType] at h
  | cons e rest ih =>
    unfold readAdmissionType at h
    by_cases hinv : e ≠ KCET ∧ e ≠ Management
    · rw [if_pos hinv] at h
      exact ih h
    · rw [if_neg hinv] at h
      have he : e = t := Option.some.inj h
      rw [← he]
      by_cases hk : e = KCET
      · exact Or.inl hk
      · right
        by_contra hm
        exact hinv ⟨hk, hm⟩

theorem generateStudentID_students (st : SystemState) :
    (generateStudentID st).2.students = st.students := rfl

theorem generateStudentID_courses (st : SystemState) :
    (generateStudentID st).2.courses = st.courses := rfl

theorem generateStudentID_studentsFile (st : SystemState) :
    (generateStudentID st).2.studentsFile = st.studentsFile := rfl

theorem feesFollowRule_of (c : Course) (s : Student) (t : Str)
    (ht : t = KCET ∨ t = Management) (hty : s.admissionType = t)
    (hfee : s.feesPaid = if t = KCET then c.kcetFees
      else c.managementFees * (1 - MANAGEMENT_DISCOUNT_PERCENTAGE / 100)) :
    FeesFollowRule c s := by
  rcases ht with hk | hm
  · left
    rw [hfee, if_pos hk]
    exact ⟨hty.trans hk, rfl⟩
  · right
    have hne : t ≠ KCET := by rw [hm]; decide
    rw [if_neg hne] at hfee
    exact ⟨hty.trans hm, hfee, hfee.trans (discount_factor _)⟩

theorem addStudent_appended (st st' : SystemState) (inp : StudentInput) (s : Student)
    (h : addStudent st inp = some st') (happ : st'.students = st.students ++ [s]) :
    ∃ c t, findCourse st.courses inp.courseName = some c ∧
      readAdmissionType inp.admissionTypes = some t ∧ s.admittedCourse = inp.courseName ∧
      s.admissionType = t ∧ s.studentID = (generateStudentID st).1 ∧
      s.feesPaid = (if t = KCET then c.kcetFees
        else c.managementFees * (1 - MANAGEMENT_DISCOUNT_PERCENTAGE / 100)) := by
  unfold addStudent at h
  simp only [generateStudentID_courses] at h
  have hself : st.students ≠ st.students ++ [s] := by
    intro hc
    have := congrArg List.length hc
    simp at this
  split at h
  · cases h
    exact absurd happ hself
  · split at h
    · cases h
      exact absurd happ hself
    · rename_i c hc
      split at h
      · cases h
      · rename_i t ht
        split at h
        · cases h
        · split at h
          · cases h
          · split at h
            · cases h
            · cases h
              rw [saveStudentsToFile_students] at happ
              simp only [generateStudentID_students] at happ
              have hs := List.append_cancel_left happ
              simp only [List.cons.injEq, and_true] at hs
              subst hs
              exact ⟨c, t, hc, ht, rfl, rfl, rfl, rfl⟩

theorem findCourse_some_ne_nil (courses : List Course) (n : Str) (c : Course)
    (h : findCourse courses n = some c) : courses ≠ [] := by
  intro hc
  rw [hc] at h
  simp [findCourse] at h

theorem findCourse_some_mem (courses : List Course) (n : Str) (c : Course)
    (h : findCourse courses n = some c) : c ∈ courses ∧ c.courseName = n := by
  induction courses with
  | nil => simp [findCourse] at h
  | cons x xs ih =>
    unfold findCourse at h
    by_cases hx : x.courseName = n
    · rw [if_pos hx] at h
      cases h
      exact ⟨List.mem_cons_self _ _, hx⟩
    · rw [if_neg hx] at h
      exact ⟨List.mem_cons_of_mem _ (ih h).1, (ih h).2⟩

theorem updateStudent_course_found (courses : List Course) (s s' : Student) (inp : StudentInput)
    (c : Course) (hc : findCourse courses inp.courseName = some c)
    (h : updateStudent courses s inp = some s') :
    ∃ t, readAdmissionType inp.admissionTypes = some t ∧ s'.admittedCourse = inp.courseName ∧
      s'.admissionType = t ∧ s'.studentID = s.studentID ∧
      s'.feesPaid = (if t = KCET then c.kcetFees
        else c.managementFees * (1 - MANAGEMENT_DISCOUNT_PERCENTAGE / 100)) := by
  unfold updateStudent updateCourseAndFees at h
  simp only [if_neg (findCourse_some_ne_nil _ _ _ hc), hc] at h
  split at h
  · cases h
  · rename_i s1 hs1
    split at hs1
    · cases hs1
    · rename_i t ht
      cases hs1
      split at h
      · cases h
      · split at h
        · cases h
        · split at h
          · cases h
          · cases h
            exact ⟨t, ht, rfl, rfl, rfl, rfl⟩

theorem updateFirstMatch_at (courses : List Course) (idToUpdate : Str) (inp : StudentInput)
    (pre post : List Student) (s : Student) (hpre : ∀ x ∈ pre, x.studentID ≠ idToUpdate)
    (hs : s.studentID = idToUpdate) :
    updateFirstMatch courses idToUpdate inp (pre ++ s :: post)
      = (updateStudent courses s inp).map (fun s' => some (pre ++ s' :: post)) := by
  induction pre with
  | nil =>
    simp only [List.nil_append, updateFirstMatch, if_pos hs]
    cases updateStudent courses s inp <;> rfl
  | cons x xs ih =>
    have hx : x.studentID ≠ idToUpdate := hpre x (List.mem_cons_self _ _)
    have ih' := ih (fun y hy => hpre y (List.mem_cons_of_mem _ hy))
    rw [List.cons_append, updateFirstMatch, if_neg hx, ih']
    cases updateStudent courses s inp <;> rfl

theorem updateStudentDetails_at (st st' : SystemState) (idToUpdate : Str) (inp : StudentInput)
    (pre post : List Student) (s : Student) (hst : st.students = pre ++ s :: post)
    (hpre : ∀ x ∈ pre, x.studentID ≠ idToUpdate) (hs : s.studentID = idToUpdate)
    (h : updateStudentDetails st idToUpdate inp = some st') :
    ∃ s', updateStudent st.courses s inp = some s' ∧ st'.students = pre ++ s' :: post := by
  unfold updateStudentDetails at h
  have hne : st.students ≠ [] := by rw [hst]; simp
  rw [if_neg hne, hst, updateFirstMatch_at _ _ _ _ _ _ hpre hs] at h
  cases hu : updateStudent st.courses s inp with
  | none => rw [hu] at h; cases h
  | some s' =>
    rw [hu] at h
    simp only [Option.map_some'] at h
    cases h
    exact ⟨s', rfl, saveStudentsToFile_students _⟩

theorem sampleStudent_fees (courses : List Course) (studentID : Str) (i : Nat) (r : Nat → Nat)
    (hc : courses ≠ []) :
    ∃ c ∈ courses, (sampleStudent courses studentID i r).admittedCourse = c.courseName ∧
      FeesFollowRule c (sampleStudent courses studentID i r) := by
  have hlen : 0 < courses.length := List.length_pos.2 hc
  have hidx : r 7 % courses.length < courses.length := Nat.mod_lt _ hlen
  refine ⟨courses.getD (r 7 % courses.length)
    { courseName := [], kcetFees := 0, managementFees := 0 }, ?_, rfl, ?_⟩
  · rw [List.getD_eq_getElem _ _ hidx]
    exact List.getElem_mem _
  · apply feesFollowRule_of _ _ (if r 8 % 2 = 0 then KCET else Management)
    · by_cases h : r 8 % 2 = 0
      · left; rw [if_pos h]
      · right; rw [if_neg h]
    · rfl
    · rfl

theorem generateSampleLoop_spec (rand : Nat → Nat) :
    ∀ (remaining i : Nat) (st : SystemState),
      ∃ new : List Student,
        (generateSampleLoop rand remaining i st).students = st.students ++ new ∧
        new.length = remaining ∧
        (generateSampleLoop rand remaining i st).courses = st.courses ∧
        (generateSampleLoop rand remaining i st).studentsFile = st.studentsFile ∧
        (generateSampleLoop rand remaining i st).coursesFile = st.coursesFile ∧
        (st.courses ≠ [] → ∀ s ∈ new, ∃ c ∈ st.courses,
          s.admittedCourse = c.courseName ∧ FeesFollowRule c s) := by
  intro remaining
  induction remaining with
  | zero =>
    intro i st
    exact ⟨[], by simp [generateSampleLoop], rfl, rfl, rfl, rfl, fun _ s hs => by cases hs⟩
  | succ n ih =>
    intro i st
    unfold generateSampleLoop
    simp only
    obtain ⟨new, h1, h2, h3, h4, h5, h6⟩ := ih (i + 1)
      { (generateStudentID st).2 with
        students := (generateStudentID st).2.students ++
          [sampleStudent (generateStudentID st).2.courses (generateStudentID st).1 i
            (fun k => rand (13 * i + k))] }
    refine ⟨sampleStudent st.courses (generateStudentID st).1 i (fun k => rand (13 * i + k))
      :: new, ?_, by simp [h2], h3, h4, h5, ?_⟩
    · rw [h1]
      simp [generateStudentID_students, generateStudentID_courses]
    · intro hc s hs
      rcases List.mem_cons.1 hs with rfl | hs'
      · exact sampleStudent_fees _ _ _ _ hc
      · exact h6 hc s hs'

theorem generateSampleStudents_spec (st : SystemState) (count : Int) (rand : Nat → Nat)
    (hc : st.courses ≠ []) :
    ∃ new : List Student,
      (generateSampleStudents st count rand).students = st.students ++ new ∧
      new.length = count.toNat ∧
      (st.studentsFile.canWrite = true →
        (generateSampleStudents st count rand).studentsFile.content
          = some (writeStudents (st.students ++ new))) ∧
      (∀ s ∈ new, ∃ c ∈ st.courses, s.admittedCourse = c.courseName ∧ FeesFollowRule c s) := by
  obtain ⟨new, h1, h2, _, h4, _, h6⟩ := generateSampleLoop_spec rand count.toNat 0 st
  refine ⟨new, ?_, h2, ?_, h6 hc⟩
  · unfold generateSampleStudents
    rw [if_neg hc, saveStudentsToFile_students, h1]
  · intro hw
    unfold generateSampleStudents saveStudentsToFile
    rw [if_neg hc, h4, if_pos hw, h1]

theorem deleteStudentByID_removes_exactly_witness :
    (deleteStudentByID exampleStateAdded "SID1001".toList).students = [] ∧
    (deleteStudentByID exampleStateAdded "SID1001".toList).students
        = exampleStateAdded.students.filter
            (fun s => !decide (s.studentID = "SID1001".toList)) ∧
      List.Sublist (deleteStudentByID exampleStateAdded "SID1001".toList).students
        exampleStateAdded.students ∧
      (∀ s, s ∈ (deleteStudentByID exampleStateAdded "SID1001".toList).students ↔
        s ∈ exampleStateAdded.students ∧ s.studentID ≠ "SID1001".toList) ∧
      ((∀ s ∈ exampleStateAdded.students, s.studentID ≠ "SID1001".toList) →
        (deleteStudentByID exampleStateAdded "SID1001".toList).students
          = exampleStateAdded.students) :=
  ⟨by decide, deleteStudentByID_removes_exactly exampleStateAdded "SID1001".toList⟩

/-- Claim C4: the `feesPaid` assigned by `addStudent` to the record it appends, by
`updateStudentDetails` to the record it updates when the entered course is found, and by
`generateSampleStudents` to every record it appends, follows the fee rule for the selected
course: the admission type is "KCET" and the fee is the course's `kcetFees`, or the admission
type is "Management" and the fee is `managementFees * (1 - 10/100)`, which is
`managementFees * 9/10` in exact arithmetic. -/
theorem feesPaid_follows_admission_type :
    (∀ (st st' : SystemState) (inp : StudentInput) (s : Student),
      addStudent st inp = some st' → st'.students = st.students ++ [s] →
      ∃ c, findCourse st.courses s.admittedCourse = some c ∧ FeesFollowRule c s) ∧
    (∀ (st st' : SystemState) (idToUpdate : Str) (inp : StudentInput)
      (pre post : List Student) (s : Student) (c : Course),
      st.students = pre ++ s :: post → (∀ x ∈ pre, x.studentID ≠ idToUpdate) →
      s.studentID = idToUpdate → findCourse st.courses inp.courseName = some c →
      updateStudentDetails st idToUpdate inp = some st' →
      ∃ s', st'.students = pre ++ s' :: post ∧ s'.admittedCourse = inp.courseName ∧
        FeesFollowRule c s') ∧
    (∀ (st : SystemState) (count : Int) (rand : Nat → Nat),
      ∃ new : List Student,
        (generateSampleStudents st count rand).students = st.students ++ new ∧
        ∀ s ∈ new, ∃ c ∈ st.courses, s.admittedCourse = c.courseName ∧ FeesFollowRule c s) := by
  refine ⟨?_, ?_, ?_⟩
  · intro st st' inp s h happ
    obtain ⟨c, t, hc, ht, hn, hty, _, hfee⟩ := addStudent_appended st st' inp s h happ
    exact ⟨c, by rw [hn]; exact hc,
      feesFollowRule_of c s t (readAdmissionType_valid _ _ ht) hty hfee⟩
  · intro st st' idToUpdate inp pre post s c hst hpre hs hc h
    obtain ⟨s', hu, hst'⟩ := updateStudentDetails_at st st' idToUpdate inp pre post s hst hpre hs h
    obtain ⟨t, ht, hn, hty, _, hfee⟩ := updateStudent_course_found _ _ _ _ c hc hu
    exact ⟨s', hst', hn, feesFollowRule_of c s' t (readAdmissionType_valid _ _ ht) hty hfee⟩
  · intro st count rand
    by_cases hc : st.courses = []
    · refine ⟨[], ?_, fun s hs => by cases hs⟩
      unfold generateSampleStudents
      rw [if_pos hc, List.append_nil]
    · obtain ⟨new, h1, _, _, h4⟩ := generateSampleStudents_spec st count rand hc
      exact ⟨new, h1, h4⟩

theorem feesPaid_follows_admission_type_witness :
    (∃ c, findCourse exampleState.courses exampleStudent.admittedCourse = some c ∧
      FeesFollowRule c exampleStudent) ∧
    (∃ s', exampleStateAdded.students = [] ++ s' :: [] ∧
      s'.admittedCourse = exampleInput.courseName ∧
      FeesFollowRule
        { courseName := "Civil Engineering".toList, kcetFees := 90000, managementFees := 160000 }
        s') ∧
    (∃ new : List Student,
      (generateSampleStudents exampleState 2 exampleRand).students
        = exampleState.students ++ new ∧
      ∀ s ∈ new, ∃ c ∈ exampleState.courses,
        s.admittedCourse = c.courseName ∧ FeesFollowRule c s) :=
  ⟨feesPaid_follows_admission_type.1 exampleState exampleStateAdded exampleInput exampleStudent
      (by with_unfolding_all rfl) (by with_unfolding_all rfl),
   feesPaid_follows_admission_type.2.1 exampleStateAdded exampleStateAdded "SID1001".toList
      exampleInput [] [] exampleStudent
      { courseName := "Civil Engineering".toList, kcetFees := 90000, managementFees := 160000 }
      (by with_unfolding_all rfl) (fun x hx => by cases hx) (by with_unfolding_all rfl)
      (by with_unfolding_all rfl) (by with_unfolding_all rfl),
   feesPaid_follows_admission_type.2.2 exampleState 2 exampleRand⟩

/-- Claim C5 fails as stated: with an empty course list `generateSampleStudents(1)` appends
nothing and writes nothing; and with a students file that cannot be opened for writing the
new entry is appended but no serialisation is written. -/
theorem generateSampleStudents_counterexample :
    ((generateSampleStudents noCourseState 1 exampleRand).students = noCourseState.students ∧
      (generateSampleStudents noCourseState 1 exampleRand).students.length
        ≠ noCourseState.students.length + 1 ∧
      (generateSampleStudents noCourseState 1 exampleRand).studentsFile.content = none) ∧
    ((generateSampleStudents readOnlyState 1 exampleRand).students.length = 1 ∧
      (generateSampleStudents readOnlyState 1 exampleRand).studentsFile.content
        ≠ some (writeStudents (generateSampleStudents readOnlyState 1 exampleRand).students)) := by
  refine ⟨⟨by with_unfolding_all rfl, by with_unfolding_all decide, by with_unfolding_all rfl⟩,
    by with_unfolding_all rfl, ?_⟩
  have h : (generateSampleStudents readOnlyState 1 exampleRand).studentsFile.content = none := by
    with_unfolding_all rfl
  rw [h]
  exact fun hc => Option.noConfusion hc

/-- Claim C5, amended: for every count N ≥ 0 and every program state whose course list is not
empty, `generateSampleStudents(N)` leaves the student list equal to the previous list followed
by exactly N new entries (the length grows by exactly N, the earlier entries are unchanged),
and, when the students file can be opened for writing, the content written to it is the
serialisation of that whole list. -/
theorem generateSampleStudents_appends (st : SystemState) (N : Int) (rand : Nat → Nat)
    (hN : 0 ≤ N) (hc : st.courses ≠ []) :
    ∃ new : List Student,
      (generateSampleStudents st N rand).students = st.students ++ new ∧
      (new.length : Int) = N ∧
      ((generateSampleStudents st N rand).students.length : Int) = st.students.length + N ∧
      (st.studentsFile.canWrite = true →
        (generateSampleStudents st N rand).studentsFile.content
          = some (writeStudents (generateSampleStudents st N rand).students)) := by
  obtain ⟨new, h1, h2, h3, _⟩ := generateSampleStudents_spec st N rand hc
  have hlen : (new.length : Int) = N := by rw [h2]; exact Int.toNat_of_nonneg hN
  refine ⟨new, h1, hlen, ?_, ?_⟩
  · rw [h1, List.length_append]
    push_cast
    rw [hlen]
  · intro hw
    rw [h1]
    exact h3 hw

theorem generateSampleStudents_appends_witness :
    ∃ new : List Student,
      (generateSampleStudents exampleState 2 exampleRand).students
        = exampleState.students ++ new ∧
      (new.length : Int) = 2 ∧
      ((generateSampleStudents exampleState 2 exampleRand).students.length : Int)
        = exampleState.students.length + 2 ∧
      (exampleState.studentsFile.canWrite = true →
        (generateSampleStudents exampleState 2 exampleRand).studentsFile.content
          = some (writeStudents (generateSampleStudents exampleState 2 exampleRand).students)) :=
  generateSampleStudents_appends exampleState 2 exampleRand (by decide) (by decide)

theorem digitChar_props : ∀ d, d < 10 → (digitChar d).isDigit = true ∧ isspace (digitChar d) = false ∧
    digitChar d ≠ '-' ∧ digitChar d ≠ '+' ∧ digitChar d ≠ ',' ∧ digitChar d ≠ '\n' ∧
    digitChar d ≠ '.' ∧ (digitChar d).toNat - 48 = d := by
  decide

theorem splitSign_of_not_sign (c : Char) (t : Str) (h1 : c ≠ '-') (h2 : c ≠ '+') :
    splitSign (c :: t) = (false, c :: t) := by
  unfold splitSign
  split
  · rename_i heq; cases heq; exact absurd rfl h1
  · rename_i heq; cases heq; exact absurd rfl h2
  · rfl

theorem natToStringAux_spec : ∀ (fuel n : Nat) (acc : Str), n < fuel →
    ∃ body : Str, body ≠ [] ∧ natToStringAux fuel n acc = body ++ acc ∧
      (∀ c ∈ body, ∃ e, e < 10 ∧ c = digitChar e) ∧
      ∀ v : Nat, body.foldl (fun a c => 10 * a + (c.toNat - 48)) v
        = v * 10 ^ body.length + n := by
  intro fuel
  induction fuel with
  | zero => intro n acc h; omega
  | succ k ih =>
    intro n acc h
    unfold natToStringAux
    by_cases hn : n < 10
    · rw [if_pos hn]
      refine ⟨[digitChar n], by simp, rfl, ?_, ?_⟩
      · intro c hc
        exact ⟨n, hn, List.mem_singleton.1 hc⟩
      · intro v
        simp only [List.foldl_cons, List.foldl_nil, (digitChar_props n hn).2.2.2.2.2.2.2,
          List.length_singleton, pow_one]
        ring
    · rw [if_neg hn]
      obtain ⟨body, hne, heq, hds, hval⟩ := ih (n / 10) (digitChar (n % 10) :: acc) (by omega)
      have hm : n % 10 < 10 := Nat.mod_lt _ (by decide)
      refine ⟨body ++ [digitChar (n % 10)], by simp, ?_, ?_, ?_⟩
      · rw [heq]; simp
      · intro c hc
        rcases List.mem_append.1 hc with h1 | h1
        · exact hds c h1
        · exact ⟨n % 10, hm, List.mem_singleton.1 h1⟩
      · intro v
        rw [List.foldl_append, hval v]
        simp only [List.foldl_cons, List.foldl_nil, (digitChar_props _ hm).2.2.2.2.2.2.2,
          List.length_append, List.length_singleton, pow_succ]
        have : n = 10 * (n / 10) + n % 10 := by omega
        generalize n / 10 = q at this ⊢
        generalize n % 10 = r at this ⊢
        rw [this]
        ring

theorem natToString_spec (n : Nat) :
    natToString n ≠ [] ∧ (∀ c ∈ natToString n, ∃ e, e < 10 ∧ c = digitChar e) ∧
      digitsValue (natToString n) = n := by
  obtain ⟨body, hne, heq, hds, hval⟩ := natToStringAux_spec (n + 1) n [] (by omega)
  rw [List.append_nil] at heq
  unfold natToString digitsValue
  rw [heq]
  refine ⟨hne, hds, ?_⟩
  rw [hval 0]
  simp

theorem takeWhile_append_stop {α : Type} (p : α → Bool) (l r : List α)
    (hl : ∀ c ∈ l, p c = true) (hr : ∀ c ∈ r.head?, p c = false) :
    (l ++ r).takeWhile p = l := by
  induction l with
  | nil =>
    cases r with
    | nil => rfl
    | cons x xs => simp [List.takeWhile, hr x (by simp)]
  | cons x xs ih =>
    have hx := hl x (List.mem_cons_self _ _)
    have ih' := ih (fun c hc => hl c (List.mem_cons_of_mem _ hc))
    simp [List.takeWhile_cons, hx, ih']

theorem dropWhile_append_stop {α : Type} (p : α → Bool) (l r : List α)
    (hl : ∀ c ∈ l, p c = true) (hr : ∀ c ∈ r.head?, p c = false) :
    (l ++ r).dropWhile p = r := by
  induction l with
  | nil =>
    cases r with
    | nil => rfl
    | cons x xs => simp [List.dropWhile, hr x (by simp)]
  | cons x xs ih =>
    have hx := hl x (List.mem_cons_self _ _)
    have ih' := ih (fun c hc => hl c (List.mem_cons_of_mem _ hc))
    simp [List.dropWhile_cons, hx, ih']

theorem natToString_isDigit (n : Nat) : ∀ c ∈ natToString n, c.isDigit = true := by
  intro c hc
  obtain ⟨e, he, rfl⟩ := (natToString_spec n).2.1 c hc
  exact (digitChar_props e he).1

theorem natToString_head (n : Nat) :
    ∃ d t, d < 10 ∧ natToString n = digitChar d :: t := by
  have h := natToString_spec n
  cases hs : natToString n with
  | nil => exact absurd hs h.1
  | cons c t =>
    obtain ⟨e, he, rfl⟩ := h.2.1 c (by rw [hs]; exact List.mem_cons_self _ _)
    exact ⟨e, t, he, rfl⟩

theorem dropWhile_isspace_natToString (n : Nat) (r : Str) :
    (natToString n ++ r).dropWhile isspace = natToString n ++ r := by
  obtain ⟨d, t, hd, hs⟩ := natToString_head n
  rw [hs]
  simp [List.dropWhile, (digitChar_props d hd).2.1]

theorem splitSign_natToString (n : Nat) (r : Str) :
    splitSign (natToString n ++ r) = (false, natToString n ++ r) := by
  obtain ⟨d, t, hd, hs⟩ := natToString_head n
  rw [hs]
  exact splitSign_of_not_sign _ _ (digitChar_props d hd).2.2.1 (digitChar_props d hd).2.2.2.1

theorem stoi_to_string (n : Int) (hlo : -2147483648 ≤ n) (hhi : n ≤ 2147483647) :
    stoi (to_string n) = Except.ok n := by
  have hd := natToString_isDigit n.natAbs
  have hv := (natToString_spec n.natAbs).2.2
  have hne := (natToString_spec n.natAbs).1
  have htw : (natToString n.natAbs).takeWhile Char.isDigit = natToString n.natAbs := by
    have := takeWhile_append_stop Char.isDigit (natToString n.natAbs) [] hd (by simp)
    rwa [List.append_nil] at this
  unfold stoi to_string
  by_cases hneg : n < 0
  · rw [if_pos hneg]
    have h1 : ('-' :: natToString n.natAbs).dropWhile isspace = '-' :: natToString n.natAbs := by
      simp [List.dropWhile, isspace]
    rw [h1]
    simp only [splitSign, htw, if_neg hne, if_true, hv]
    have : -(n.natAbs : Int) = n := by omega
    rw [this, if_neg (by omega)]
  · rw [if_neg hneg]
    have h1 := dropWhile_isspace_natToString n.natAbs []
    have h2 := splitSign_natToString n.natAbs []
    rw [List.append_nil] at h1 h2
    rw [h1, h2]
    simp only [htw, if_neg hne, hv]
    have : (n.natAbs : Int) = n := by omega
    simp only [Bool.false_eq_true, if_false, this]
    rw [if_neg (by omega)]

theorem maxExistingIDStep_ge (m : Int) (s : Student) : m ≤ maxExistingIDStep m s := by
  unfold maxExistingIDStep
  split
  · split
    · split
      · omega
      · exact le_refl _
    · exact le_refl _
  · exact le_refl _

theorem maxExistingID_foldl_ge (students : List Student) (m : Int) :
    m ≤ students.foldl maxExistingIDStep m := by
  induction students generalizing m with
  | nil => exact le_refl _
  | cons x xs ih => exact le_trans (maxExistingIDStep_ge m x) (ih _)

theorem to_string_ne_nil (n : Int) : to_string n ≠ [] := by
  unfold to_string
  split
  · simp
  · exact (natToString_spec _).1

theorem maxExistingIDStep_of_canonical (m n : Int) (s : Student)
    (hid : s.studentID = SID ++ to_string n) (hlo : -2147483648 ≤ n) (hhi : n ≤ 2147483647) :
    n ≤ maxExistingIDStep m s := by
  have hlen : 3 < s.studentID.length := by
    rw [hid, List.length_append]
    have := List.length_pos.2 (to_string_ne_nil n)
    simp only [SID, List.length_cons, List.length_nil]
    omega
  have htake : s.studentID.take 3 = SID := by
    rw [hid]
    exact List.take_left' rfl
  have hdrop : s.studentID.drop 3 = to_string n := by
    rw [hid]
    exact List.drop_left' rfl
  unfold maxExistingIDStep
  rw [if_pos ⟨hlen, htake⟩, hdrop, stoi_to_string n hlo hhi]
  simp only
  split <;> omega

theorem maxExistingID_foldl_mem (students : List Student) (m n : Int) (s : Student)
    (hs : s ∈ students) (hid : s.studentID = SID ++ to_string n)
    (hlo : -2147483648 ≤ n) (hhi : n ≤ 2147483647) :
    n ≤ students.foldl maxExistingIDStep m := by
  induction students generalizing m with
  | nil => cases hs
  | cons x xs ih =>
    rw [List.foldl_cons]
    rcases List.mem_cons.1 hs with rfl | hmem
    · exact le_trans (maxExistingIDStep_of_canonical m n s hid hlo hhi)
        (maxExistingID_foldl_ge xs _)
    · exact ih _ hmem

theorem generateStudentID_not_in_list (st : SystemState)
    (hlo : -2147483648 ≤ st.nextID) (hhi : st.nextID ≤ 2147483647)
    (hmax : maxExistingID st.students < 2147483647) :
    ∀ s ∈ st.students, s.studentID ≠ (generateStudentID st).1 := by
  intro s hs heq
  have hne : st.students ≠ [] := List.ne_nil_of_mem hs
  have h0 : 0 ≤ maxExistingID st.students := maxExistingID_foldl_ge _ 0
  have hfold : maxExistingID st.students = st.students.foldl maxExistingIDStep 0 := rfl
  unfold generateStudentID at heq
  simp only [if_pos hne] at heq
  by_cases hcmp : st.nextID ≤ maxExistingID st.students
  · rw [if_pos hcmp, wrap32_of_range _ (by omega) (by omega)] at heq
    have := maxExistingID_foldl_mem st.students 0 _ s hs heq (by omega) (by omega)
    rw [← hfold] at this
    omega
  · rw [if_neg hcmp] at heq
    have := maxExistingID_foldl_mem st.students 0 _ s hs heq hlo hhi
    rw [← hfold] at this
    omega

/-- Claim C7: for every student list and every counter value in the `int` range, provided the
increment past the largest existing numeric suffix does not overflow `int`, the ID returned by
`generateStudentID` differs from the `studentID` of every student in the list; hence appending
a student carrying that ID keeps the IDs pairwise distinct whenever they were so before. -/
theorem generateStudentID_fresh (st : SystemState)
    (hlo : -2147483648 ≤ st.nextID) (hhi : st.nextID ≤ 2147483647)
    (hmax : maxExistingID st.students < 2147483647) :
    (∀ s ∈ st.students, s.studentID ≠ (generateStudentID st).1) ∧
    ((st.students.map Student.studentID).Nodup →
      ∀ s : Student, s.studentID = (generateStudentID st).1 →
        ((st.students ++ [s]).map Student.studentID).Nodup) := by
  have hfresh := generateStudentID_not_in_list st hlo hhi hmax
  refine ⟨hfresh, ?_⟩
  intro hnd s hs
  rw [List.map_append, List.nodup_append]
  refine ⟨hnd, List.nodup_singleton _, ?_⟩
  intro a ha hb
  simp only [List.map_cons, List.map_nil, List.mem_singleton] at hb
  obtain ⟨x, hx, rfl⟩ := List.mem_map.1 ha
  exact hfresh x hx (hb.trans hs)

theorem generateStudentID_fresh_witness :
    (generateStudentID reloadedState).1 = "SID1002".toList ∧
    ((∀ s ∈ reloadedState.students, s.studentID ≠ (generateStudentID reloadedState).1) ∧
    ((reloadedState.students.map Student.studentID).Nodup →
      ∀ s : Student, s.studentID = (generateStudentID reloadedState).1 →
        ((reloadedState.students ++ [s]).map Student.studentID).Nodup)) :=
  ⟨by decide, generateStudentID_fresh reloadedState (by decide) (by decide) (by decide)⟩

theorem span_append_stop {α : Type} (p : α → Bool) (l r : List α)
    (hl : ∀ c ∈ l, p c = true) (hr : ∀ c ∈ r.head?, p c = false) :
    (l ++ r).span p = (l, r) := by
  rw [List.span_eq_take_drop, takeWhile_append_stop p l r hl hr,
    dropWhile_append_stop p l r hl hr]

theorem getline_of_delim (field rest : Str) (delim : Char) (hf : delim ∉ field) :
    getline { rest := field ++ delim :: rest, good := true } delim
      = some (field, { rest := rest, good := true }) := by
  unfold getline
  simp only [if_true]
  rw [span_append_stop _ field (delim :: rest)
    (fun c hc => by
      have : c ≠ delim := fun h => hf (h ▸ hc)
      simpa using this)
    (by simp)]

theorem getline_of_end (field : Str) (delim : Char) (hf : delim ∉ field) (hne : field ≠ []) :
    getline { rest := field, good := true } delim
      = some (field, { rest := [], good := false }) := by
  unfold getline
  simp only [if_true]
  have := span_append_stop (fun c => c != delim) field []
    (fun c hc => by
      have : c ≠ delim := fun h => hf (h ▸ hc)
      simpa using this)
    (by simp)
  rw [List.append_nil] at this
  rw [this]
  simp [hne]

theorem getline_some (ss ss' : IStream) (delim : Char) (field : Str)
    (h : getline ss delim = some (field, ss')) :
    ss.good = true ∧ delim ∉ field ∧
      ((ss'.good = true ∧ ss.rest = field ++ delim :: ss'.rest) ∨
       (ss'.good = false ∧ ss.rest = field ∧ field ≠ [] ∧ ss'.rest = [])) := by
  unfold getline at h
  by_cases hg : ss.good = true
  · rw [if_pos hg] at h
    have hsp := List.span_eq_take_drop (fun c => c != delim) ss.rest
    have htd := List.takeWhile_append_dropWhile (fun c => c != delim) ss.rest
    have hnot : delim ∉ ss.rest.takeWhile (fun c => c != delim) := by
      intro hmem
      have := List.mem_takeWhile_imp hmem
      simp at this
    rw [hsp] at h
    cases hd : ss.rest.dropWhile (fun c => c != delim) with
    | nil =>
      rw [hd] at h htd
      simp only at h
      split at h
      · cases h
      · rename_i hne
        cases h
        rw [List.append_nil] at htd
        exact ⟨hg, hnot, Or.inr ⟨rfl, htd.symm, hne, rfl⟩⟩
    | cons x xs =>
      rw [hd] at h htd
      simp only at h
      cases h
      have hx : x = delim := by
        have := List.head_dropWhile_not (fun c => c != delim) ss.rest (by rw [hd]; simp)
        simp [hd] at this
        exact this
      subst hx
      exact ⟨hg, hnot, Or.inl ⟨rfl, htd.symm⟩⟩
  · rw [if_neg hg] at h
    cases h

theorem except_bind_ok {ε α β : Type} (x : Except ε α) (k : α → Except ε β) (b : β)
    (h : (x >>= k) = Except.ok b) : ∃ v, x = Except.ok v ∧ k v = Except.ok b := by
  cases x with
  | error e => cases h
  | ok v => exact ⟨v, rfl, h⟩

theorem getlineOrThrow_ok (ss ss' : IStream) (delim : Char) (what : String) (field : Str)
    (h : getlineOrThrow ss delim what = Except.ok (field, ss')) :
    getline ss delim = some (field, ss') := by
  unfold getlineOrThrow at h
  split at h
  · rename_i r hr
    cases h
    exact hr
  · cases h

theorem getline_count (ss ss' ss'' : IStream) (d : Char) (f f' : Str)
    (h : getline ss ',' = some (f, ss')) (hnext : getline ss' d = some (f', ss'')) :
    ss.rest.count ',' = ss'.rest.count ',' + 1 := by
  obtain ⟨_, hnot, hcase⟩ := getline_some ss ss' ',' f h
  obtain ⟨hgood, _, _⟩ := getline_some ss' ss'' d f' hnext
  rcases hcase with ⟨_, hrest⟩ | ⟨hbad, _⟩
  · rw [hrest, List.count_append, List.count_cons_self, List.count_eq_zero_of_not_mem hnot]
    omega
  · rw [hgood] at hbad
    cases hbad

theorem parseCourseLine_ok_count (line : Str) (c : Course)
    (h : parseCourseLine line = Except.ok c) : 2 ≤ line.count ',' := by
  unfold parseCourseLine at h
  obtain ⟨⟨f1, s1⟩, g1, h⟩ := except_bind_ok _ _ _ h
  obtain ⟨⟨f2, s2⟩, g2, h⟩ := except_bind_ok _ _ _ h
  obtain ⟨_, _, h⟩ := except_bind_ok _ _ _ h
  obtain ⟨⟨f3, s3⟩, g3, h⟩ := except_bind_ok _ _ _ h
  have c1 := getline_count _ _ _ _ _ _ (getlineOrThrow_ok _ _ _ _ _ g1) (getlineOrThrow_ok _ _ _ _ _ g2)
  have c2 := getline_count _ _ _ _ _ _ (getlineOrThrow_ok _ _ _ _ _ g2) (getlineOrThrow_ok _ _ _ _ _ g3)
  simp only at c1 c2
  omega

theorem parseStudentLine_ok_count (line : Str) (s : Student)
    (h : parseStudentLine line = Except.ok s) : 11 ≤ line.count ',' := by
  unfold parseStudentLine at h
  obtain ⟨⟨f1, s1⟩, g1, h⟩ := except_bind_ok _ _ _ h
  obtain ⟨⟨f2, s2⟩, g2, h⟩ := except_bind_ok _ _ _ h
  obtain ⟨⟨f3, s3⟩, g3, h⟩ := except_bind_ok _ _ _ h
  obtain ⟨⟨f4, s4⟩, g4, h⟩ := except_bind_ok _ _ _ h
  obtain ⟨⟨f5, s5⟩, g5, h⟩ := except_bind_ok _ _ _ h
  obtain ⟨⟨f6, s6⟩, g6, h⟩ := except_bind_ok _ _ _ h
  obtain ⟨⟨f7, s7⟩, g7, h⟩ := except_bind_ok _ _ _ h
  obtain ⟨⟨f8, s8⟩, g8, h⟩ := except_bind_ok _ _ _ h
  obtain ⟨⟨f9, s9⟩, g9, h⟩ := except_bind_ok _ _ _ h
  obtain ⟨_, _, h⟩ := except_bind_ok _ _ _ h
  obtain ⟨⟨f10, s10⟩, g10, h⟩ := except_bind_ok _ _ _ h
  obtain ⟨_, _, h⟩ := except_bind_ok _ _ _ h
  obtain ⟨⟨f11, s11⟩, g11, h⟩ := except_bind_ok _ _ _ h
  obtain ⟨_, _, h⟩ := except_bind_ok _ _ _ h
  obtain ⟨⟨f12, s12⟩, g12, h⟩ := except_bind_ok _ _ _ h
  have c1 := getline_count _ _ _ _ _ _ (getlineOrThrow_ok _ _ _ _ _ g1) (getlineOrThrow_ok _ _ _ _ _ g2)
  have c2 := getline_count _ _ _ _ _ _ (getlineOrThrow_ok _ _ _ _ _ g2) (getlineOrThrow_ok _ _ _ _ _ g3)
  have c3 := getline_count _ _ _ _ _ _ (getlineOrThrow_ok _ _ _ _ _ g3) (getlineOrThrow_ok _ _ _ _ _ g4)
  have c4 := getline_count _ _ _ _ _ _ (getlineOrThrow_ok _ _ _ _ _ g4) (getlineOrThrow_ok _ _ _ _ _ g5)
  have c5 := getline_count _ _ _ _ _ _ (getlineOrThrow_ok _ _ _ _ _ g5) (getlineOrThrow_ok _ _ _ _ _ g6)
  have c6 := getline_count _ _ _ _ _ _ (getlineOrThrow_ok _ _ _ _ _ g6) (getlineOrThrow_ok _ _ _ _ _ g7)
  have c7 := getline_count _ _ _ _ _ _ (getlineOrThrow_ok _ _ _ _ _ g7) (getlineOrThrow_ok _ _ _ _ _ g8)
  have c8 := getline_count _ _ _ _ _ _ (getlineOrThrow_ok _ _ _ _ _ g8) (getlineOrThrow_ok _ _ _ _ _ g9)
  have c9 := getline_count _ _ _ _ _ _ (getlineOrThrow_ok _ _ _ _ _ g9) (getlineOrThrow_ok _ _ _ _ _ g10)
  have c10 := getline_count _ _ _ _ _ _ (getlineOrThrow_ok _ _ _ _ _ g10) (getlineOrThrow_ok _ _ _ _ _ g11)
  have c11 := getline_count _ _ _ _ _ _ (getlineOrThrow_ok _ _ _ _ _ g11) (getlineOrThrow_ok _ _ _ _ _ g12)
  simp only at c1 c2 c3 c4 c5 c6 c7 c8 c9 c10 c11
  omega

theorem loadStudentLine_of_error (students : List Student) (line : Str) (e : LoadError)
    (h : parseStudentLine line = Except.error e) : loadStudentLine students line = students := by
  unfold loadStudentLine
  rw [h]

theorem loadCourseLine_of_error (courses : List Course) (line : Str) (e : LoadError)
    (h : parseCourseLine line = Except.error e) : loadCourseLine courses line = courses := by
  unfold loadCourseLine
  rw [h]

/-- Claim C8: a line of students.txt with fewer than twelve comma-separated segments (fewer
than eleven commas) is rejected by the per-line parser, and processing it in
`loadStudentsFromFile` leaves the list built so far unchanged, so no partially filled record
is appended; likewise a line of courses.txt with fewer than three segments (fewer than two
commas) in `loadCoursesFromFile`. -/
theorem short_line_appends_no_record :
    (∀ (line : Str) (students : List Student), line.count ',' + 1 < 12 →
      (∃ e, parseStudentLine line = Except.error e) ∧
        loadStudentLine students line = students) ∧
    (∀ (line : Str) (courses : List Course), line.count ',' + 1 < 3 →
      (∃ e, parseCourseLine line = Except.error e) ∧
        loadCourseLine courses line = courses) := by
  constructor
  · intro line students hlt
    cases hp : parseStudentLine line with
    | error e => exact ⟨⟨e, rfl⟩, loadStudentLine_of_error _ _ e hp⟩
    | ok s =>
      have := parseStudentLine_ok_count line s hp
      omega
  · intro line courses hlt
    cases hp : parseCourseLine line with
    | error e => exact ⟨⟨e, rfl⟩, loadCourseLine_of_error _ _ e hp⟩
    | ok c =>
      have := parseCourseLine_ok_count line c hp
      omega

theorem short_line_appends_no_record_witness :
    ((∃ e, parseStudentLine "Asha,9800000001,asha@example.com,Street 1,O+,SID1001".toList
        = Except.error e) ∧
      loadStudentLine [exampleStudent]
        "Asha,9800000001,asha@example.com,Street 1,O+,SID1001".toList = [exampleStudent]) ∧
    ((∃ e, parseCourseLine "Civil Engineering,90000.00".toList = Except.error e) ∧
      loadCourseLine exampleCourses "Civil Engineering,90000.00".toList = exampleCourses) :=
  ⟨short_line_appends_no_record.1 _ _ (by decide),
   short_line_appends_no_record.2 _ _ (by decide)⟩

theorem except_ok_bind {ε α β : Type} (x : α) (k : α → Except ε β) :
    ((Except.ok x : Except ε α) >>= k) = k x := rfl

theorem getlineOrThrow_of_delim (field rest : Str) (delim : Char) (what : String)
    (hf : delim ∉ field) :
    getlineOrThrow { rest := field ++ delim :: rest, good := true } delim what
      = Except.ok (field, { rest := rest, good := true }) := by
  unfold getlineOrThrow
  rw [getline_of_delim field rest delim hf]

theorem parseStudentLine_of_fields (f1 f2 f3 f4 f5 f6 f7 f8 m r p rest : Str)
    (h1 : ',' ∉ f1) (h2 : ',' ∉ f2) (h3 : ',' ∉ f3) (h4 : ',' ∉ f4) (h5 : ',' ∉ f5)
    (h6 : ',' ∉ f6) (h7 : ',' ∉ f7) (h8 : ',' ∉ f8) (h9 : ',' ∉ m) (h10 : ',' ∉ r)
    (h11 : ',' ∉ p) :
    parseStudentLine (f1 ++ ',' :: (f2 ++ ',' :: (f3 ++ ',' :: (f4 ++ ',' :: (f5 ++ ',' ::
      (f6 ++ ',' :: (f7 ++ ',' :: (f8 ++ ',' :: (m ++ ',' :: (r ++ ',' ::
      (p ++ ',' :: rest)))))))))))
    = (liftDouble (stod m) >>= fun totalMarks =>
       liftConv (stoi r) >>= fun rankObtained =>
       liftDouble (stod p) >>= fun expectedPackage =>
       getlineOrThrow { rest := rest, good := true } '\n' "Fees paid missing" >>= fun last =>
       liftDouble (stod last.1) >>= fun feesPaid =>
       Except.ok { name := f1, phoneNumber := f2, email := f3, address := f4, bloodGroup := f5,
                   studentID := f6, admittedCourse := f7, admissionType := f8,
                   totalMarks := totalMarks, rankObtained := rankObtained,
                   expectedPackage := expectedPackage, feesPaid := feesPaid }) := by
  unfold parseStudentLine
  simp only [except_ok_bind, getlineOrThrow_of_delim _ _ _ _ h1,
    getlineOrThrow_of_delim _ _ _ _ h2, getlineOrThrow_of_delim _ _ _ _ h3,
    getlineOrThrow_of_delim _ _ _ _ h4, getlineOrThrow_of_delim _ _ _ _ h5,
    getlineOrThrow_of_delim _ _ _ _ h6, getlineOrThrow_of_delim _ _ _ _ h7,
    getlineOrThrow_of_delim _ _ _ _ h8, getlineOrThrow_of_delim _ _ _ _ h9,
    getlineOrThrow_of_delim _ _ _ _ h10, getlineOrThrow_of_delim _ _ _ _ h11]
  rfl

theorem liftConv_error {α : Type} (x : Except ConvError α) (h : ∃ e, x = Except.error e) :
    ∃ e, liftConv x = Except.error e := by
  obtain ⟨e, rfl⟩ := h
  cases e
  · exact ⟨_, rfl⟩
  · exact ⟨_, rfl⟩

theorem liftDouble_error (x : Except ConvError Double) (h : ∃ e, x = Except.error e) :
    ∃ e, liftDouble x = Except.error e := by
  obtain ⟨e, rfl⟩ := h
  cases e
  · exact ⟨_, rfl⟩
  · exact ⟨_, rfl⟩

theorem error_bind {ε α β : Type} (x : Except ε α) (k : α → Except ε β)
    (h : ∃ e, x = Except.error e) : ∃ e, (x >>= k) = Except.error e := by
  obtain ⟨e, rfl⟩ := h
  exact ⟨e, rfl⟩

theorem bind_is_error {ε α β : Type} (x : Except ε α) (k : α → Except ε β)
    (h : ∀ v, ∃ e, k v = Except.error e) : ∃ e, (x >>= k) = Except.error e := by
  cases x with
  | error e => exact ⟨e, rfl⟩
  | ok v => exact h v

theorem getlineOrThrow_last (fees : Str) (what : String) (hnl : '\n' ∉ fees) :
    (fees = [] ∧ ∃ e, getlineOrThrow { rest := fees, good := true } '\n' what = Except.error e) ∨
    (fees ≠ [] ∧ getlineOrThrow { rest := fees, good := true } '\n' what
      = Except.ok (fees, { rest := [], good := false })) := by
  by_cases hf : fees = []
  · left
    subst hf
    exact ⟨rfl, _, rfl⟩
  · right
    refine ⟨hf, ?_⟩
    unfold getlineOrThrow
    rw [getline_of_end fees '\n' hnl hf]

theorem readHexadecimal_of_first (c : Char) (rest : Str) (hc : c ≠ '0') :
    readHexadecimal (c :: rest) = none := by
  unfold readHexadecimal
  split
  · rename_i heq
    simp only [List.cons.injEq] at heq
    exact absurd heq.1 hc
  · rfl

theorem readDecimal_none (body : Str) (h1 : body.takeWhile Char.isDigit = [])
    (h2 : ∀ t, body = '.' :: t → t.takeWhile Char.isDigit = []) : readDecimal body = none := by
  have hdrop : body.dropWhile Char.isDigit = body := by
    have := List.takeWhile_append_dropWhile Char.isDigit body
    rw [h1, List.nil_append] at this
    exact this
  have hmatch : (match body with
      | '.' :: t => (t.takeWhile Char.isDigit, t.dropWhile Char.isDigit)
      | t => ([], t)).1 = [] := by
    split
    · rename_i t
      exact h2 t rfl
    · rfl
  unfold readDecimal
  rw [h1, hdrop]
  dsimp only
  rw [if_pos ⟨rfl, hmatch⟩]

theorem readNonFinite_none (neg neg' : Bool) (body : Str)
    (h : (readNonFinite neg body).isSome = false) : readNonFinite neg' body = none := by
  unfold readNonFinite at h ⊢
  split
  · rename_i heq
    rw [heq] at h
    exact absurd h (by simp)
  · rename_i heq
    rw [heq] at h
    exact absurd h (by simp)
  · rfl

theorem stod_of_not_beginsWithDecimal (s : Str) (h : beginsWithDecimal s = false)
    (hfin : nonFiniteSpelling s = false) :
    stod s = Except.error ConvError.invalid_argument := by
  unfold beginsWithDecimal at h
  unfold nonFiniteSpelling at hfin
  unfold stod
  generalize splitSign (s.dropWhile isspace) = sb at *
  obtain ⟨neg, body⟩ := sb
  simp only at h hfin ⊢
  rw [readNonFinite_none false neg body hfin]
  simp only
  have hhex : readHexadecimal body = none := by
    cases body with
    | nil => rfl
    | cons c rest =>
      apply readHexadecimal_of_first
      rintro rfl
      split at h
      · rename_i heq
        simp only [List.cons.injEq] at heq
        exact absurd heq.1 (by decide)
      · rename_i heq
        simp only [List.cons.injEq] at heq
        rw [← heq.1] at h
        exact absurd h (by decide)
      · rename_i heq
        exact absurd heq (by simp)
  have hdec : readDecimal body = none := by
    apply readDecimal_none
    · cases body with
      | nil => rfl
      | cons c rest =>
        have hc : c.isDigit = false := by
          split at h
          · rename_i heq
            simp only [List.cons.injEq] at heq
            rw [heq.1]
            decide
          · rename_i heq
            simp only [List.cons.injEq] at heq
            rw [heq.1]
            exact h
          · rename_i heq
            exact absurd heq (by simp)
        simp [List.takeWhile_cons, hc]
    · intro t ht
      subst ht
      cases t with
      | nil => rfl
      | cons d t2 =>
        simp only at h
        simp [List.takeWhile_cons, h]
  rw [hhex, hdec]

theorem stoi_of_not_beginsWithInteger (s : Str) (h : beginsWithInteger s = false) :
    stoi s = Except.error ConvError.invalid_argument := by
  unfold beginsWithInteger at h
  unfold stoi
  generalize splitSign (s.dropWhile isspace) = sb at *
  obtain ⟨neg, body⟩ := sb
  simp only at h ⊢
  have ht : body.takeWhile Char.isDigit = [] := by
    cases body with
    | nil => rfl
    | cons c rest =>
      simp only at h
      simp [List.takeWhile_cons, h]
  rw [ht, if_pos rfl]

/-- Claim C9, amended: for every line of students.txt made of twelve comma-separated segments
(the twelfth running to the end of the line), if the total-marks, expected-package or fees-paid
segment does not begin with a number that `std::stod` reads (after optional white space and an
optional sign comes neither a digit, nor a decimal point followed by a digit, nor a spelling of
infinity or NaN), or the rank segment does not begin with an integer (after optional white
space and an optional sign comes no digit), the line is rejected and processing it leaves the
list built so far unchanged. -/
theorem rejected_numeric_segment_skips_line
    (f1 f2 f3 f4 f5 f6 f7 f8 m r p fees : Str) (students : List Student)
    (h1 : ',' ∉ f1) (h2 : ',' ∉ f2) (h3 : ',' ∉ f3) (h4 : ',' ∉ f4) (h5 : ',' ∉ f5)
    (h6 : ',' ∉ f6) (h7 : ',' ∉ f7) (h8 : ',' ∉ f8) (h9 : ',' ∉ m) (h10 : ',' ∉ r)
    (h11 : ',' ∉ p) (hnl : '\n' ∉ fees)
    (hbad : (beginsWithDecimal m = false ∧ nonFiniteSpelling m = false) ∨
      beginsWithInteger r = false ∨
      (beginsWithDecimal p = false ∧ nonFiniteSpelling p = false) ∨
      (beginsWithDecimal fees = false ∧ nonFiniteSpelling fees = false)) :
    (∃ e, parseStudentLine (f1 ++ ',' :: (f2 ++ ',' :: (f3 ++ ',' :: (f4 ++ ',' ::
      (f5 ++ ',' :: (f6 ++ ',' :: (f7 ++ ',' :: (f8 ++ ',' :: (m ++ ',' :: (r ++ ',' ::
      (p ++ ',' :: fees))))))))))) = Except.error e) ∧
    loadStudentLine students (f1 ++ ',' :: (f2 ++ ',' :: (f3 ++ ',' :: (f4 ++ ',' ::
      (f5 ++ ',' :: (f6 ++ ',' :: (f7 ++ ',' :: (f8 ++ ',' :: (m ++ ',' :: (r ++ ',' ::
      (p ++ ',' :: fees))))))))))) = students := by
  have herr : ∃ e, parseStudentLine (f1 ++ ',' :: (f2 ++ ',' :: (f3 ++ ',' :: (f4 ++ ',' ::
      (f5 ++ ',' :: (f6 ++ ',' :: (f7 ++ ',' :: (f8 ++ ',' :: (m ++ ',' :: (r ++ ',' ::
      (p ++ ',' :: fees))))))))))) = Except.error e := by
    rw [parseStudentLine_of_fields f1 f2 f3 f4 f5 f6 f7 f8 m r p fees h1 h2 h3 h4 h5 h6 h7 h8
      h9 h10 h11]
    rcases hbad with hm | hr | hp | hf
    · exact error_bind _ _ (liftDouble_error _ ⟨_, stod_of_not_beginsWithDecimal m hm.1 hm.2⟩)
    · exact bind_is_error _ _ (fun _ => error_bind _ _
        (liftConv_error _ ⟨_, stoi_of_not_beginsWithInteger r hr⟩))
    · exact bind_is_error _ _ (fun _ => bind_is_error _ _ (fun _ =>
        error_bind _ _ (liftDouble_error _ ⟨_, stod_of_not_beginsWithDecimal p hp.1 hp.2⟩)))
    · refine bind_is_error _ _ (fun _ => bind_is_error _ _ (fun _ => bind_is_error _ _
        (fun _ => ?_)))
      rcases getlineOrThrow_last fees "Fees paid missing" hnl with ⟨_, he⟩ | ⟨_, hok⟩
      · exact error_bind _ _ he
      · rw [hok, except_ok_bind]
        exact error_bind _ _ (liftDouble_error _ ⟨_, stod_of_not_beginsWithDecimal fees hf.1 hf.2⟩)
  obtain ⟨e, he⟩ := herr
  exact ⟨⟨e, he⟩, loadStudentLine_of_error _ _ e he⟩

theorem rejected_numeric_segment_skips_line_witness :
    (∃ e, parseStudentLine ("Asha".toList ++ ',' :: ("98".toList ++ ',' :: ("a@b".toList ++
      ',' :: ("Street 1".toList ++ ',' :: ("O+".toList ++ ',' :: ("SID1001".toList ++ ',' ::
      ("Civil Engineering".toList ++ ',' :: (KCET ++ ',' :: (" -abc".toList ++ ',' ::
      ("57".toList ++ ',' :: ("6.50".toList ++ ',' :: "90000.00".toList)))))))))))
        = Except.error e) ∧
    loadStudentLine [exampleStudent] ("Asha".toList ++ ',' :: ("98".toList ++ ',' ::
      ("a@b".toList ++ ',' :: ("Street 1".toList ++ ',' :: ("O+".toList ++ ',' ::
      ("SID1001".toList ++ ',' :: ("Civil Engineering".toList ++ ',' :: (KCET ++ ',' ::
      (" -abc".toList ++ ',' :: ("57".toList ++ ',' :: ("6.50".toList ++ ',' ::
      "90000.00".toList))))))))))) = [exampleStudent] :=
  rejected_numeric_segment_skips_line _ _ _ _ _ _ _ _ _ _ _ _ _ (by decide) (by decide)
    (by decide) (by decide) (by decide) (by decide) (by decide) (by decide) (by decide)
    (by decide) (by decide) (by decide) (Or.inl ⟨by decide, by decide⟩)

/-- Claim C9 fails as stated: in `trailingGarbageLine` the total-marks segment `12abc` and the
rank segment `57th` are not in their entirety well-formed numbers, yet `stod` and `stoi` convert
their leading digits and ignore the rest, so the line is accepted and a record with marks 12
and rank 57 is appended. -/
theorem trailing_garbage_counterexample :
    wellFormedDecimal "12abc".toList = false ∧ wellFormedInteger "57th".toList = false ∧
    parseStudentLine trailingGarbageLine
      = Except.ok { exampleStudent with totalMarks := 12, rankObtained := 57 } ∧
    loadStudentLine [] trailingGarbageLine
      = [{ exampleStudent with totalMarks := 12, rankObtained := 57 }] := by
  refine ⟨by decide, by decide, ?_, ?_⟩
  · with_unfolding_all rfl
  · with_unfolding_all rfl

theorem roundHalfEven_natCast (k : Nat) : roundHalfEven (k : ℚ) = k := by
  unfold roundHalfEven
  have hf : Rat.floor (k : ℚ) = (k : Int) := @Int.floor_natCast ℚ _ _ k
  simp only [hf]
  have : (k : ℚ) - ((k : Int) : ℚ) = 0 := by push_cast; ring
  rw [this, if_pos (by norm_num)]

theorem digitsValue_append (a b : Str) :
    digitsValue (a ++ b) = b.foldl (fun acc c => 10 * acc + (c.toNat - 48)) (digitsValue a) := by
  unfold digitsValue
  rw [List.foldl_append]

theorem roundHalfEven_close (q : ℚ) : |(roundHalfEven q : ℚ) - q| ≤ 1 / 2 := by
  have h1 : ((Rat.floor q : Int) : ℚ) ≤ q := @Int.floor_le ℚ _ _ q
  have h2 : q < ((Rat.floor q : Int) : ℚ) + 1 := @Int.lt_floor_add_one ℚ _ _ q
  unfold roundHalfEven
  simp only
  rw [abs_le]
  split_ifs with ha hb hc
  · constructor <;> linarith
  · push_cast
    constructor <;> linarith
  · constructor <;> linarith
  · push_cast
    constructor <;> linarith

theorem roundHalfEven_eq_of_close (q : ℚ) (k : Int) (h : |q - (k : ℚ)| < 1 / 2) :
    roundHalfEven q = k := by
  have h1 := roundHalfEven_close q
  have h3 : |(((roundHalfEven q - k : Int)) : ℚ)| < 1 := by
    push_cast
    have e : (roundHalfEven q : ℚ) - (k : ℚ) = ((roundHalfEven q : ℚ) - q) + (q - (k : ℚ)) := by
      ring
    rw [e]
    exact lt_of_le_of_lt (abs_add _ _) (by linarith)
  have h4 : |roundHalfEven q - k| < 1 := by exact_mod_cast h3
  have h5 := Int.abs_lt_one_iff.1 h4
  omega

theorem scaleToSignificand_up : ∀ (fuel j : Nat) (m u : ℚ), 0 < m → m < 9007199254740992 →
    j ≤ fuel → 4503599627370496 ≤ m * 2 ^ j →
    (scaleToSignificand fuel m u).1 * (scaleToSignificand fuel m u).2 = m * u ∧
    4503599627370496 ≤ (scaleToSignificand fuel m u).1 ∧
    (scaleToSignificand fuel m u).1 < 9007199254740992 ∧
    (0 < u → 0 < (scaleToSignificand fuel m u).2)
  | 0, j, m, u, _, h1, hj, h2 => by
    have hj0 : j = 0 := by omega
    rw [hj0, pow_zero, mul_one] at h2
    exact ⟨rfl, h2, h1, id⟩
  | fuel + 1, j, m, u, h0, h1, hj, h2 => by
    by_cases hlt : m < 4503599627370496
    · have hjpos : j ≠ 0 := by
        intro hj0
        rw [hj0, pow_zero, mul_one] at h2
        linarith
      obtain ⟨i, rfl⟩ : ∃ i, j = i + 1 := ⟨j - 1, by omega⟩
      have ih := scaleToSignificand_up fuel i (m * 2) (u / 2) (by linarith) (by linarith)
        (by omega) (by rw [pow_succ] at h2; linarith)
      have e : scaleToSignificand (fuel + 1) m u = scaleToSignificand fuel (m * 2) (u / 2) := by
        rw [scaleToSignificand, if_pos hlt]
      rw [e]
      exact ⟨by rw [ih.1]; ring, ih.2.1, ih.2.2.1, fun hu => ih.2.2.2 (by linarith)⟩
    · have e : scaleToSignificand (fuel + 1) m u = (m, u) := by
        rw [scaleToSignificand, if_neg hlt, if_neg (not_le.2 h1)]
      rw [e]
      exact ⟨rfl, not_lt.1 hlt, h1, id⟩

theorem nearestDouble_close (q : ℚ) (h0 : 0 < q) (h1 : q < 9007199254740992)
    (h2 : 1 / 1024 ≤ q) :
    |nearestDouble q - q| ≤ q / 9007199254740992 ∧ 0 < nearestDouble q := by
  have hfuel : (4503599627370496 : ℚ) ≤ q * 2 ^ 62 := by
    have h62 : (2 : ℚ) ^ 62 = 4503599627370496 * 1024 := by norm_num
    rw [h62]
    linarith
  obtain ⟨hprod, hlo, hhi, hu⟩ :=
    scaleToSignificand_up 1100 62 q 1 h0 h1 (by decide) hfuel
  have hupos := hu one_pos
  have hc := roundHalfEven_close (scaleToSignificand 1100 q 1).1
  unfold nearestDouble
  rw [if_neg (ne_of_gt h0), abs_of_pos h0]
  simp only [if_neg (not_lt.2 (le_of_lt h0))]
  generalize (scaleToSignificand 1100 q 1).1 = m at *
  generalize (scaleToSignificand 1100 q 1).2 = u at *
  rw [mul_one] at hprod
  rw [abs_le] at hc
  have hmu : (4503599627370496 : ℚ) * u ≤ m * u := mul_le_mul_of_nonneg_right hlo (le_of_lt hupos)
  have hup : ((roundHalfEven m : ℚ) - m) * u ≤ 1 / 2 * u :=
    mul_le_mul_of_nonneg_right hc.2 (le_of_lt hupos)
  have hdn : -(1 / 2) * u ≤ ((roundHalfEven m : ℚ) - m) * u :=
    mul_le_mul_of_nonneg_right hc.1 (le_of_lt hupos)
  constructor
  · rw [abs_le]
    constructor <;> nlinarith
  · have : (0 : ℚ) < (roundHalfEven m : ℚ) := by linarith
    positivity

theorem nearestDouble_hundredths (k : Nat) (hk : k < 4503599627370496) :
    0 ≤ nearestDouble ((k : ℚ) / 100) ∧
    roundHalfEven (|nearestDouble ((k : ℚ) / 100)| * 100) = (k : Int) ∧
    (1 ≤ k → (1 : ℚ) / 1024 ≤ nearestDouble ((k : ℚ) / 100)) := by
  rcases Nat.eq_zero_or_pos k with h0 | hpos
  · subst h0
    have hz : nearestDouble (((0 : Nat) : ℚ) / 100) = 0 := by
      unfold nearestDouble
      rw [if_pos (by norm_num)]
    rw [hz]
    refine ⟨le_refl _, ?_, fun h => absurd h (by decide)⟩
    have := roundHalfEven_natCast 0
    simpa using this
  · have hk1 : (1 : ℚ) ≤ (k : ℚ) := by exact_mod_cast hpos
    have hk2 : (k : ℚ) < 4503599627370496 := by exact_mod_cast hk
    obtain ⟨hc, hp⟩ := nearestDouble_close ((k : ℚ) / 100) (by positivity) (by linarith)
      (by linarith)
    rw [abs_le] at hc
    refine ⟨le_of_lt hp, ?_, fun _ => by linarith⟩
    apply roundHalfEven_eq_of_close
    rw [abs_of_pos hp, abs_lt]
    push_cast
    constructor <;> linarith

theorem readHexadecimal_of_second (c x : Char) (rest : Str) (hx : x ≠ 'x') (hX : x ≠ 'X') :
    readHexadecimal (c :: x :: rest) = none := by
  unfold readHexadecimal
  split
  · rename_i heq
    simp only [List.cons.injEq] at heq
    obtain ⟨_, rfl, _⟩ := heq
    rw [if_neg (by simp [hx, hX])]
  · rfl

theorem readHexadecimal_natToString (n : Nat) (r : Str) :
    readHexadecimal (natToString n ++ '.' :: r) = none := by
  have hd := natToString_isDigit n
  cases hs : natToString n with
  | nil => exact absurd hs (natToString_spec n).1
  | cons c t =>
    cases t with
    | nil => exact readHexadecimal_of_second c '.' r (by decide) (by decide)
    | cons c2 t2 =>
      have h2 : c2.isDigit = true := hd c2 (by rw [hs]; simp)
      refine readHexadecimal_of_second c c2 _ ?_ ?_
      · rintro rfl
        exact absurd h2 (by decide)
      · rintro rfl
        exact absurd h2 (by decide)

theorem toDouble_hundredths (k : Nat) (hk : k < 4503599627370496) :
    toDouble ((k : ℚ) / 100) = Except.ok (nearestDouble ((k : ℚ) / 100)) := by
  obtain ⟨_, _, hlow⟩ := nearestDouble_hundredths k hk
  have hk2 : (k : ℚ) < 4503599627370496 := by exact_mod_cast hk
  have hmax : ¬ (DBL_OVERFLOW ≤ (k : ℚ) / 100) := by
    have : (4503599627370496 : ℚ) < DBL_OVERFLOW := by
      unfold DBL_OVERFLOW
      norm_num
    intro h
    linarith
  unfold toDouble
  rw [if_neg hmax]
  rcases Nat.eq_zero_or_pos k with h0 | hpos
  · subst h0
    have hz : nearestDouble (((0 : Nat) : ℚ) / 100) = 0 := by
      unfold nearestDouble
      rw [if_pos (by norm_num)]
    have hmin : ¬ (DBL_MIN ≤ 0) := by
      unfold DBL_MIN
      norm_num
    have hr : roundHalfEven 0 = 0 := by
      have := roundHalfEven_natCast 0
      simpa using this
    rw [hz, if_neg hmin]
    simp [hr]
  · have hmin : DBL_MIN ≤ 1 / 1024 := by
      unfold DBL_MIN
      norm_num
    rw [if_pos (le_trans hmin (hlow hpos))]

theorem digitChar_toLower (d : Nat) (hd : d < 10) :
    (digitChar d).toLower ≠ 'i' ∧ (digitChar d).toLower ≠ 'n' := by
  interval_cases d <;> decide

theorem readNonFinite_natToString (neg : Bool) (n : Nat) (r : Str) :
    readNonFinite neg (natToString n ++ r) = none := by
  obtain ⟨d, t, hd, hs⟩ := natToString_head n
  have hl := digitChar_toLower d hd
  rw [hs]
  unfold readNonFinite
  split
  · rename_i heq
    simp only [List.cons_append, List.take_succ_cons, List.map_cons, List.cons.injEq] at heq
    exact absurd heq.1 hl.1
  · rename_i heq
    simp only [List.cons_append, List.take_succ_cons, List.map_cons, List.cons.injEq] at heq
    exact absurd heq.1 hl.2
  · rfl

theorem stod_hundredths_text (k : Nat) (hk : k < 4503599627370496) :
    stod (natToString (k / 100) ++ ['.', digitChar (k / 10 % 10), digitChar (k % 10)])
      = Except.ok (Double.finite (nearestDouble ((k : ℚ) / 100))) := by
  have hd1 : k / 10 % 10 < 10 := Nat.mod_lt _ (by decide)
  have hd2 : k % 10 < 10 := Nat.mod_lt _ (by decide)
  have hdig := natToString_isDigit (k / 100)
  have hne := (natToString_spec (k / 100)).1
  have hval := (natToString_spec (k / 100)).2.2
  have hdot : Char.isDigit '.' = false := by decide
  have htake : (natToString (k / 100) ++ ['.', digitChar (k / 10 % 10), digitChar (k % 10)]).takeWhile
      Char.isDigit = natToString (k / 100) :=
    takeWhile_append_stop _ _ _ hdig (by simp [hdot])
  have hdrop : (natToString (k / 100) ++ ['.', digitChar (k / 10 % 10), digitChar (k % 10)]).dropWhile
      Char.isDigit = ['.', digitChar (k / 10 % 10), digitChar (k % 10)] :=
    dropWhile_append_stop _ _ _ hdig (by simp [hdot])
  have hfrac : [digitChar (k / 10 % 10), digitChar (k % 10)].takeWhile Char.isDigit
      = [digitChar (k / 10 % 10), digitChar (k % 10)] := by
    simp [List.takeWhile, (digitChar_props _ hd1).1, (digitChar_props _ hd2).1]
  have hfrac' : [digitChar (k / 10 % 10), digitChar (k % 10)].dropWhile Char.isDigit = [] := by
    simp [List.dropWhile, (digitChar_props _ hd1).1, (digitChar_props _ hd2).1]
  have hdv : digitsValue (natToString (k / 100) ++ [digitChar (k / 10 % 10), digitChar (k % 10)])
      = k := by
    rw [digitsValue_append, hval]
    simp only [List.foldl_cons, List.foldl_nil, (digitChar_props _ hd1).2.2.2.2.2.2.2,
      (digitChar_props _ hd2).2.2.2.2.2.2.2]
    omega
  have hne' : ¬ (natToString (k / 100) = [] ∧ [digitChar (k / 10 % 10), digitChar (k % 10)] = []) :=
    fun h => hne h.1
  have hdec : readDecimal (natToString (k / 100) ++
      ['.', digitChar (k / 10 % 10), digitChar (k % 10)]) = some ((k : ℚ) / 100) := by
    unfold readDecimal
    simp only [htake, hdrop, hfrac, hfrac', hdv, parseExponent, List.length_cons, List.length_nil]
    rw [if_neg hne']
    norm_num
  unfold stod
  rw [dropWhile_isspace_natToString, splitSign_natToString]
  simp only [readNonFinite_natToString, readHexadecimal_natToString, hdec,
    toDouble_hundredths k hk]
  rfl

theorem fixed2_nearest (k : Nat) (hk : k < 4503599627370496) :
    fixed2 (nearestDouble ((k : ℚ) / 100))
      = natToString (k / 100) ++ ['.', digitChar (k / 10 % 10), digitChar (k % 10)] := by
  obtain ⟨h0, hr, _⟩ := nearestDouble_hundredths k hk
  unfold fixed2
  simp only [hr, Int.toNat_ofNat, if_neg (not_lt.2 h0), List.nil_append]

theorem stod_fixed2 (k : Nat) (hk : k < 4503599627370496) :
    stod (fixed2 (nearestDouble ((k : ℚ) / 100)))
      = Except.ok (Double.finite (nearestDouble ((k : ℚ) / 100))) := by
  rw [fixed2_nearest k hk]
  exact stod_hundredths_text k hk

theorem readLines_not_good (fuel : Nat) (rest : Str) :
    readLines fuel { rest := rest, good := false } = [] := by
  cases fuel with
  | zero => rfl
  | succ f => rfl

theorem readLines_terminated (bodies : List Str) (tail : Str)
    (hb : ∀ b ∈ bodies, '\n' ∉ b) (ht : '\n' ∉ tail) :
    ∀ fuel : Nat, bodies.length < fuel →
      readLines fuel { rest := (bodies.map (fun b => b ++ ['\n'])).flatten ++ tail, good := true }
        = bodies ++ (if tail = [] then [] else [tail]) := by
  induction bodies with
  | nil =>
    intro fuel hfuel
    obtain ⟨f, rfl⟩ : ∃ f, fuel = f + 1 := ⟨fuel - 1, by simp at hfuel; omega⟩
    simp only [List.map_nil, List.flatten_nil, List.nil_append]
    by_cases htl : tail = []
    · subst htl
      rfl
    · rw [if_neg htl]
      unfold readLines
      rw [getline_of_end tail '\n' ht htl]
      simp only
      rw [readLines_not_good]
  | cons b bs ih =>
    intro fuel hfuel
    obtain ⟨f, rfl⟩ : ∃ f, fuel = f + 1 := ⟨fuel - 1, by simp at hfuel; omega⟩
    have hb' : '\n' ∉ b := hb b (List.mem_cons_self _ _)
    simp only [List.map_cons, List.flatten_cons, List.append_assoc, List.singleton_append,
      List.cons_append, List.nil_append]
    unfold readLines
    rw [getline_of_delim b _ '\n' hb']
    simp only
    rw [ih (fun x hx => hb x (List.mem_cons_of_mem _ hx)) f (by simp at hfuel ⊢; omega)]

theorem fileLines_terminated (bodies : List Str) (tail : Str)
    (hb : ∀ b ∈ bodies, '\n' ∉ b) (ht : '\n' ∉ tail) :
    fileLines ((bodies.map (fun b => b ++ ['\n'])).flatten ++ tail)
      = bodies ++ (if tail = [] then [] else [tail]) := by
  unfold fileLines
  apply readLines_terminated bodies tail hb ht
  have hlen : bodies.length ≤ ((bodies.map (fun b => b ++ ['\n'])).flatten).length := by
    clear hb
    induction bodies with
    | nil => simp
    | cons b bs ih =>
      simp only [List.map_cons, List.flatten_cons, List.length_append, List.length_cons,
        List.length_nil, List.length_singleton]
      omega
  rw [List.length_append]
  omega

theorem foldl_loadStudentLine (lines : List Str) (acc : List Student) :
    lines.foldl loadStudentLine acc
      = acc ++ lines.filterMap (fun line => (parseStudentLine line).toOption) := by
  induction lines generalizing acc with
  | nil => simp
  | cons l ls ih =>
    rw [List.foldl_cons, ih]
    unfold loadStudentLine
    cases hp : parseStudentLine l with
    | error e => simp [List.filterMap_cons, hp, Except.toOption]
    | ok s => simp [List.filterMap_cons, hp, Except.toOption]

theorem to_string_pos_chars (n : Int) (hn : 0 < n) : ',' ∉ to_string n := by
  unfold to_string
  rw [if_neg (by omega)]
  intro h
  obtain ⟨e, he, hc⟩ := (natToString_spec n.natAbs).2.1 _ h
  exact (digitChar_props e he).2.2.2.2.1 hc.symm

theorem to_string_pos_no_newline (n : Int) (hn : 0 < n) : '\n' ∉ to_string n := by
  unfold to_string
  rw [if_neg (by omega)]
  intro h
  obtain ⟨e, he, hc⟩ := (natToString_spec n.natAbs).2.1 _ h
  exact (digitChar_props e he).2.2.2.2.2.1 hc.symm

theorem studentLine_eq_row (s : Student) : studentLine s = studentRow s ++ ['\n'] := by
  unfold studentLine studentRow
  simp only [List.append_assoc, List.singleton_append, List.cons_append, List.nil_append]

theorem writeStudents_foldl (students : List Student) (acc : Str) :
    students.foldl (fun out s => out ++ studentLine s) acc
      = acc ++ (students.map studentLine).flatten := by
  induction students generalizing acc with
  | nil => simp
  | cons s ss ih =>
    rw [List.foldl_cons, ih]
    simp [List.append_assoc]

theorem writeStudents_eq_rows (students : List Student) :
    writeStudents students
      = ((students.map studentRow).map (fun b => b ++ ['\n'])).flatten ++ [] := by
  unfold writeStudents
  have h : ((fun b : Str => b ++ ['\n']) ∘ studentRow) = studentLine :=
    funext (fun s => (studentLine_eq_row s).symm)
  rw [writeStudents_foldl, List.nil_append, List.append_nil, List.map_map, h]

theorem fixed2_nearest_chars (k : Nat) (hk : k < 4503599627370496) :
    ',' ∉ fixed2 (nearestDouble ((k : ℚ) / 100)) ∧
      '\n' ∉ fixed2 (nearestDouble ((k : ℚ) / 100)) ∧
      fixed2 (nearestDouble ((k : ℚ) / 100)) ≠ [] := by
  rw [fixed2_nearest k hk]
  have hd1 : k / 10 % 10 < 10 := Nat.mod_lt _ (by decide)
  have hd2 : k % 10 < 10 := Nat.mod_lt _ (by decide)
  have p1 := digitChar_props _ hd1
  have p2 := digitChar_props _ hd2
  refine ⟨?_, ?_, ?_⟩
  · intro h
    rcases List.mem_append.1 h with h | h
    · obtain ⟨e, he, hc⟩ := (natToString_spec (k / 100)).2.1 _ h
      exact (digitChar_props e he).2.2.2.2.1 hc.symm
    · simp only [List.mem_cons, List.mem_singleton, List.not_mem_nil, or_false] at h
      rcases h with h | h | h
      · exact absurd h (by decide)
      · exact p1.2.2.2.2.1 h.symm
      · exact p2.2.2.2.2.1 h.symm
  · intro h
    rcases List.mem_append.1 h with h | h
    · obtain ⟨e, he, hc⟩ := (natToString_spec (k / 100)).2.1 _ h
      exact (digitChar_props e he).2.2.2.2.2.1 hc.symm
    · simp only [List.mem_cons, List.mem_singleton, List.not_mem_nil, or_false] at h
      rcases h with h | h | h
      · exact absurd h (by decide)
      · exact p1.2.2.2.2.2.1 h.symm
      · exact p2.2.2.2.2.2.1 h.symm
  · simp

theorem parseStudentLine_studentRow (s : Student) (hv : ValidRecord s) (ht : TextFieldsPlain s)
    (hrank : s.rankObtained ≤ 2147483647)
    (hm : TwoDecimalDouble s.totalMarks) (hp : TwoDecimalDouble s.expectedPackage)
    (hf : TwoDecimalDouble s.feesPaid) :
    parseStudentLine (studentRow s) = Except.ok s := by
  obtain ⟨_, _, _, hr0, _, _⟩ := hv
  obtain ⟨km, hkm, hm⟩ := hm
  obtain ⟨kp, hkp, hp⟩ := hp
  obtain ⟨kf, hkf, hf⟩ := hf
  have t := fun f hf => (ht f hf).1
  unfold studentRow
  rw [parseStudentLine_of_fields _ _ _ _ _ _ _ _ _ _ _ _
    (t _ (by simp)) (t _ (by simp)) (t _ (by simp)) (t _ (by simp)) (t _ (by simp))
    (t _ (by simp)) (t _ (by simp)) (t _ (by simp))
    (by rw [hm]; exact (fixed2_nearest_chars km hkm).1)
    (to_string_pos_chars _ hr0)
    (by rw [hp]; exact (fixed2_nearest_chars kp hkp).1)]
  have e1 : stod (fixed2 s.totalMarks) = Except.ok (Double.finite s.totalMarks) := by
    rw [hm]; exact stod_fixed2 km hkm
  have e2 : stoi (to_string s.rankObtained) = Except.ok s.rankObtained :=
    stoi_to_string _ (by omega) hrank
  have e3 : stod (fixed2 s.expectedPackage) = Except.ok (Double.finite s.expectedPackage) := by
    rw [hp]; exact stod_fixed2 kp hkp
  have e4 : stod (fixed2 s.feesPaid) = Except.ok (Double.finite s.feesPaid) := by
    rw [hf]; exact stod_fixed2 kf hkf
  have e5 : getlineOrThrow { rest := fixed2 s.feesPaid, good := true } '\n' "Fees paid missing"
      = Except.ok (fixed2 s.feesPaid, { rest := [], good := false }) := by
    unfold getlineOrThrow
    rw [getline_of_end _ '\n' (by rw [hf]; exact (fixed2_nearest_chars kf hkf).2.1)
      (by rw [hf]; exact (fixed2_nearest_chars kf hkf).2.2)]
  rw [e1, e2, e3, e5]
  simp only [liftConv, liftDouble, except_ok_bind, e4]

theorem studentRow_no_newline (s : Student) (hv : ValidRecord s) (ht : TextFieldsPlain s)
    (hm : TwoDecimalDouble s.totalMarks) (hp : TwoDecimalDouble s.expectedPackage)
    (hf : TwoDecimalDouble s.feesPaid) : '\n' ∉ studentRow s := by
  obtain ⟨_, _, _, hr0, _, _⟩ := hv
  obtain ⟨km, hkm, hm⟩ := hm
  obtain ⟨kp, hkp, hp⟩ := hp
  obtain ⟨kf, hkf, hf⟩ := hf
  have t := fun f hf => (ht f hf).2
  have n1 : '\n' ∉ fixed2 s.totalMarks := by rw [hm]; exact (fixed2_nearest_chars km hkm).2.1
  have n2 : '\n' ∉ fixed2 s.expectedPackage := by
    rw [hp]; exact (fixed2_nearest_chars kp hkp).2.1
  have n3 : '\n' ∉ fixed2 s.feesPaid := by rw [hf]; exact (fixed2_nearest_chars kf hkf).2.1
  have n4 := to_string_pos_no_newline _ hr0
  have c : ('\n' : Char) ≠ ',' := by decide
  unfold studentRow
  simp only [List.mem_append, List.mem_cons, not_or]
  exact ⟨t _ (by simp), c, t _ (by simp), c, t _ (by simp), c, t _ (by simp), c, t _ (by simp), c,
    t _ (by simp), c, t _ (by simp), c, t _ (by simp), c, n1, c, n4, c, n2, c, n3⟩

/-- Claim C6, amended: for every list of valid student records (admission type KCET or
Management, marks in 0..500, positive rank, non-negative package and fees) whose eight text
fields contain no comma and no line break, whose rank is an `int`, and whose marks, expected
package and fees are each the `double` nearest to a number with at most two decimal places
below 2^52 / 100, the content written in `saveStudentsToFile`'s line format is read back by
`loadStudentsFromFile`'s loop as the same list; hence saving to a file that can be written and
read and loading it again restores exactly the list, whatever was in memory. -/
theorem save_load_roundtrip (students : List Student)
    (hrec : ∀ s ∈ students, ValidRecord s ∧ TextFieldsPlain s ∧ s.rankObtained ≤ 2147483647 ∧
      TwoDecimalDouble s.totalMarks ∧ TwoDecimalDouble s.expectedPackage ∧
      TwoDecimalDouble s.feesPaid) :
    (fileLines (writeStudents students)).foldl loadStudentLine [] = students ∧
    ∀ st : SystemState, st.students = students → st.studentsFile.canWrite = true →
      st.studentsFile.canRead = true →
      ∀ inMemory : List Student,
        (loadStudentsFromFile { saveStudentsToFile st with students := inMemory }).students
          = students := by
  have hmain : (fileLines (writeStudents students)).foldl loadStudentLine [] = students := by
    rw [writeStudents_eq_rows, fileLines_terminated _ [] _ (by simp), if_pos rfl, List.append_nil,
      foldl_loadStudentLine, List.nil_append, List.filterMap_map]
    · have hall : ∀ s ∈ students,
          ((fun line => (parseStudentLine line).toOption) ∘ studentRow) s = some s := by
        intro s hs
        obtain ⟨hv, ht, hrank, hm, hp, hf⟩ := hrec s hs
        simp only [Function.comp, parseStudentLine_studentRow s hv ht hrank hm hp hf,
          Except.toOption]
      clear hrec
      induction students with
      | nil => rfl
      | cons x xs ih =>
        rw [List.filterMap_cons, hall x (List.mem_cons_self _ _),
          ih (fun s hs => hall s (List.mem_cons_of_mem _ hs))]
    · intro b hb
      obtain ⟨s, hs, rfl⟩ := List.mem_map.1 hb
      obtain ⟨hv, ht, _, hm, hp, hf⟩ := hrec s hs
      exact studentRow_no_newline s hv ht hm hp hf
  refine ⟨hmain, ?_⟩
  intro st hst hw hr inMemory
  unfold loadStudentsFromFile saveStudentsToFile openForReading
  simp only [hw, if_true, hr, hst]
  exact hmain

theorem validRecord_exampleStudent : ValidRecord exampleStudent := by
  unfold ValidRecord exampleStudent
  refine ⟨Or.inr rfl, ?_, ?_, ?_, ?_, ?_⟩ <;> norm_num

theorem textFieldsPlain_exampleStudent : TextFieldsPlain exampleStudent := by
  unfold TextFieldsPlain
  decide

theorem validRecord_nearestStudent : ValidRecord nearestStudent := by
  unfold ValidRecord nearestStudent exampleStudent
  refine ⟨Or.inr rfl, ?_, ?_, ?_, ?_, ?_⟩ <;> norm_num

theorem textFieldsPlain_nearestStudent : TextFieldsPlain nearestStudent := by
  unfold TextFieldsPlain
  decide

theorem save_load_roundtrip_witness :
    (fileLines (writeStudents [exampleStudent, nearestStudent])).foldl loadStudentLine []
      = [exampleStudent, nearestStudent] ∧
    ∀ st : SystemState, st.students = [exampleStudent, nearestStudent] →
      st.studentsFile.canWrite = true → st.studentsFile.canRead = true →
      ∀ inMemory : List Student,
        (loadStudentsFromFile { saveStudentsToFile st with students := inMemory }).students
          = [exampleStudent, nearestStudent] :=
  save_load_roundtrip [exampleStudent, nearestStudent] (fun s hs => by
    rcases List.mem_cons.1 hs with h | h
    · rw [h]
      exact ⟨validRecord_exampleStudent, textFieldsPlain_exampleStudent, by decide,
        ⟨41250, by decide, by with_unfolding_all rfl⟩, ⟨650, by decide, by with_unfolding_all rfl⟩,
        ⟨14400000, by decide, by with_unfolding_all rfl⟩⟩
    · rw [List.mem_singleton.1 h]
      exact ⟨validRecord_nearestStudent, textFieldsPlain_nearestStudent, by decide,
        ⟨38403, by decide, by with_unfolding_all rfl⟩, ⟨650, by decide, by with_unfolding_all rfl⟩,
        ⟨14400000, by decide, by with_unfolding_all rfl⟩⟩)

/-- Claim C6 fails as stated: the record `fourDecimalStudent` is valid and its text fields hold
no comma or line break, but its marks 375.0625 are written as `375.06`, so the record read back
has for marks the `double` nearest to 375.06 and differs from the one written. -/
theorem save_load_roundtrip_counterexample :
    ValidRecord fourDecimalStudent ∧ TextFieldsPlain fourDecimalStudent ∧
    writeStudents [fourDecimalStudent]
      = ("Asha,9800000001,asha@example.com,Street 1,O+,SID1001," ++
          "Civil Engineering,Management,375.06,57,6.50,144000.00\n").toList ∧
    (fileLines (writeStudents [fourDecimalStudent])).foldl loadStudentLine []
      = [{ fourDecimalStudent with totalMarks := 6598125297818665 / 17592186044416 }] ∧
    (fileLines (writeStudents [fourDecimalStudent])).foldl loadStudentLine []
      ≠ [fourDecimalStudent] := by
  have hload : (fileLines (writeStudents [fourDecimalStudent])).foldl loadStudentLine []
      = [{ fourDecimalStudent with totalMarks := 6598125297818665 / 17592186044416 }] := by
    with_unfolding_all rfl
  refine ⟨?_, ?_, ?_, hload, ?_⟩
  · unfold ValidRecord fourDecimalStudent exampleStudent
    refine ⟨Or.inr rfl, ?_, ?_, ?_, ?_, ?_⟩ <;> norm_num
  · unfold TextFieldsPlain
    decide
  · with_unfolding_all rfl
  · rw [hload]
    intro h
    have hm := congrArg (fun l => l.map Student.totalMarks) h
    simp only [List.map_cons, List.map_nil, List.cons.injEq, and_true] at hm
    unfold fourDecimalStudent at hm
    norm_num at hm

theorem binarysearchRun_fst : ∀ (fuel : Nat) (arr : List Int) (key left right : Int),
    (binarysearchRun fuel arr key left right).1 = binarysearchLoop fuel arr key left right := by
  intro fuel
  induction fuel with
  | zero => intro arr key left right; rfl
  | succ n ih =>
    intro arr key left right
    unfold binarysearchRun binarysearchLoop
    by_cases hlr : left ≤ right
    · simp only [hlr, if_true]
      cases readArr arr (Int.tdiv (wrap32 (left + right)) 2) with
      | none => rfl
      | some v =>
        simp only
        by_cases hv : v = key
        · simp only [hv, if_true]
        · simp only [hv, if_false]
          by_cases hlt : v < key
          · simp only [hlt, if_true]
            exact ih _ _ _ _
          · simp only [hlt, if_false]
            exact ih _ _ _ _
    · simp only [hlr, if_false]

/-- The bounds claimed for one iteration on an array of `size` elements. -/
theorem binarysearchRun_in_bounds (arr : List Int) (key : Int)
    (hlen : (arr.length : Int) ≤ 1073741824) :
    ∀ (fuel : Nat) (left right : Int), 0 ≤ left → right < arr.length → left ≤ right + 1 →
      right - left + 1 < fuel →
      (∃ r, (binarysearchRun fuel arr key left right).1 = Outcome.ret r) ∧
      ∀ it ∈ (binarysearchRun fuel arr key left right).2,
        0 ≤ it.left ∧ it.left ≤ it.mid ∧ it.mid ≤ it.right ∧ it.right ≤ arr.length - 1 ∧
        it.left + it.right ≤ 2147483647 ∧ it.mid = (it.left + it.right) / 2 ∧
        (readArr arr it.mid).isSome = true := by
  intro fuel
  induction fuel with
  | zero => intro left right h0 h1 h2 h3; omega
  | succ n ih =>
    intro left right h0 h1 h2 h3
    unfold binarysearchRun
    by_cases hlr : left ≤ right
    · have hsum : wrap32 (left + right) = left + right := wrap32_of_range _ (by omega) (by omega)
      have hmid : Int.tdiv (left + right) 2 = (left + right) / 2 := tdiv_two_of_nonneg _ (by omega)
      simp only [hlr, if_true, hsum, hmid]
      have hm0 : left ≤ (left + right) / 2 := by omega
      have hm1 : (left + right) / 2 ≤ right := by omega
      obtain ⟨v, hv⟩ := readArr_isSome arr ((left + right) / 2) (by omega) (by omega)
      have hhere : 0 ≤ left ∧ left ≤ (left + right) / 2 ∧ (left + right) / 2 ≤ right ∧
          right ≤ (arr.length : Int) - 1 ∧ left + right ≤ 2147483647 ∧
          (left + right) / 2 = (left + right) / 2 ∧
          (readArr arr ((left + right) / 2)).isSome = true :=
        ⟨h0, hm0, hm1, by omega, by omega, rfl, by rw [hv]; rfl⟩
      simp only [hv]
      by_cases hvk : v = key
      · simp only [hvk, if_true]
        refine ⟨⟨_, rfl⟩, ?_⟩
        intro it hit
        rw [List.mem_singleton] at hit
        subst hit
        exact hhere
      · by_cases hlt : v < key
        · have hw : wrap32 ((left + right) / 2 + 1) = (left + right) / 2 + 1 :=
            wrap32_of_range _ (by omega) (by omega)
          simp only [hvk, if_false, hlt, if_true, hw]
          obtain ⟨hret, hall⟩ := ih ((left + right) / 2 + 1) right (by omega) h1 (by omega)
            (by omega)
          refine ⟨hret, ?_⟩
          intro it hit
          rcases List.mem_cons.1 hit with rfl | hit'
          · exact hhere
          · exact hall it hit'
        · have hw : wrap32 ((left + right) / 2 - 1) = (left + right) / 2 - 1 :=
            wrap32_of_range _ (by omega) (by omega)
          simp only [hvk, if_false, hlt, hw]
          obtain ⟨hret, hall⟩ := ih left ((left + right) / 2 - 1) h0 (by omega) (by omega)
            (by omega)
          refine ⟨hret, ?_⟩
          intro it hit
          rcases List.mem_cons.1 hit with rfl | hit'
          · exact hhere
          · exact hall it hit'
    · simp only [hlr, if_false]
      exact ⟨⟨-1, rfl⟩, fun it hit => by cases hit⟩

/-- Claim C20: for every array of length `size` with 0 ≤ size ≤ 2^30 and every key, sorted or
not, every iteration of `binarysearch` has 0 ≤ left ≤ mid ≤ right ≤ size - 1 with
mid = (left + right) / 2 computed without leaving the `int` range, and its read `arr[mid]` is
inside the array; the call returns a value, so the iterations recorded are all of them. -/
theorem binarysearch_iterations_in_bounds (arr : List Int) (key : Int)
    (hsize : arr.length ≤ 1073741824) :
    (∀ it ∈ binarysearchIterations arr arr.length key,
      0 ≤ it.left ∧ it.left ≤ it.mid ∧ it.mid ≤ it.right ∧ it.right ≤ (arr.length : Int) - 1 ∧
      it.left + it.right ≤ 2147483647 ∧ wrap32 (it.left + it.right) = it.left + it.right ∧
      it.mid = (it.left + it.right) / 2 ∧ (readArr arr it.mid).isSome = true) ∧
    ∃ r, binarysearch arr arr.length key = Outcome.ret r := by
  have hw : wrap32 ((arr.length : Int) - 1) = (arr.length : Int) - 1 :=
    wrap32_of_range _ (by omega) (by omega)
  obtain ⟨hret, hall⟩ := binarysearchRun_in_bounds arr key (by omega)
    ((arr.length : Int).toNat + 1) 0 ((arr.length : Int) - 1) (by omega) (by omega) (by omega)
    (by omega)
  constructor
  · intro it hit
    unfold binarysearchIterations at hit
    rw [hw] at hit
    obtain ⟨a, b, c, d, e, f, g⟩ := hall it hit
    exact ⟨a, b, c, d, e, wrap32_of_range _ (by omega) (by omega), f, g⟩
  · obtain ⟨r, hr⟩ := hret
    refine ⟨r, ?_⟩
    unfold binarysearch
    rw [hw, ← binarysearchRun_fst]
    exact hr

theorem binarysearch_iterations_in_bounds_witness :
    binarysearchIterations [2, 5, 10, 15, 20, 25] 6 15
      = [{ left := 0, right := 5, mid := 2 }, { left := 3, right := 5, mid := 4 },
         { left := 3, right := 3, mid := 3 }] ∧
    ((∀ it ∈ binarysearchIterations [2, 5, 10, 15, 20, 25]
        ([2, 5, 10, 15, 20, 25] : List Int).length 15,
      0 ≤ it.left ∧ it.left ≤ it.mid ∧ it.mid ≤ it.right ∧
      it.right ≤ (([2, 5, 10, 15, 20, 25] : List Int).length : Int) - 1 ∧
      it.left + it.right ≤ 2147483647 ∧ wrap32 (it.left + it.right) = it.left + it.right ∧
      it.mid = (it.left + it.right) / 2 ∧
      (readArr [2, 5, 10, 15, 20, 25] it.mid).isSome = true) ∧
    ∃ r, binarysearch [2, 5, 10, 15, 20, 25] ([2, 5, 10, 15, 20, 25] : List Int).length 15
      = Outcome.ret r) :=
  ⟨by decide, binarysearch_iterations_in_bounds [2, 5, 10, 15, 20, 25] 15 (by decide)⟩

/-- Claim C11: when the students file (respectively the courses file) cannot be opened for
reading, `loadStudentsFromFile` (respectively `loadCoursesFromFile`) returns the state it was
given, so the in-memory lists are exactly as they were; when the file cannot be opened for
writing, `saveStudentsToFile` and `saveCoursesToFile` return the state they were given, so
neither list changes. -/
theorem open_failure_keeps_lists :
    (∀ st : SystemState, openForReading st.studentsFile = none →
      loadStudentsFromFile st = st ∧ (loadStudentsFromFile st).students = st.students) ∧
    (∀ st : SystemState, openForReading st.coursesFile = none →
      loadCoursesFromFile st = st ∧ (loadCoursesFromFile st).courses = st.courses) ∧
    (∀ st : SystemState, st.studentsFile.canWrite = false →
      saveStudentsToFile st = st ∧ (saveStudentsToFile st).students = st.students ∧
        (saveStudentsToFile st).courses = st.courses) ∧
    (∀ st : SystemState, st.coursesFile.canWrite = false →
      saveCoursesToFile st = st ∧ (saveCoursesToFile st).students = st.students ∧
        (saveCoursesToFile st).courses = st.courses) := by
  refine ⟨?_, ?_, ?_, ?_⟩
  · intro st h
    have : loadStudentsFromFile st = st := by
      unfold loadStudentsFromFile
      rw [h]
    exact ⟨this, by rw [this]⟩
  · intro st h
    have : loadCoursesFromFile st = st := by
      unfold loadCoursesFromFile
      rw [h]
    exact ⟨this, by rw [this]⟩
  · intro st h
    have : saveStudentsToFile st = st := by
      unfold saveStudentsToFile
      rw [h]
      rfl
    exact ⟨this, by rw [this], by rw [this]⟩
  · intro st h
    have : saveCoursesToFile st = st := by
      unfold saveCoursesToFile
      rw [h]
      rfl
    exact ⟨this, by rw [this], by rw [this]⟩

theorem open_failure_keeps_lists_witness :
    (loadStudentsFromFile lockedFilesState = lockedFilesState ∧
      (loadStudentsFromFile lockedFilesState).students = lockedFilesState.students) ∧
    (loadCoursesFromFile lockedFilesState = lockedFilesState ∧
      (loadCoursesFromFile lockedFilesState).courses = lockedFilesState.courses) ∧
    (saveStudentsToFile lockedFilesState = lockedFilesState ∧
      (saveStudentsToFile lockedFilesState).students = lockedFilesState.students ∧
      (saveStudentsToFile lockedFilesState).courses = lockedFilesState.courses) ∧
    (saveCoursesToFile lockedFilesState = lockedFilesState ∧
      (saveCoursesToFile lockedFilesState).students = lockedFilesState.students ∧
      (saveCoursesToFile lockedFilesState).courses = lockedFilesState.courses) :=
  ⟨open_failure_keeps_lists.1 lockedFilesState (by decide),
   open_failure_keeps_lists.2.1 lockedFilesState (by decide),
   open_failure_keeps_lists.2.2.1 lockedFilesState (by decide),
   open_failure_keeps_lists.2.2.2 lockedFilesState (by decide)⟩

/-- Claim C19: when the course list is empty, `generateSampleStudents(N)` returns, for every N,
the state it was given: the student list is unchanged, the ID counter is unchanged (no student
ID is consumed) and the students file is untouched. -/
theorem generateSampleStudents_no_courses (st : SystemState) (N : Int) (rand : Nat → Nat)
    (hc : st.courses = []) :
    generateSampleStudents st N rand = st ∧
      (generateSampleStudents st N rand).students = st.students ∧
      (generateSampleStudents st N rand).nextID = st.nextID ∧
      (generateSampleStudents st N rand).studentsFile = st.studentsFile := by
  have : generateSampleStudents st N rand = st := by
    unfold generateSampleStudents
    rw [if_pos hc]
  exact ⟨this, by rw [this], by rw [this], by rw [this]⟩

theorem generateSampleStudents_no_courses_witness :
    generateSampleStudents noCourseState 30 exampleRand = noCourseState ∧
      (generateSampleStudents noCourseState 30 exampleRand).students = noCourseState.students ∧
      (generateSampleStudents noCourseState 30 exampleRand).nextID = noCourseState.nextID ∧
      (generateSampleStudents noCourseState 30 exampleRand).studentsFile
        = noCourseState.studentsFile :=
  generateSampleStudents_no_courses noCourseState 30 exampleRand (by decide)

theorem readValidated_valid {α : Type} (invalid : α → Bool) (entries : List (Option α)) (v : α)
    (h : readValidated invalid entries = some v) : invalid v = false ∧ some v ∈ entries := by
  induction entries with
  | nil => simp [readValidated] at h
  | cons e rest ih =>
    cases e with
    | none =>
      unfold readValidated at h
      exact ⟨(ih h).1, List.mem_cons_of_mem _ (ih h).2⟩
    | some w =>
      unfold readValidated at h
      by_cases hw : invalid w = true
      · rw [if_pos hw] at h
        exact ⟨(ih h).1, List.mem_cons_of_mem _ (ih h).2⟩
      · rw [if_neg hw] at h
        cases h
        exact ⟨by simpa using hw, List.mem_cons_self _ _⟩

theorem readAdmissionType_mem (entries : List Str) (t : Str)
    (h : readAdmissionType entries = some t) : t ∈ entries := by
  induction entries with
  | nil => simp [readAdmissionType] at h
  | cons e rest ih =>
    unfold readAdmissionType at h
    by_cases hinv : e ≠ KCET ∧ e ≠ Management
    · rw [if_pos hinv] at h
      exact List.mem_cons_of_mem _ (ih h)
    · rw [if_neg hinv] at h
      cases h
      exact List.mem_cons_self _ _

theorem addStudent_cases (st st' : SystemState) (inp : StudentInput)
    (h : addStudent st inp = some st') :
    st'.students = st.students ∨
    ∃ c t m r p, findCourse st.courses inp.courseName = some c ∧
      readAdmissionType inp.admissionTypes = some t ∧
      readValidated (fun m : ℚ => m < 0 || 500 < m) inp.marksEntries = some m ∧
      readValidated (fun r : Int => r ≤ 0) inp.rankEntries = some r ∧
      readValidated (fun p : ℚ => p < 0) inp.packageEntries = some p ∧
      st'.students = st.students ++
        [{ name := inp.name, phoneNumber := inp.phoneNumber, email := inp.email,
           address := inp.address, bloodGroup := inp.bloodGroup,
           studentID := (generateStudentID st).1, admittedCourse := inp.courseName,
           admissionType := t, totalMarks := m, rankObtained := r, expectedPackage := p,
           feesPaid := if t = KCET then c.kcetFees
             else c.managementFees * (1 - MANAGEMENT_DISCOUNT_PERCENTAGE / 100) }] := by
  unfold addStudent at h
  simp only [generateStudentID_courses] at h
  split at h
  · cases h
    exact Or.inl rfl
  · split at h
    · cases h
      exact Or.inl rfl
    · rename_i c hc
      split at h
      · cases h
      · rename_i t ht
        split at h
        · cases h
        · rename_i m hm
          split at h
          · cases h
          · rename_i r hr
            split at h
            · cases h
            · rename_i p hp
              cases h
              right
              refine ⟨c, t, m, r, p, hc, ht, hm, hr, hp, ?_⟩
              rw [saveStudentsToFile_students]
              rfl

/-- Claim C12: whatever the user types, `addStudent`, when it returns, either leaves the student
list as it was or appends exactly one record, and that record passed every check: its admission
type is "KCET" or "Management", 0 ≤ totalMarks ≤ 500, rankObtained ≥ 1, expectedPackage ≥ 0 and
admittedCourse is the name of a course of the course list; the values stored are among those
typed, so a value failing a check is never stored. -/
theorem addStudent_stores_only_checked_records (st st' : SystemState) (inp : StudentInput)
    (h : addStudent st inp = some st') :
    st'.students = st.students ∨
    ∃ s, st'.students = st.students ++ [s] ∧ PassedInputChecks st.courses s ∧
      s.admittedCourse = inp.courseName ∧ s.admissionType ∈ inp.admissionTypes ∧
      some s.totalMarks ∈ inp.marksEntries ∧ some s.rankObtained ∈ inp.rankEntries ∧
      some s.expectedPackage ∈ inp.packageEntries := by
  rcases addStudent_cases st st' inp h with hsame | ⟨c, t, m, r, p, hc, ht, hm, hr, hp, hst⟩
  · exact Or.inl hsame
  · right
    refine ⟨_, hst, ⟨readAdmissionType_valid _ _ ht, ?_, ?_, ?_, ?_, ?_⟩, rfl, ?_,
      (readValidated_valid _ _ _ hm).2, (readValidated_valid _ _ _ hr).2,
      (readValidated_valid _ _ _ hp).2⟩
    · have := (readValidated_valid _ _ _ hm).1
      simp at this
      exact this.1
    · have := (readValidated_valid _ _ _ hm).1
      simp at this
      exact this.2
    · have := (readValidated_valid _ _ _ hr).1
      simp at this
      show 1 ≤ r
      omega
    · have := (readValidated_valid _ _ _ hp).1
      simp at this
      exact this
    · obtain ⟨hmem, hname⟩ := findCourse_some_mem _ _ _ hc
      exact ⟨c, hmem, hname⟩
    · exact readAdmissionType_mem _ _ ht

theorem addStudent_stores_only_checked_records_witness :
    exampleStateAdded.students = exampleState.students ∨
    ∃ s, exampleStateAdded.students = exampleState.students ++ [s] ∧
      PassedInputChecks exampleState.courses s ∧
      s.admittedCourse = exampleInput.courseName ∧
      s.admissionType ∈ exampleInput.admissionTypes ∧
      some s.totalMarks ∈ exampleInput.marksEntries ∧
      some s.rankObtained ∈ exampleInput.rankEntries ∧
      some s.expectedPackage ∈ exampleInput.packageEntries :=
  addStudent_stores_only_checked_records exampleState exampleStateAdded exampleInput
    (by with_unfolding_all rfl)

theorem updateFirstMatch_no_match (courses : List Course) (idToUpdate : Str) (inp : StudentInput)
    (students : List Student) (h : ∀ x ∈ students, x.studentID ≠ idToUpdate) :
    updateFirstMatch courses idToUpdate inp students = some none := by
  induction students with
  | nil => rfl
  | cons x xs ih =>
    rw [updateFirstMatch, if_neg (h x (List.mem_cons_self _ _)),
      ih (fun y hy => h y (List.mem_cons_of_mem _ hy))]

theorem updateCourseAndFees_frame (courses : List Course) (s s' : Student) (inp : StudentInput)
    (h : updateCourseAndFees courses s inp = some s') :
    s'.name = s.name ∧ s'.phoneNumber = s.phoneNumber ∧ s'.email = s.email ∧
      s'.address = s.address ∧ s'.bloodGroup = s.bloodGroup ∧ s'.studentID = s.studentID ∧
      s'.totalMarks = s.totalMarks ∧ s'.rankObtained = s.rankObtained ∧
      s'.expectedPackage = s.expectedPackage ∧
      (findCourse courses inp.courseName = none → s' = s) := by
  unfold updateCourseAndFees at h
  split at h
  · cases h
    exact ⟨rfl, rfl, rfl, rfl, rfl, rfl, rfl, rfl, rfl, fun _ => rfl⟩
  · split at h
    · cases h
      exact ⟨rfl, rfl, rfl, rfl, rfl, rfl, rfl, rfl, rfl, fun _ => rfl⟩
    · rename_i c hc
      split at h
      · cases h
      · cases h
        exact ⟨rfl, rfl, rfl, rfl, rfl, rfl, rfl, rfl, rfl, fun hn => by rw [hn] at hc; cases hc⟩

theorem updateStudent_frame (courses : List Course) (s s' : Student) (inp : StudentInput)
    (h : updateStudent courses s inp = some s') :
    s'.studentID = s.studentID ∧
      (findCourse courses inp.courseName = none →
        s'.admittedCourse = s.admittedCourse ∧ s'.admissionType = s.admissionType ∧
          s'.feesPaid = s.feesPaid) := by
  unfold updateStudent at h
  simp only at h
  generalize hs1 : updateCourseAndFees courses _ inp = r1 at h
  cases r1 with
  | none => cases h
  | some s1 =>
    have hf := updateCourseAndFees_frame _ _ _ _ hs1
    simp only at h
    generalize readValidated (fun m : ℚ => m < 0 || 500 < m) inp.marksEntries = r2 at h
    cases r2 with
    | none => cases h
    | some m =>
      simp only at h
      generalize readValidated (fun r : Int => r ≤ 0) inp.rankEntries = r3 at h
      cases r3 with
      | none => cases h
      | some r =>
        simp only at h
        generalize readValidated (fun p : ℚ => p < 0) inp.packageEntries = r4 at h
        cases r4 with
        | none => cases h
        | some p =>
          simp only at h
          cases h
          refine ⟨hf.2.2.2.2.2.1, fun hn => ?_⟩
          have := hf.2.2.2.2.2.2.2.2.2 hn
          rw [this]
          exact ⟨rfl, rfl, rfl⟩

/-- Claim C18: `updateStudentDetails` changes at most the first record whose `studentID` equals
the given ID. When no record matches it returns the state unchanged. When it returns after
updating, the first matching record keeps its `studentID` and its position, every record before
and after it is the same record at the same position, and when the entered course name is not
in the course list the record keeps its `admittedCourse`, `admissionType` and `feesPaid`. -/
theorem updateStudentDetails_frame :
    (∀ (st : SystemState) (idToUpdate : Str) (inp : StudentInput),
      (∀ x ∈ st.students, x.studentID ≠ idToUpdate) →
      updateStudentDetails st idToUpdate inp = some st) ∧
    (∀ (st st' : SystemState) (idToUpdate : Str) (inp : StudentInput)
      (pre post : List Student) (s : Student),
      st.students = pre ++ s :: post → (∀ x ∈ pre, x.studentID ≠ idToUpdate) →
      s.studentID = idToUpdate → updateStudentDetails st idToUpdate inp = some st' →
      ∃ s', st'.students = pre ++ s' :: post ∧ s'.studentID = s.studentID ∧
        st'.students.length = st.students.length ∧
        (findCourse st.courses inp.courseName = none →
          s'.admittedCourse = s.admittedCourse ∧ s'.admissionType = s.admissionType ∧
            s'.feesPaid = s.feesPaid)) := by
  constructor
  · intro st idToUpdate inp hno
    unfold updateStudentDetails
    by_cases hemp : st.students = []
    · rw [if_pos hemp]
    · rw [if_neg hemp, updateFirstMatch_no_match _ _ _ _ hno]
  · intro st st' idToUpdate inp pre post s hst hpre hs h
    obtain ⟨s', hu, hst'⟩ := updateStudentDetails_at st st' idToUpdate inp pre post s hst hpre hs h
    obtain ⟨hid, hkeep⟩ := updateStudent_frame _ _ _ _ hu
    refine ⟨s', hst', hid, ?_, hkeep⟩
    rw [hst', hst]
    simp

theorem updateStudentDetails_frame_witness :
    updateStudentDetails exampleStateAdded "SID2000".toList exampleInput
      = some exampleStateAdded ∧
    ∃ s', exampleStateAdded.students = [] ++ s' :: [] ∧
      s'.studentID = exampleStudent.studentID ∧
      exampleStateAdded.students.length = exampleStateAdded.students.length ∧
      (findCourse exampleStateAdded.courses unknownCourseInput.courseName = none →
        s'.admittedCourse = exampleStudent.admittedCourse ∧
          s'.admissionType = exampleStudent.admissionType ∧
          s'.feesPaid = exampleStudent.feesPaid) :=
  ⟨updateStudentDetails_frame.1 exampleStateAdded "SID2000".toList exampleInput (by decide),
   updateStudentDetails_frame.2 exampleStateAdded exampleStateAdded "SID1001".toList
     unknownCourseInput [] [] exampleStudent (by with_unfolding_all rfl)
     (fun x hx => by cases hx) (by with_unfolding_all rfl) (by with_unfolding_all rfl)⟩

theorem generateStudentID_number (st : SystemState) (hlo : 1001 ≤ st.nextID)
    (hfit : CounterFits st) :
    ∃ n : Int, (generateStudentID st).1 = SID ++ to_string n ∧ st.nextID ≤ n ∧
      n < 2147483647 ∧ (generateStudentID st).2.nextID = n + 1 := by
  obtain ⟨hnext, hmax⟩ := hfit
  have h0 : 0 ≤ maxExistingID st.students := maxExistingID_foldl_ge _ 0
  unfold generateStudentID
  simp only
  by_cases hne : st.students ≠ []
  · rw [if_pos hne]
    by_cases hcmp : st.nextID ≤ maxExistingID st.students
    · rw [if_pos hcmp, wrap32_of_range _ (by omega) (by omega)]
      exact ⟨_, rfl, by omega, by omega, wrap32_of_range _ (by omega) (by omega)⟩
    · rw [if_neg hcmp]
      exact ⟨_, rfl, le_refl _, hnext, wrap32_of_range _ (by omega) (by omega)⟩
  · rw [if_neg hne]
    exact ⟨_, rfl, le_refl _, hnext, wrap32_of_range _ (by omega) (by omega)⟩

theorem to_string_injective (a b : Int) (ha : -2147483648 ≤ a ∧ a ≤ 2147483647)
    (hb : -2147483648 ≤ b ∧ b ≤ 2147483647) (h : to_string a = to_string b) : a = b := by
  have h1 := stoi_to_string a ha.1 ha.2
  have h2 := stoi_to_string b hb.1 hb.2
  rw [h, h2] at h1
  exact (Except.ok.inj h1).symm

theorem successive_numbers (states : List SystemState) :
    ∀ lo : Int, 1001 ≤ lo → SuccessiveCalls states → (∀ st ∈ states.head?, lo ≤ st.nextID) →
      (∀ st ∈ states, CounterFits st) →
      ∃ numbers : List Int,
        states.map (fun st => (generateStudentID st).1)
          = numbers.map (fun n => SID ++ to_string n) ∧
        List.Sorted (fun a b => a < b) numbers ∧
        ∀ n ∈ numbers, lo ≤ n ∧ n < 2147483647 := by
  induction states with
  | nil =>
    intro lo _ _ _ _
    exact ⟨[], rfl, List.sorted_nil, fun n hn => by cases hn⟩
  | cons a rest ih =>
    intro lo hlo hchain hhead hfit
    have ha : lo ≤ a.nextID := hhead a (by simp)
    obtain ⟨n, hid, hn1, hn2, hnext⟩ :=
      generateStudentID_number a (by omega) (hfit a (List.mem_cons_self _ _))
    have hchain' : SuccessiveCalls rest := List.Chain'.tail hchain
    have hhead' : ∀ st ∈ rest.head?, n + 1 ≤ st.nextID := by
      intro st hst
      cases rest with
      | nil => simp at hst
      | cons b bs =>
        simp only [List.head?_cons, Option.mem_def, Option.some.injEq] at hst
        subst hst
        have := (List.chain'_cons.1 hchain).1
        rw [this, hnext]
    obtain ⟨numbers, hmap, hsorted, hall⟩ := ih (n + 1) (by omega) hchain' hhead'
      (fun st hst => hfit st (List.mem_cons_of_mem _ hst))
    refine ⟨n :: numbers, ?_, ?_, ?_⟩
    · simp only [List.map_cons, hid, hmap]
    · refine List.sorted_cons.2 ⟨?_, hsorted⟩
      intro b hb
      have := (hall b hb).1
      omega
    · intro b hb
      rcases List.mem_cons.1 hb with rfl | hb'
      · exact ⟨by omega, hn2⟩
      · exact ⟨by have := (hall b hb').1; omega, (hall b hb').2⟩

/-- Claim C13, amended: within one process run in which the ID counter never overflows `int`,
the IDs returned by successive calls of `generateStudentID` are "SID" followed by numbers that
are strictly increasing and each at least 1001, whatever the student list is at each call; in
particular no ID is returned twice. -/
theorem successive_ids_increase (states : List SystemState) (hrun : SuccessiveCalls states)
    (hstart : ∀ st ∈ states.head?, st.nextID = 1001)
    (hfit : ∀ st ∈ states, CounterFits st) :
    ∃ numbers : List Int,
      states.map (fun st => (generateStudentID st).1)
        = numbers.map (fun n => SID ++ to_string n) ∧
      List.Sorted (fun a b => a < b) numbers ∧ (∀ n ∈ numbers, 1001 ≤ n) ∧
      (states.map (fun st => (generateStudentID st).1)).Nodup := by
  obtain ⟨numbers, hmap, hsorted, hall⟩ := successive_numbers states 1001 (le_refl _) hrun
    (fun st hst => by rw [hstart st hst]) hfit
  refine ⟨numbers, hmap, hsorted, fun n hn => (hall n hn).1, ?_⟩
  rw [hmap]
  refine List.Nodup.map_on ?_ hsorted.nodup
  intro a ha b hb hab
  have ha' := hall a ha
  have hb' := hall b hb
  exact to_string_injective a b ⟨by omega, by omega⟩ ⟨by omega, by omega⟩
    (List.append_cancel_left hab)

theorem successive_ids_increase_witness :
    [exampleState, afterDeletionState].map (fun st => (generateStudentID st).1)
      = ["SID1001".toList, "SID1002".toList] ∧
    ∃ numbers : List Int,
      [exampleState, afterDeletionState].map (fun st => (generateStudentID st).1)
        = numbers.map (fun n => SID ++ to_string n) ∧
      List.Sorted (fun a b => a < b) numbers ∧ (∀ n ∈ numbers, 1001 ≤ n) ∧
      ([exampleState, afterDeletionState].map (fun st => (generateStudentID st).1)).Nodup :=
  ⟨by decide,
   successive_ids_increase [exampleState, afterDeletionState]
    (by unfold SuccessiveCalls; exact List.chain'_pair.2 (by decide)) (by decide)
    (fun st hst => by
      simp only [List.mem_cons, List.mem_singleton, List.not_mem_nil, or_false] at hst
      rcases hst with rfl | rfl <;> (unfold CounterFits; decide))⟩

/-- Claim C13 fails as stated: in a run whose first call returns "SID1001", once a student with
ID "SID2147483647" has been loaded the second call computes 2147483647 + 1 in `int` and returns
"SID-2147483648", whose numeric suffix is below 1001 and below the suffix returned before. -/
theorem successive_ids_counterexample :
    SuccessiveCalls [exampleState, maxSuffixState] ∧ exampleState.nextID = 1001 ∧
    (generateStudentID exampleState).1 = SID ++ to_string 1001 ∧
    (generateStudentID maxSuffixState).1 = SID ++ to_string (-2147483648) ∧
    (generateStudentID maxSuffixState).1 = "SID-2147483648".toList ∧
    ¬ ((1001 : Int) < -2147483648) ∧ ¬ ((1001 : Int) ≤ -2147483648) := by
  refine ⟨?_, by decide, by decide, by decide, by decide, by decide, by decide⟩
  unfold SuccessiveCalls
  exact List.chain'_pair.2 (by decide)

theorem sortInsert_perm {α : Type} (comp : α → α → Bool) (x : α) (l : List α) :
    List.Perm (sortInsert comp x l) (x :: l) := by
  induction l with
  | nil => exact List.Perm.refl _
  | cons y ys ih =>
    unfold sortInsert
    by_cases h : comp x y = true
    · rw [if_pos h]
    · rw [if_neg h]
      exact (List.Perm.cons y ih).trans (List.Perm.swap x y ys)

theorem sortInsert_rank_sorted (x : Student) (l : List Student)
    (hl : List.Sorted (fun a b : Student => a.rankObtained ≤ b.rankObtained) l) :
    List.Sorted (fun a b : Student => a.rankObtained ≤ b.rankObtained)
      (sortInsert (fun a b : Student => a.rankObtained < b.rankObtained) x l) := by
  induction l with
  | nil => exact List.sorted_singleton x
  | cons y ys ih =>
    unfold sortInsert
    have hy := List.sorted_cons.1 hl
    by_cases h : x.rankObtained < y.rankObtained
    · simp only [h, decide_True, if_true]
      refine List.sorted_cons.2 ⟨?_, hl⟩
      intro b hb
      rcases List.mem_cons.1 hb with rfl | hb'
      · omega
      · have := hy.1 b hb'
        omega
    · simp only [h, decide_False, Bool.false_eq_true, if_false]
      refine List.sorted_cons.2 ⟨?_, ih hy.2⟩
      intro b hb
      have hb' := (sortInsert_perm _ x ys).subset hb
      rcases List.mem_cons.1 hb' with rfl | hb''
      · omega
      · exact hy.1 b hb''

theorem std_sort_foldl_spec (v acc : List Student)
    (hacc : List.Sorted (fun a b : Student => a.rankObtained ≤ b.rankObtained) acc) :
    List.Sorted (fun a b : Student => a.rankObtained ≤ b.rankObtained)
      (v.foldl (fun sorted x =>
        sortInsert (fun a b : Student => a.rankObtained < b.rankObtained) x sorted) acc) ∧
    List.Perm
      (v.foldl (fun sorted x =>
        sortInsert (fun a b : Student => a.rankObtained < b.rankObtained) x sorted) acc)
      (acc ++ v) := by
  induction v generalizing acc with
  | nil => exact ⟨hacc, by simp⟩
  | cons x xs ih =>
    rw [List.foldl_cons]
    obtain ⟨h1, h2⟩ := ih _ (sortInsert_rank_sorted x acc hacc)
    refine ⟨h1, h2.trans ?_⟩
    have h3 := (sortInsert_perm (fun a b : Student => a.rankObtained < b.rankObtained) x acc)
    have h4 : List.Perm (x :: acc) (acc ++ [x]) := by
      rw [← List.singleton_append]
      exact List.perm_append_comm
    have h5 := (h3.trans h4).append_right xs
    simpa using h5

/-- Claim C16: after `sortStudentsByRank` the student list is in non-decreasing order of
`rankObtained` and is a permutation of the list before the call, so no record is lost,
duplicated or altered; this holds for every list, the empty one included. -/
theorem sortStudentsByRank_sorted_perm (st : SystemState) :
    List.Sorted (fun a b : Student => a.rankObtained ≤ b.rankObtained)
      (sortStudentsByRank st).students ∧
    List.Perm (sortStudentsByRank st).students st.students := by
  unfold sortStudentsByRank
  by_cases hemp : st.students = []
  · rw [if_pos hemp, hemp]
    exact ⟨List.sorted_nil, List.Perm.refl _⟩
  · rw [if_neg hemp]
    obtain ⟨h1, h2⟩ := std_sort_foldl_spec st.students [] List.sorted_nil
    exact ⟨h1, by simpa using h2⟩

theorem setFile_other (fs : Stu2.Files) (fileName n : Str) (file : TextFile)
    (h : n ≠ fileName) : Stu2.setFile fs fileName file n = fs n := by
  unfold Stu2.setFile
  rw [if_neg h]

theorem setFile_same (fs : Stu2.Files) (fileName : Str) (file : TextFile) :
    Stu2.setFile fs fileName file fileName = file := by
  unfold Stu2.setFile
  rw [if_pos rfl]

/-- Claim C14, behaviour of the code at the failing input: with the names "Asha", "Ravi" and
the key "Ravi" the program of key02.cpp reports position 2 and then prints the "not found"
message as well; for every list of names and every key the "not found" message is printed,
also when a name equals the key. -/
theorem key02_prints_not_found_after_match :
    Key02.main ["Asha".toList, "Ravi".toList] "Ravi".toList
      = [Key02.Message.found "Ravi".toList 2, Key02.Message.notFound "Ravi".toList] ∧
    ∀ (names : List Str) (key : Str), Key02.Message.notFound key ∈ Key02.main names key := by
  refine ⟨by decide, ?_⟩
  intro names key
  unfold Key02.main
  simp

/-- Claim C15, behaviour of the code at the failing input: in a directory without files,
`addStudent` of "Asha 20 A" succeeds and writes the line to the file named " students.txt"
(with a leading space); the file "students.txt" read by `searchStudentByName` still does not
exist, so the search for "Asha" prints "Student not found."; for every directory `addStudent`
leaves the file "students.txt" as it was. -/
theorem stu2_addStudent_writes_other_file :
    (Stu2.addStudent Stu2.emptyDirectory "Asha".toList 20 'A').2 = true ∧
    ((Stu2.addStudent Stu2.emptyDirectory "Asha".toList 20 'A').1 Stu2.addFileName).content
      = some "Asha 20 A\n".toList ∧
    ((Stu2.addStudent Stu2.emptyDirectory "Asha".toList 20 'A').1 Stu2.studentsFileName).content
      = none ∧
    Stu2.searchStudentByName (Stu2.addStudent Stu2.emptyDirectory "Asha".toList 20 'A').1
      "Asha".toList = [Stu2.Message.studentNotFound] ∧
    ∀ (fs : Stu2.Files) (name : Str) (age : Int) (grade : Char),
      (Stu2.addStudent fs name age grade).1 Stu2.studentsFileName = fs Stu2.studentsFileName := by
  refine ⟨by decide, by decide, by decide, by decide, ?_⟩
  intro fs name age grade
  by_cases hw : (fs Stu2.addFileName).canWrite = true
  · simp only [Stu2.addStudent, hw, if_true]
    exact setFile_other _ _ _ _ (by decide)
  · simp only [Stu2.addStudent, hw, Bool.false_eq_true, if_false]

theorem extractString_some (ss ss' : IStream) (token : Str)
    (h : Stu2.extractString ss = some (token, ss')) :
    token ≠ [] ∧ ∀ c ∈ token, isspace c = false := by
  unfold Stu2.extractString at h
  by_cases hg : ss.good = true
  · rw [if_pos hg] at h
    simp only at h
    split at h
    · cases h
    · rename_i hne
      cases h
      refine ⟨hne, fun c hc => ?_⟩
      have := List.mem_takeWhile_imp hc
      simpa using this
  · rw [if_neg hg] at h
    cases h

theorem extractInt_some (ss ss' : IStream) (v : Int)
    (h : Stu2.extractInt ss = some (v, ss')) : -2147483648 ≤ v ∧ v ≤ 2147483647 := by
  unfold Stu2.extractInt at h
  by_cases hg : ss.good = true
  · rw [if_pos hg] at h
    generalize splitSign (ss.rest.dropWhile isspace) = sp at h
    obtain ⟨neg, body⟩ := sp
    simp only at h
    by_cases hds : body.takeWhile Char.isDigit = []
    · rw [if_pos hds] at h
      cases h
    · rw [if_neg hds] at h
      generalize (if neg = true then -(digitsValue (body.takeWhile Char.isDigit) : Int)
        else (digitsValue (body.takeWhile Char.isDigit) : Int)) = w at h
      by_cases hr : w < -2147483648 ∨ 2147483647 < w
      · rw [if_pos hr] at h
        cases h
      · rw [if_neg hr] at h
        cases h
        omega
  · rw [if_neg hg] at h
    cases h

theorem extractChar_some (ss ss' : IStream) (c : Char)
    (h : Stu2.extractChar ss = some (c, ss')) : isspace c = false := by
  unfold Stu2.extractChar at h
  by_cases hg : ss.good = true
  · rw [if_pos hg] at h
    split at h
    · cases h
    · rename_i c' rest heq
      cases h
      have := List.head_dropWhile_not isspace ss.rest (by rw [heq]; simp)
      simpa [heq] using this
  · rw [if_neg hg] at h
    cases h

theorem readRecord_printable (line : Str) (r : Stu2.Student)
    (h : Stu2.readRecord line = some r) : Stu2.Printable r := by
  unfold Stu2.readRecord at h
  split at h
  · cases h
  · rename_i name iss h1
    split at h
    · cases h
    · rename_i age iss2 h2
      split at h
      · cases h
      · rename_i grade iss3 h3
        cases h
        have a := extractString_some _ _ _ h1
        have b := extractInt_some _ _ _ h2
        have c := extractChar_some _ _ _ h3
        exact ⟨a.1, a.2, b.1, b.2, c⟩

theorem isspace_space : isspace ' ' = true := by decide

theorem dropWhile_isspace_of_head (c : Char) (t : Str) (h : isspace c = false) :
    (c :: t).dropWhile isspace = c :: t := by
  simp [List.dropWhile, h]

theorem extractString_word (name rest : Str) (hne : name ≠ [])
    (hw : ∀ c ∈ name, isspace c = false) :
    Stu2.extractString { rest := name ++ ' ' :: rest, good := true }
      = some (name, { rest := ' ' :: rest, good := true }) := by
  unfold Stu2.extractString
  simp only [if_true]
  have hdrop : (name ++ ' ' :: rest).dropWhile isspace = name ++ ' ' :: rest := by
    cases name with
    | nil => exact absurd rfl hne
    | cons c t => exact dropWhile_isspace_of_head c _ (hw c (List.mem_cons_self _ _))
  have hp : ∀ c ∈ name, (fun c => !isspace c) c = true := by
    intro c hc
    simp [hw c hc]
  have hstop : ∀ c ∈ (' ' :: rest).head?, (fun c => !isspace c) c = false := by
    intro c hc
    simp only [List.head?_cons, Option.mem_def, Option.some.injEq] at hc
    subst hc
    simp [isspace_space]
  rw [hdrop, takeWhile_append_stop _ name _ hp hstop, dropWhile_append_stop _ name _ hp hstop,
    if_neg hne]
  rfl

theorem to_string_split (n : Int) (t : Str) :
    (to_string n ++ t).dropWhile isspace = to_string n ++ t ∧
    splitSign (to_string n ++ t) = (decide (n < 0), natToString n.natAbs ++ t) := by
  unfold to_string
  by_cases hneg : n < 0
  · rw [if_pos hneg]
    refine ⟨dropWhile_isspace_of_head _ _ (by decide), ?_⟩
    simp [splitSign, hneg]
  · rw [if_neg hneg]
    refine ⟨dropWhile_isspace_natToString _ _, ?_⟩
    rw [splitSign_natToString]
    simp [hneg]

theorem extractInt_number (n : Int) (rest : Str) (hlo : -2147483648 ≤ n)
    (hhi : n ≤ 2147483647) :
    Stu2.extractInt { rest := ' ' :: (to_string n ++ ' ' :: rest), good := true }
      = some (n, { rest := ' ' :: rest, good := true }) := by
  unfold Stu2.extractInt
  simp only [if_true]
  have h1 : (' ' :: (to_string n ++ ' ' :: rest)).dropWhile isspace
      = to_string n ++ ' ' :: rest := by
    rw [List.dropWhile_cons, if_pos isspace_space]
    exact (to_string_split n _).1
  have hdig := natToString_isDigit n.natAbs
  have hstop : ∀ c ∈ (' ' :: rest).head?, Char.isDigit c = false := by
    intro c hc
    simp only [List.head?_cons, Option.mem_def, Option.some.injEq] at hc
    subst hc
    decide
  rw [h1, (to_string_split n _).2]
  simp only [takeWhile_append_stop _ _ _ hdig hstop, dropWhile_append_stop _ _ _ hdig hstop,
    if_neg (natToString_spec n.natAbs).1, (natToString_spec n.natAbs).2.2]
  by_cases hneg : n < 0
  · have hv : -(n.natAbs : Int) = n := by omega
    simp only [hneg, decide_True, if_true, hv]
    rw [if_neg (by omega)]
    rfl
  · have hv : (n.natAbs : Int) = n := by omega
    simp only [hneg, decide_False, Bool.false_eq_true, if_false, hv]
    rw [if_neg (by omega)]
    rfl

theorem readRecord_recordRow (r : Stu2.Student) (hp : Stu2.Printable r) :
    Stu2.readRecord (Stu2.recordRow r) = some r := by
  obtain ⟨hne, hw, hlo, hhi, hg⟩ := hp
  unfold Stu2.readRecord Stu2.recordRow
  rw [extractString_word r.name _ hne hw]
  simp only
  rw [extractInt_number r.age _ hlo hhi]
  simp only
  have : Stu2.extractChar { rest := [' ', r.grade], good := true }
      = some (r.grade, { rest := [], good := true }) := by
    unfold Stu2.extractChar
    simp only [if_true]
    rw [List.dropWhile_cons, if_pos isspace_space, dropWhile_isspace_of_head _ _ hg]
  rw [this]

theorem to_string_no_newline (n : Int) : '\n' ∉ to_string n := by
  unfold to_string
  have hd : '\n' ∉ natToString n.natAbs := by
    intro h
    obtain ⟨e, he, hc⟩ := (natToString_spec n.natAbs).2.1 _ h
    exact (digitChar_props e he).2.2.2.2.2.1 hc.symm
  split
  · intro h
    rcases List.mem_cons.1 h with h | h
    · exact absurd h (by decide)
    · exact hd h
  · exact hd

theorem recordRow_no_newline (r : Stu2.Student) (hp : Stu2.Printable r) :
    '\n' ∉ Stu2.recordRow r := by
  obtain ⟨_, hw, _, _, hg⟩ := hp
  have hnl : isspace '\n' = true := by decide
  unfold Stu2.recordRow
  simp only [List.mem_append, List.mem_cons, List.mem_singleton, List.not_mem_nil, or_false,
    not_or]
  refine ⟨?_, by decide, to_string_no_newline _, by decide, ?_⟩
  · intro h
    have := hw _ h
    rw [hnl] at this
    cases this
  · intro h
    rw [← h, hnl] at hg
    cases hg

theorem regrade_printable (name : Str) (newGrade : Char) (r : Stu2.Student)
    (hg : isspace newGrade = false) (hp : Stu2.Printable r) :
    Stu2.Printable (Stu2.regrade name newGrade r) := by
  unfold Stu2.regrade
  split
  · exact ⟨hp.1, hp.2.1, hp.2.2.1, hp.2.2.2.1, hg⟩
  · exact hp

theorem updateStep_some (name : Str) (newGrade : Char) (acc : List Stu2.Student)
    (updated : Bool) (line : Str) (r : Stu2.Student) (h : Stu2.readRecord line = some r) :
    Stu2.updateStep name newGrade (some (acc, updated)) line
      = if r.name = name then some (acc ++ [{ r with grade := newGrade }], true)
        else some (acc ++ [r], updated) := by
  unfold Stu2.updateStep
  simp only [h]

theorem updateStep_foldl (name : Str) (newGrade : Char) (lines : List Str)
    (records : List Stu2.Student) (hrec : lines.map Stu2.readRecord = records.map some) :
    ∀ (acc : List Stu2.Student) (updated : Bool),
      lines.foldl (Stu2.updateStep name newGrade) (some (acc, updated))
        = some (acc ++ records.map (Stu2.regrade name newGrade),
            updated || records.any (fun r => decide (r.name = name))) := by
  induction lines generalizing records with
  | nil =>
    intro acc updated
    cases records with
    | nil => simp
    | cons r rs => simp at hrec
  | cons l ls ih =>
    intro acc updated
    cases records with
    | nil => simp at hrec
    | cons r rs =>
      simp only [List.map_cons, List.cons.injEq] at hrec
      obtain ⟨h1, h2⟩ := hrec
      rw [List.foldl_cons, updateStep_some name newGrade acc updated l r h1]
      by_cases hn : r.name = name
      · rw [if_pos hn, ih rs h2]
        simp [Stu2.regrade, hn]
      · rw [if_neg hn, ih rs h2]
        simp [Stu2.regrade, hn]

theorem writeRecords_foldl (students : List Stu2.Student) (acc : Str) :
    students.foldl (fun out s => out ++ Stu2.recordLine s) acc
      = acc ++ (students.map Stu2.recordLine).flatten := by
  induction students generalizing acc with
  | nil => simp
  | cons s ss ih =>
    rw [List.foldl_cons, ih]
    simp [List.append_assoc]

theorem writeRecords_eq_rows (students : List Stu2.Student) :
    Stu2.writeRecords students
      = ((students.map Stu2.recordRow).map (fun b => b ++ ['\n'])).flatten ++ [] := by
  have h : ((fun b : Str => b ++ ['\n']) ∘ Stu2.recordRow) = Stu2.recordLine := by
    funext s
    simp [Stu2.recordLine, Stu2.recordRow, List.append_assoc]
  unfold Stu2.writeRecords
  rw [writeRecords_foldl, List.nil_append, List.append_nil, List.map_map, h]

theorem fileLines_writeRecords (students : List Stu2.Student)
    (hp : ∀ s ∈ students, Stu2.Printable s) :
    (fileLines (Stu2.writeRecords students)).map Stu2.readRecord = students.map some := by
  rw [writeRecords_eq_rows, fileLines_terminated _ [] _ (by simp), if_pos rfl, List.append_nil,
    List.map_map]
  · apply List.map_congr_left
    intro s hs
    exact readRecord_recordRow s (hp s hs)
  · intro b hb
    obtain ⟨s, hs, rfl⟩ := List.mem_map.1 hb
    exact recordRow_no_newline s (hp s hs)

theorem readable_lines_records (lines : List Str)
    (h : ∀ line ∈ lines, ∃ r, Stu2.readRecord line = some r) :
    ∃ records : List Stu2.Student, lines.map Stu2.readRecord = records.map some ∧
      ∀ r ∈ records, Stu2.Printable r := by
  induction lines with
  | nil => exact ⟨[], rfl, fun r hr => by cases hr⟩
  | cons l ls ih =>
    obtain ⟨r, hr⟩ := h l (List.mem_cons_self _ _)
    obtain ⟨rs, hrs, hprs⟩ := ih (fun x hx => h x (List.mem_cons_of_mem _ hx))
    refine ⟨r :: rs, by simp [hr, hrs], ?_⟩
    intro x hx
    rcases List.mem_cons.1 hx with rfl | hx'
    · exact readRecord_printable l x hr
    · exact hprs x hx'

theorem regrade_related (name : Str) (newGrade : Char) (records : List Stu2.Student) :
    List.Forall₂ (fun r r' : Stu2.Student => r'.name = r.name ∧ r'.age = r.age ∧
      (r.name = name → r'.grade = newGrade) ∧ (r.name ≠ name → r' = r))
      records (records.map (Stu2.regrade name newGrade)) := by
  induction records with
  | nil => exact List.Forall₂.nil
  | cons r rs ih =>
    refine List.Forall₂.cons ?_ ih
    unfold Stu2.regrade
    by_cases hn : r.name = name
    · rw [if_pos hn]
      exact ⟨rfl, rfl, fun _ => rfl, fun h => absurd hn h⟩
    · rw [if_neg hn]
      exact ⟨rfl, rfl, fun h => absurd h hn, fun _ => rfl⟩

/-- Claim C17, amended: for every students.txt that can be opened for reading and for writing
and whose lines are all read as "name age grade" records, `updatesStudentGrade(name, newGrade)`,
with a new grade that is not a white-space character, returns and rewrites the file so that
reading it again gives as many records in the same order, each with the name and age it had,
with grade `newGrade` when its name equals the given name and unchanged otherwise; it reports
success if and only if the name of at least one record matched. -/
theorem updatesStudentGrade_rewrites_matching (fs : Stu2.Files) (content name : Str)
    (newGrade : Char)
    (hcontent : (fs Stu2.studentsFileName).content = some content)
    (hread : (fs Stu2.studentsFileName).canRead = true)
    (hwrite : (fs Stu2.studentsFileName).canWrite = true)
    (hgrade : isspace newGrade = false)
    (hwf : ∀ line ∈ fileLines content, (Stu2.readRecord line).isSome = true) :
    ∃ (records newRecords : List Stu2.Student) (fs' : Stu2.Files) (updated : Bool)
      (newContent : Str),
      (fileLines content).map Stu2.readRecord = records.map some ∧
      Stu2.updatesStudentGrade fs name newGrade = some (fs', updated) ∧
      (fs' Stu2.studentsFileName).content = some newContent ∧
      (fileLines newContent).map Stu2.readRecord = newRecords.map some ∧
      List.Forall₂ (fun r r' : Stu2.Student => r'.name = r.name ∧ r'.age = r.age ∧
        (r.name = name → r'.grade = newGrade) ∧ (r.name ≠ name → r' = r))
        records newRecords ∧
      (updated = true ↔ ∃ r ∈ records, r.name = name) := by
  obtain ⟨records, hrec, hprint⟩ := readable_lines_records (fileLines content)
    (fun line hl => Option.isSome_iff_exists.1 (hwf line hl))
  have hlines : Stu2.linesOf fs Stu2.studentsFileName = fileLines content := by
    unfold Stu2.linesOf openForReading
    rw [if_pos hread, hcontent]
  have hprint' : ∀ s ∈ records.map (Stu2.regrade name newGrade), Stu2.Printable s := by
    intro s hs
    obtain ⟨r, hr, rfl⟩ := List.mem_map.1 hs
    exact regrade_printable name newGrade r hgrade (hprint r hr)
  refine ⟨records, records.map (Stu2.regrade name newGrade),
    Stu2.setFile fs Stu2.studentsFileName
      { fs Stu2.studentsFileName with
        content := some (Stu2.writeRecords (records.map (Stu2.regrade name newGrade))) },
    records.any (fun r => decide (r.name = name)),
    Stu2.writeRecords (records.map (Stu2.regrade name newGrade)), hrec, ?_, ?_,
    fileLines_writeRecords _ hprint', regrade_related name newGrade records, ?_⟩
  · unfold Stu2.updatesStudentGrade
    rw [hlines, updateStep_foldl name newGrade _ records hrec [] false]
    simp only [List.nil_append, Bool.false_or, hwrite, if_true]
  · rw [setFile_same]
  · simp [List.any_eq_true]

theorem updatesStudentGrade_rewrites_matching_witness :
    (Stu2.updatesStudentGrade Stu2.classDirectory "Asha".toList 'F').map
        (fun r => ((r.1 Stu2.studentsFileName).content, r.2))
      = some (some "Asha 20 F\nRavi 21 C\nAsha 19 F\n".toList, true) ∧
    ∃ (records newRecords : List Stu2.Student) (fs' : Stu2.Files) (updated : Bool)
      (newContent : Str),
      (fileLines "Asha 20 A\nRavi 21 C\nAsha 19 B\n".toList).map Stu2.readRecord
        = records.map some ∧
      Stu2.updatesStudentGrade Stu2.classDirectory "Asha".toList 'F' = some (fs', updated) ∧
      (fs' Stu2.studentsFileName).content = some newContent ∧
      (fileLines newContent).map Stu2.readRecord = newRecords.map some ∧
      List.Forall₂ (fun r r' : Stu2.Student => r'.name = r.name ∧ r'.age = r.age ∧
        (r.name = "Asha".toList → r'.grade = 'F') ∧ (r.name ≠ "Asha".toList → r' = r))
        records newRecords ∧
      (updated = true ↔ ∃ r ∈ records, r.name = "Asha".toList) :=
  ⟨by decide,
   updatesStudentGrade_rewrites_matching Stu2.classDirectory
     "Asha 20 A\nRavi 21 C\nAsha 19 B\n".toList "Asha".toList 'F' (by decide) (by decide)
     (by decide) (by decide) (by decide)⟩

/-- Claim C17 fails as stated: every line of the students.txt of `readOnlyDirectory` and
`writeOnlyDirectory` is a well-formed record and two records are named Asha. With the file
write-protected, `updatesStudentGrade("Asha", 'F')` reports success and leaves the file as it
was, the grades of Asha still A and B; with the file unreadable, it reports that no student was
found and empties the file. Neither stream is checked after it is opened. -/
theorem updatesStudentGrade_unopenable_counterexample :
    (∀ line ∈ fileLines "Asha 20 A\nRavi 21 C\nAsha 19 B\n".toList,
      (Stu2.readRecord line).isSome = true) ∧
    (Stu2.readOnlyDirectory Stu2.studentsFileName).content
      = some "Asha 20 A\nRavi 21 C\nAsha 19 B\n".toList ∧
    (Stu2.updatesStudentGrade Stu2.readOnlyDirectory "Asha".toList 'F').map
        (fun r => ((r.1 Stu2.studentsFileName).content, r.2))
      = some (some "Asha 20 A\nRavi 21 C\nAsha 19 B\n".toList, true) ∧
    (Stu2.writeOnlyDirectory Stu2.studentsFileName).content
      = some "Asha 20 A\nRavi 21 C\nAsha 19 B\n".toList ∧
    (Stu2.updatesStudentGrade Stu2.writeOnlyDirectory "Asha".toList 'F').map
        (fun r => ((r.1 Stu2.studentsFileName).content, r.2))
      = some (some [], false) := by
  refine ⟨by decide, by decide, by decide, by decide, by decide⟩

theorem tdiv_wrap32_overflow (x : Int) (h1 : 2147483648 ≤ x) (h2 : x ≤ 4294967294) :
    Int.tdiv (wrap32 x) 2 < 0 := by
  have hw : wrap32 x = -(4294967296 - x) := by
    unfold wrap32
    omega
  rw [hw, Int.neg_tdiv, Int.tdiv_eq_ediv (by omega) (by decide)]
  omega

theorem readArr_negative (arr : List Int) (i : Int) (h : i < 0) : readArr arr i = none := by
  unfold readArr
  rw [if_neg (by omega)]

theorem binarysearchRun_head (fuel : Nat) (arr : List Int) (key left right : Int) :
    ∀ it ∈ (binarysearchRun fuel arr key left right).2.head?,
      it.left = left ∧ it.right = right := by
  intro it hit
  cases fuel with
  | zero => simp [binarysearchRun] at hit
  | succ n =>
    unfold binarysearchRun at hit
    by_cases hlr : left ≤ right
    · simp only [hlr, if_true] at hit
      cases hr : readArr arr (Int.tdiv (wrap32 (left + right)) 2) with
      | none =>
        rw [hr] at hit
        simp only [List.head?_cons, Option.mem_def, Option.some.injEq] at hit
        subst hit
        exact ⟨rfl, rfl⟩
      | some v =>
        rw [hr] at hit
        simp only at hit
        by_cases hv : v = key
        · simp only [hv, if_true, List.head?_cons, Option.mem_def, Option.some.injEq] at hit
          subst hit
          exact ⟨rfl, rfl⟩
        · by_cases hlt : v < key
          · simp only [hv, if_false, hlt, if_true, List.head?_cons, Option.mem_def,
              Option.some.injEq] at hit
            subst hit
            exact ⟨rfl, rfl⟩
          · simp only [hv, if_false, hlt, List.head?_cons, Option.mem_def,
              Option.some.injEq] at hit
            subst hit
            exact ⟨rfl, rfl⟩
    · simp only [hlr, if_false, List.head?_nil, Option.mem_def] at hit
      cases hit

theorem binarysearchRun_terminates (arr : List Int) (key : Int) :
    ∀ (fuel : Nat) (left right : Int), 0 ≤ left → right ≤ 2147483646 → left ≤ right + 1 →
      right - left + 1 < fuel →
      (binarysearchRun fuel arr key left right).1 ≠ Outcome.outOfFuel ∧
      List.Chain' Narrows (binarysearchRun fuel arr key left right).2 ∧
      ((binarysearchRun fuel arr key left right).2.length : Int) ≤ right - left + 1 := by
  intro fuel
  induction fuel with
  | zero => intro left right h0 h1 h2 h3; omega
  | succ n ih =>
    intro left right h0 h1 h2 h3
    unfold binarysearchRun
    by_cases hlr : left ≤ right
    · simp only [hlr, if_true]
      by_cases hov : left + right ≤ 2147483647
      · have hsum : wrap32 (left + right) = left + right :=
          wrap32_of_range _ (by omega) (by omega)
        have hmid : Int.tdiv (left + right) 2 = (left + right) / 2 :=
          tdiv_two_of_nonneg _ (by omega)
        simp only [hsum, hmid]
        cases hr : readArr arr ((left + right) / 2) with
        | none =>
          simp only
          exact ⟨fun h => Outcome.noConfusion h, List.chain'_singleton _, by simp; omega⟩
        | some v =>
          simp only
          by_cases hvk : v = key
          · simp only [hvk, if_true]
            exact ⟨fun h => Outcome.noConfusion h, List.chain'_singleton _, by simp; omega⟩
          · by_cases hlt : v < key
            · have hw : wrap32 ((left + right) / 2 + 1) = (left + right) / 2 + 1 :=
                wrap32_of_range _ (by omega) (by omega)
              simp only [hvk, if_false, hlt, if_true, hw]
              obtain ⟨a, b, c⟩ := ih ((left + right) / 2 + 1) right (by omega) h1 (by omega)
                (by omega)
              have hhead := binarysearchRun_head n arr key ((left + right) / 2 + 1) right
              refine ⟨a, List.chain'_cons'.2 ⟨?_, b⟩, ?_⟩
              · intro it hit
                obtain ⟨e1, e2⟩ := hhead it hit
                unfold Narrows
                simp only [e1, e2]
                omega
              · simp only [List.length_cons]
                push_cast
                omega
            · have hw : wrap32 ((left + right) / 2 - 1) = (left + right) / 2 - 1 :=
                wrap32_of_range _ (by omega) (by omega)
              simp only [hvk, if_false, hlt, hw]
              obtain ⟨a, b, c⟩ := ih left ((left + right) / 2 - 1) h0 (by omega) (by omega)
                (by omega)
              have hhead := binarysearchRun_head n arr key left ((left + right) / 2 - 1)
              refine ⟨a, List.chain'_cons'.2 ⟨?_, b⟩, ?_⟩
              · intro it hit
                obtain ⟨e1, e2⟩ := hhead it hit
                unfold Narrows
                simp only [e1, e2]
                omega
              · simp only [List.length_cons]
                push_cast
                omega
      · have hneg := tdiv_wrap32_overflow (left + right) (by omega) (by omega)
        rw [readArr_negative arr _ hneg]
        simp only
        exact ⟨fun h => Outcome.noConfusion h, List.chain'_singleton _, by simp; omega⟩
    · simp only [hlr, if_false]
      exact ⟨fun h => Outcome.noConfusion h, List.chain'_nil, by simp; omega⟩

/-- Claim C21, amended: for every array, every size with 0 ≤ size within `int` and every key,
sorted or not, the interval width `right - left + 1` strictly decreases from each iteration of
`binarysearch` to the next, so the loop performs at most `size` iterations and never runs on:
it ends by returning or by a read outside the array; and when the array has `size` elements
with size ≤ 2^30 the call returns a value. -/
theorem binarysearch_terminates (arr : List Int) (size key : Int) (h0 : 0 ≤ size)
    (hmax : size ≤ 2147483647) :
    binarysearch arr size key ≠ Outcome.outOfFuel ∧
    List.Chain' Narrows (binarysearchIterations arr size key) ∧
    ((binarysearchIterations arr size key).length : Int) ≤ size ∧
    (size = arr.length → size ≤ 1073741824 → ∃ r, binarysearch arr size key = Outcome.ret r) := by
  have hw : wrap32 (size - 1) = size - 1 := wrap32_of_range _ (by omega) (by omega)
  obtain ⟨a, b, c⟩ := binarysearchRun_terminates arr key (size.toNat + 1) 0 (size - 1)
    (le_refl _) (by omega) (by omega) (by omega)
  refine ⟨?_, ?_, ?_, ?_⟩
  · unfold binarysearch
    rw [hw, ← binarysearchRun_fst]
    exact a
  · unfold binarysearchIterations
    rw [hw]
    exact b
  · unfold binarysearchIterations
    rw [hw]
    omega
  · intro hlen hsmall
    obtain ⟨hret, _⟩ := binarysearchRun_in_bounds arr key (by omega) (size.toNat + 1) 0
      (size - 1) (le_refl _) (by omega) (by omega) (by omega)
    obtain ⟨r, hr⟩ := hret
    refine ⟨r, ?_⟩
    unfold binarysearch
    rw [hw, ← binarysearchRun_fst]
    exact hr

theorem binarysearch_terminates_witness :
    binarysearch [25, 2, 20, 5, 15, 10] 6 10 = Outcome.ret (-1) ∧
    (binarysearch [25, 2, 20, 5, 15, 10] 6 10 ≠ Outcome.outOfFuel ∧
    List.Chain' Narrows (binarysearchIterations [25, 2, 20, 5, 15, 10] 6 10) ∧
    ((binarysearchIterations [25, 2, 20, 5, 15, 10] 6 10).length : Int) ≤ 6 ∧
    ((6 : Int) = ([25, 2, 20, 5, 15, 10] : List Int).length → (6 : Int) ≤ 1073741824 →
      ∃ r, binarysearch [25, 2, 20, 5, 15, 10] 6 10 = Outcome.ret r)) :=
  ⟨by decide, binarysearch_terminates [25, 2, 20, 5, 15, 10] 6 10 (by decide) (by decide)⟩

/-- Claim C21 fails as stated: on the unsorted array made of 2^30 zeros followed by -3, with
size 2^30 + 1 and key 1, the search reaches `left = right = 2^30`, where `left + right` wraps to
-2^31 and the midpoint -2^30 is read outside the array; the call does not return a value. -/
theorem binarysearch_terminates_counterexample :
    (zerosThenNegative.length : Int) = 1073741825 ∧
    binarysearch zerosThenNegative zerosThenNegative.length 1 = Outcome.undefined ∧
    (¬ ∃ r, binarysearch zerosThenNegative zerosThenNegative.length 1 = Outcome.ret r) ∧
    wrap32 (1073741824 + 1073741824) = -2147483648 ∧
    Int.tdiv (wrap32 (1073741824 + 1073741824)) 2 = -1073741824 ∧
    readArr zerosThenNegative (-1073741824) = none := by
  have hlen : (zerosThenNegative.length : Int) = 1073741825 :=
    length_replicate_append_singleton 1073741824 0 (-3)
  have hu : binarysearch zerosThenNegative zerosThenNegative.length 1 = Outcome.undefined :=
    binarysearch_overflow _ _ hlen
      (fun i h0 h1 => readArr_append_replicate_zero 1073741824 [-3] i h0 h1)
  refine ⟨hlen, hu, ?_, by decide, by decide, readArr_negative _ _ (by decide)⟩
  rintro ⟨r, hr⟩
  rw [hu] at hr
  exact Outcome.noConfusion hr

